import Mathlib

/-!
# Verification of the Sudoku solver engine (src/solver.js)

This file is a shallow embedding, in Lean 4, of the solver core exposed as
`window.Solver = { validate, solve, solveWithSteps }`.

Modelling conventions:
* a JS 81-cell grid array is a `List Nat` (cells read through `List.getD`,
  written through `List.set`, as `grid[i]` reads of a JS array of numbers);
* a JS `Set` of digits is a `List Nat` kept in insertion order with no
  duplicates (`Set.add` appends when absent, `Set.delete` erases, `size` is
  `length`, iteration is list order) - exactly the iteration semantics the
  ECMAScript standard guarantees;
* a JS `Map` is an association list, again in insertion order;
* the step callback `onStep` is modelled by returning the list of emitted
  events in order: the JS code calls the sink synchronously once per event,
  so the sink observes precisely this list;
* the JS `while (true)` propagation loop is embedded with an explicit fuel
  argument; a dedicated `PRes.fuelOut` result marks fuel exhaustion, and the
  development proves that with the fuel used by `coreSolve` this branch is
  unreachable, so the fueled function agrees with the unbounded JS loop.
-/

/-- Grid: 81 integers, `0` denotes an empty cell (JS array of numbers). -/
abbrev Grid := List Nat

/-- One candidate set, a JS `Set` of digits in insertion order. -/
abbrev CandSet := List Nat

/-- Candidate sets for all 81 cells. -/
abbrev Cands := List CandSet

/-- Step events, mirroring the payload objects passed to `onStep`:
`{type:"assign",i,val,reason}`, `{type:"focus",i}`, `{type:"guess",i,val}`,
`{type:"backtrack",i,val}`, `{type:"unassign",i}`. -/
inductive Ev where
  | assignStep (i val : Nat) (reason : String)
  | focus (i : Nat)
  | guess (i val : Nat)
  | backtrack (i val : Nat)
  | unassign (i : Nat)
deriving DecidableEq, Repr

/-- The digit list `DIGITS = [1,...,9]`. -/
def DIGITS : List Nat := [1, 2, 3, 4, 5, 6, 7, 8, 9]

/-- The index helper `idx(r, c) = r * 9 + c`. -/
def idx (r c : Nat) : Nat := r * 9 + c

/-- The row helper `rowOf(i) = Math.floor(i / 9)`. -/
def rowOf (i : Nat) : Nat := i / 9

/-- The column helper `colOf(i) = i % 9`. -/
def colOf (i : Nat) : Nat := i % 9

/-- The box helper `boxOf(i)`. -/
def boxOf (i : Nat) : Nat := (rowOf i / 3) * 3 + colOf i / 3

/-- JS `Set.prototype.add`: append the element when it is not yet present. -/
def setAdd (s : List Nat) (x : Nat) : List Nat :=
  if x ∈ s then s else s ++ [x]

/-- The peer set of cell `i` (`PEERS[i]` in the source): built by inserting,
for `k = 0..8`, the row peer, the column peer and the box peer into a JS
`Set`, then deleting `i` itself. -/
def peersOf (i : Nat) : List Nat :=
  let r := rowOf i
  let c := colOf i
  let b := boxOf i
  let s := (List.range 9).foldl (fun s k =>
    let s := setAdd s (idx r k)
    let s := setAdd s (idx k c)
    let br := (b / 3) * 3 + k / 3
    let bc := (b % 3) * 3 + (k % 3)
    setAdd s (idx br bc)) []
  s.erase i

/-- One 3x3 box unit, rows before columns exactly as the JS double loop
pushes them. -/
def boxUnit (br bc : Nat) : List Nat :=
  ((List.range 3).map (fun r =>
    (List.range 3).map (fun c => idx (br * 3 + r) (bc * 3 + c)))).flatten

/-- The 27 units (`UNITS` in the source): 9 rows, then 9 columns, then the
9 boxes in `br`-major order. -/
def unitsOf : List (List Nat) :=
  ((List.range 9).map (fun r => (List.range 9).map (fun c => idx r c)))
  ++ ((List.range 9).map (fun c => (List.range 9).map (fun r => idx r c)))
  ++ ((List.range 3).map (fun br =>
        (List.range 3).map (fun bc => boxUnit br bc))).flatten

/-- The precomputed peer table `PEERS` (the source computes it once at
module load; here it is the stored table, proved below to agree with the
construction `peersOf`). -/
def PEERS : List (List Nat) :=
  [[1, 9, 2, 18, 3, 27, 4, 36, 10, 5, 45, 11, 6, 54, 7, 63, 19, 8, 72, 20], [0, 10, 2, 19, 3, 28, 9, 4, 37, 5, 46, 11, 6, 55, 18, 7, 64, 8, 73, 20], [0, 1, 11, 20, 3, 29, 9, 4, 38, 10, 5, 47, 6, 56, 18, 7, 65, 19, 8, 74], [0, 1, 12, 4, 2, 21, 5, 30, 39, 13, 48, 14, 6, 57, 7, 66, 22, 8, 75, 23], [0, 3, 1, 13, 2, 22, 5, 31, 12, 40, 49, 14, 6, 58, 21, 7, 67, 8, 76, 23], [0, 3, 1, 14, 4, 2, 23, 32, 12, 41, 13, 50, 6, 59, 21, 7, 68, 22, 8, 77], [0, 1, 15, 7, 2, 24, 8, 3, 33, 4, 42, 16, 5, 51, 17, 60, 69, 25, 78, 26], [0, 6, 1, 16, 2, 25, 8, 3, 34, 15, 4, 43, 5, 52, 17, 61, 24, 70, 79, 26], [0, 6, 1, 17, 7, 2, 26, 3, 35, 15, 4, 44, 16, 5, 53, 62, 24, 71, 25, 80], [0, 10, 1, 11, 18, 2, 12, 27, 13, 36, 14, 45, 15, 54, 16, 63, 19, 17, 72, 20], [9, 1, 0, 11, 19, 2, 12, 28, 13, 37, 14, 46, 15, 55, 18, 16, 64, 17, 73, 20], [9, 2, 0, 10, 1, 20, 12, 29, 13, 38, 14, 47, 15, 56, 18, 16, 65, 19, 17, 74], [9, 3, 10, 4, 11, 21, 5, 30, 13, 39, 14, 48, 15, 57, 16, 66, 22, 17, 75, 23], [9, 4, 3, 10, 11, 22, 5, 12, 31, 40, 14, 49, 15, 58, 21, 16, 67, 17, 76, 23], [9, 5, 3, 10, 4, 11, 23, 12, 32, 13, 41, 50, 15, 59, 21, 16, 68, 22, 17, 77], [9, 6, 10, 7, 11, 24, 8, 12, 33, 13, 42, 16, 14, 51, 17, 60, 69, 25, 78, 26], [9, 7, 6, 10, 11, 25, 8, 12, 34, 15, 13, 43, 14, 52, 17, 61, 24, 70, 79, 26], [9, 8, 6, 10, 7, 11, 26, 12, 35, 15, 13, 44, 16, 14, 53, 62, 24, 71, 25, 80], [0, 19, 9, 1, 20, 2, 21, 27, 22, 36, 10, 23, 45, 11, 24, 54, 25, 63, 26, 72], [18, 1, 0, 10, 20, 2, 21, 28, 9, 22, 37, 23, 46, 11, 24, 55, 25, 64, 26, 73], [18, 2, 0, 19, 11, 1, 21, 29, 9, 22, 38, 10, 23, 47, 24, 56, 25, 65, 26, 74], [18, 3, 19, 12, 4, 20, 5, 30, 22, 39, 13, 23, 48, 14, 24, 57, 25, 66, 26, 75], [18, 4, 3, 19, 13, 20, 5, 21, 31, 12, 40, 23, 49, 14, 24, 58, 25, 67, 26, 76], [18, 5, 3, 19, 14, 4, 20, 21, 32, 12, 22, 41, 13, 50, 24, 59, 25, 68, 26, 77], [18, 6, 19, 15, 7, 20, 8, 21, 33, 22, 42, 16, 23, 51, 17, 60, 25, 69, 26, 78], [18, 7, 6, 19, 16, 20, 8, 21, 34, 15, 22, 43, 23, 52, 17, 24, 61, 70, 26, 79], [18, 8, 6, 19, 17, 7, 20, 21, 35, 15, 22, 44, 16, 23, 53, 24, 62, 25, 71, 80], [0, 28, 9, 29, 18, 30, 36, 31, 37, 32, 45, 38, 33, 54, 34, 63, 46, 35, 72, 47], [27, 1, 10, 29, 19, 30, 36, 31, 37, 32, 46, 38, 33, 55, 45, 34, 64, 35, 73, 47], [27, 2, 28, 11, 20, 30, 36, 31, 38, 37, 32, 47, 33, 56, 45, 34, 65, 46, 35, 74], [27, 3, 28, 12, 31, 29, 21, 32, 39, 40, 48, 41, 33, 57, 34, 66, 49, 35, 75, 50], [27, 4, 30, 28, 13, 29, 22, 32, 39, 40, 49, 41, 33, 58, 48, 34, 67, 35, 76, 50], [27, 5, 30, 28, 14, 31, 29, 23, 39, 41, 40, 50, 33, 59, 48, 34, 68, 49, 35, 77], [27, 6, 28, 15, 34, 29, 24, 35, 30, 42, 31, 43, 32, 51, 44, 60, 69, 52, 78, 53], [27, 7, 33, 28, 16, 29, 25, 35, 30, 42, 31, 43, 32, 52, 44, 61, 51, 70, 79, 53], [27, 8, 33, 28, 17, 34, 29, 26, 30, 42, 31, 44, 43, 32, 53, 62, 51, 71, 52, 80], [0, 27, 37, 9, 28, 38, 18, 29, 39, 40, 41, 45, 42, 54, 43, 63, 46, 44, 72, 47], [36, 1, 27, 10, 28, 38, 19, 29, 39, 40, 41, 46, 42, 55, 45, 43, 64, 44, 73, 47], [36, 2, 27, 37, 11, 28, 20, 29, 39, 40, 41, 47, 42, 56, 45, 43, 65, 46, 44, 74], [36, 3, 30, 37, 12, 31, 38, 21, 32, 40, 41, 48, 42, 57, 43, 66, 49, 44, 75, 50], [36, 4, 30, 37, 13, 31, 38, 22, 32, 39, 41, 49, 42, 58, 48, 43, 67, 44, 76, 50], [36, 5, 30, 37, 14, 31, 38, 23, 32, 39, 40, 50, 42, 59, 48, 43, 68, 49, 44, 77], [36, 6, 33, 37, 15, 34, 38, 24, 35, 39, 40, 43, 41, 51, 44, 60, 69, 52, 78, 53], [36, 7, 33, 37, 16, 34, 38, 25, 35, 39, 42, 40, 41, 52, 44, 61, 51, 70, 79, 53], [36, 8, 33, 37, 17, 34, 38, 26, 35, 39, 42, 40, 43, 41, 53, 62, 51, 71, 52, 80], [0, 27, 46, 9, 28, 47, 18, 29, 48, 36, 49, 37, 50, 38, 51, 54, 52, 63, 53, 72], [45, 1, 27, 10, 28, 47, 19, 29, 48, 36, 49, 37, 50, 38, 51, 55, 52, 64, 53, 73], [45, 2, 27, 46, 11, 28, 20, 29, 48, 36, 49, 38, 37, 50, 51, 56, 52, 65, 53, 74], [45, 3, 30, 46, 12, 31, 47, 21, 32, 39, 49, 40, 50, 41, 51, 57, 52, 66, 53, 75], [45, 4, 30, 46, 13, 31, 47, 22, 32, 48, 39, 40, 50, 41, 51, 58, 52, 67, 53, 76], [45, 5, 30, 46, 14, 31, 47, 23, 32, 48, 39, 49, 41, 40, 51, 59, 52, 68, 53, 77], [45, 6, 33, 46, 15, 34, 47, 24, 35, 48, 42, 49, 43, 50, 44, 60, 52, 69, 53, 78], [45, 7, 33, 46, 16, 34, 47, 25, 35, 48, 42, 49, 43, 50, 44, 51, 61, 70, 53, 79], [45, 8, 33, 46, 17, 34, 47, 26, 35, 48, 42, 49, 44, 43, 50, 51, 62, 52, 71, 80], [0, 55, 9, 56, 18, 57, 27, 63, 58, 36, 64, 59, 45, 65, 60, 72, 61, 73, 62, 74], [54, 1, 10, 56, 19, 57, 28, 63, 58, 37, 64, 59, 46, 65, 60, 72, 61, 73, 62, 74], [54, 2, 55, 11, 20, 57, 29, 63, 58, 38, 64, 59, 47, 65, 60, 72, 61, 73, 62, 74], [54, 3, 55, 12, 58, 56, 21, 59, 30, 66, 39, 67, 48, 68, 60, 75, 61, 76, 62, 77], [54, 4, 57, 55, 13, 56, 22, 59, 31, 66, 40, 67, 49, 68, 60, 75, 61, 76, 62, 77], [54, 5, 57, 55, 14, 58, 56, 23, 32, 66, 41, 67, 50, 68, 60, 75, 61, 76, 62, 77], [54, 6, 55, 15, 61, 56, 24, 62, 57, 33, 69, 58, 42, 70, 59, 51, 71, 78, 79, 80], [54, 7, 60, 55, 16, 56, 25, 62, 57, 34, 69, 58, 43, 70, 59, 52, 71, 78, 79, 80], [54, 8, 60, 55, 17, 61, 56, 26, 57, 35, 69, 58, 44, 70, 59, 53, 71, 78, 79, 80], [0, 54, 64, 9, 55, 65, 18, 56, 66, 27, 67, 36, 68, 45, 69, 72, 70, 73, 71, 74], [63, 1, 54, 10, 55, 65, 19, 56, 66, 28, 67, 37, 68, 46, 69, 72, 70, 73, 71, 74], [63, 2, 54, 64, 11, 55, 20, 56, 66, 29, 67, 38, 68, 47, 69, 72, 70, 73, 71, 74], [63, 3, 57, 64, 12, 58, 65, 21, 59, 30, 67, 39, 68, 48, 69, 75, 70, 76, 71, 77], [63, 4, 57, 64, 13, 58, 65, 22, 59, 66, 31, 40, 68, 49, 69, 75, 70, 76, 71, 77], [63, 5, 57, 64, 14, 58, 65, 23, 59, 66, 32, 67, 41, 50, 69, 75, 70, 76, 71, 77], [63, 6, 60, 64, 15, 61, 65, 24, 62, 66, 33, 67, 42, 70, 68, 51, 71, 78, 79, 80], [63, 7, 60, 64, 16, 61, 65, 25, 62, 66, 34, 69, 67, 43, 68, 52, 71, 78, 79, 80], [63, 8, 60, 64, 17, 61, 65, 26, 62, 66, 35, 69, 67, 44, 70, 68, 53, 78, 79, 80], [0, 54, 73, 9, 55, 74, 18, 56, 75, 27, 63, 76, 36, 64, 77, 45, 65, 78, 79, 80], [72, 1, 54, 10, 55, 74, 19, 56, 75, 28, 63, 76, 37, 64, 77, 46, 65, 78, 79, 80], [72, 2, 54, 73, 11, 55, 20, 56, 75, 29, 63, 76, 38, 64, 77, 47, 65, 78, 79, 80], [72, 3, 57, 73, 12, 58, 74, 21, 59, 30, 66, 76, 39, 67, 77, 48, 68, 78, 79, 80], [72, 4, 57, 73, 13, 58, 74, 22, 59, 75, 31, 66, 40, 67, 77, 49, 68, 78, 79, 80], [72, 5, 57, 73, 14, 58, 74, 23, 59, 75, 32, 66, 76, 41, 67, 50, 68, 78, 79, 80], [72, 6, 60, 73, 15, 61, 74, 24, 62, 75, 33, 69, 76, 42, 70, 77, 51, 71, 79, 80], [72, 7, 60, 73, 16, 61, 74, 25, 62, 75, 34, 69, 76, 43, 70, 77, 52, 71, 78, 80], [72, 8, 60, 73, 17, 61, 74, 26, 62, 75, 35, 69, 76, 44, 70, 77, 53, 71, 78, 79]]

/-- The precomputed unit table (the source computes it once at module
load; here it is the stored table, proved below to agree with the
construction `unitsOf`). -/
def UNITS : List (List Nat) :=
  [[0, 1, 2, 3, 4, 5, 6, 7, 8], [9, 10, 11, 12, 13, 14, 15, 16, 17], [18, 19, 20, 21, 22, 23, 24, 25, 26], [27, 28, 29, 30, 31, 32, 33, 34, 35], [36, 37, 38, 39, 40, 41, 42, 43, 44], [45, 46, 47, 48, 49, 50, 51, 52, 53], [54, 55, 56, 57, 58, 59, 60, 61, 62], [63, 64, 65, 66, 67, 68, 69, 70, 71], [72, 73, 74, 75, 76, 77, 78, 79, 80], [0, 9, 18, 27, 36, 45, 54, 63, 72], [1, 10, 19, 28, 37, 46, 55, 64, 73], [2, 11, 20, 29, 38, 47, 56, 65, 74], [3, 12, 21, 30, 39, 48, 57, 66, 75], [4, 13, 22, 31, 40, 49, 58, 67, 76], [5, 14, 23, 32, 41, 50, 59, 68, 77], [6, 15, 24, 33, 42, 51, 60, 69, 78], [7, 16, 25, 34, 43, 52, 61, 70, 79], [8, 17, 26, 35, 44, 53, 62, 71, 80], [0, 1, 2, 9, 10, 11, 18, 19, 20], [3, 4, 5, 12, 13, 14, 21, 22, 23], [6, 7, 8, 15, 16, 17, 24, 25, 26], [27, 28, 29, 36, 37, 38, 45, 46, 47], [30, 31, 32, 39, 40, 41, 48, 49, 50], [33, 34, 35, 42, 43, 44, 51, 52, 53], [54, 55, 56, 63, 64, 65, 72, 73, 74], [57, 58, 59, 66, 67, 68, 75, 76, 77], [60, 61, 62, 69, 70, 71, 78, 79, 80]]

set_option maxRecDepth 40000 in
theorem PEERS_eq : PEERS = (List.range 81).map peersOf := by decide

set_option maxRecDepth 40000 in
theorem UNITS_eq : UNITS = unitsOf := by decide

/-- JS `Map.get` on an association list of `digit -> index` entries. -/
def mapFind : List (Nat × Nat) → Nat → Option Nat
  | [], _ => none
  | (a, b) :: t, k => if a = k then some b else mapFind t k

/-- The scan of one unit inside `validate`: `seen` maps a digit to the index
that first held it, `conflicts` is the shared conflict set.  On a repeated
digit the code runs `conflicts.add(i); conflicts.add(seen.get(v))`. -/
def scanUnit (grid : Grid) : List Nat → List (Nat × Nat) → List Nat → List Nat
  | [], _, conflicts => conflicts
  | i :: rest, seen, conflicts =>
    if grid.getD i 0 = 0 then scanUnit grid rest seen conflicts
    else
      match mapFind seen (grid.getD i 0) with
      | some j => scanUnit grid rest seen (setAdd (setAdd conflicts i) j)
      | none => scanUnit grid rest (seen ++ [(grid.getD i 0, i)]) conflicts

/-- The conflict set accumulated by `validate` over all 27 units. -/
def validateConflicts (grid : Grid) : List Nat :=
  UNITS.foldl (fun conflicts unit => scanUnit grid unit [] conflicts) []

/-- Result shape of `validate`: `{ ok, conflicts }`. -/
structure VResult where
  ok : Bool
  conflicts : List Nat
deriving DecidableEq, Repr

/-- The function `validate(grid)`: `ok` is `conflicts.size === 0`. -/
def validate (grid : Grid) : VResult :=
  let c := validateConflicts grid
  ⟨c.isEmpty, c⟩

/-- The elimination inner loop of `buildCandidates`: for one fixed cell with
value `val`, delete `val` from every empty peer and fail when a peer set
becomes empty. -/
def elimCell (grid : Grid) (cand : Cands) (val : Nat) : List Nat → Option Cands
  | [] => some cand
  | p :: ps =>
    if grid.getD p 0 ≠ 0 then elimCell grid cand val ps
    else
      if ((cand.getD p []).erase val).length = 0 then none
      else elimCell grid (cand.set p ((cand.getD p []).erase val)) val ps

/-- The elimination outer loop of `buildCandidates` over the 81 cells. -/
def elimAll (grid : Grid) (cand : Cands) : List Nat → Option Cands
  | [] => some cand
  | i :: is =>
    if grid.getD i 0 = 0 then elimAll grid cand is
    else
      match elimCell grid cand (grid.getD i 0) (PEERS.getD i []) with
      | none => none
      | some cand2 => elimAll grid cand2 is

/-- The function `buildCandidates(grid)`: `null` becomes `none`. -/
def buildCandidates (grid : Grid) : Option Cands :=
  if (validate grid).ok = false then none
  else
    let cand := (List.range 81).map (fun i =>
      if grid.getD i 0 ≠ 0 then [grid.getD i 0] else DIGITS)
    elimAll grid cand (List.range 81)

/-- The function `solved(grid)`: no zeros and `validate` reports ok. -/
def solved (grid : Grid) : Bool :=
  ((List.range 81).all (fun i => grid.getD i 0 ≠ 0)) && (validate grid).ok

/-- The accumulator loop of `pickMRV`: `best` starts as `-1` (modelled
`none`) and `bestSize` as `10`; a strict `<` keeps the first minimum. -/
def pickMRVAux (grid : Grid) (cand : Cands) :
    List Nat → Option Nat × Nat → Option Nat × Nat
  | [], acc => acc
  | i :: rest, (best, bestSize) =>
    if grid.getD i 0 ≠ 0 then pickMRVAux grid cand rest (best, bestSize)
    else
      if (cand.getD i []).length < bestSize then
        pickMRVAux grid cand rest (some i, (cand.getD i []).length)
      else pickMRVAux grid cand rest (best, bestSize)

/-- The function `pickMRV(grid, cand)`; the JS sentinel `-1` is `none`. -/
def pickMRV (grid : Grid) (cand : Cands) : Option Nat :=
  (pickMRVAux grid cand (List.range 81) (none, 10)).1

/-- Number of empty cells among the 81 board cells; this is the termination
measure of the propagation loop and of the DFS recursion. -/
def zeros (grid : Grid) : Nat :=
  (List.range 81).countP (fun i => grid.getD i 0 == 0)

/-- The peer-update loop of `assign`: `cand[p].delete(val)` returns true
exactly when `val` was present, and the branch fails when the delete leaves
an empty set. -/
def assignPeers (grid : Grid) (cand : Cands) (val : Nat) : List Nat → Option Cands
  | [] => some cand
  | p :: ps =>
    if grid.getD p 0 ≠ 0 then assignPeers grid cand val ps
    else
      if (cand.getD p []).contains val then
        if ((cand.getD p []).erase val).length = 0 then none
        else assignPeers grid (cand.set p ((cand.getD p []).erase val)) val ps
      else assignPeers grid cand val ps

/-- The function `assign(grid, cand, i, val, reason)`: write the cell,
collapse its candidate set, emit the `assign` event, then update the peers.
The event is emitted before the peer loop, so it is reported even when the
assignment fails. -/
def assign (grid : Grid) (cand : Cands) (i val : Nat) (reason : String) :
    Option (Grid × Cands) × List Ev :=
  match assignPeers (grid.set i val) (cand.set i [val]) val (PEERS.getD i []) with
  | none => (none, [Ev.assignStep i val reason])
  | some cand2 => (some (grid.set i val, cand2), [Ev.assignStep i val reason])

/-- Outcome of one propagation pass or of the whole `propagate` call.  The
final `Bool` of `done` is the `changed` flag. -/
inductive PassRes where
  | contra
  | done (grid : Grid) (cand : Cands) (changed : Bool)
deriving DecidableEq, Repr

/-- The single-candidate pass of `propagate`: scan the cells in ascending
index order; a cell with exactly one candidate is assigned it (reason
`single-candidate`). -/
def nakedPass (grid : Grid) (cand : Cands) (changed : Bool) :
    List Nat → PassRes × List Ev
  | [] => (.done grid cand changed, [])
  | i :: rest =>
    if grid.getD i 0 ≠ 0 then nakedPass grid cand changed rest
    else
      match cand.getD i [] with
      | [val] =>
        match assign grid cand i val "single-candidate" with
        | (none, ev) => (.contra, ev)
        | (some (g2, c2), ev) =>
          let r := nakedPass g2 c2 true rest
          (r.1, ev ++ r.2)
      | _ => nakedPass grid cand changed rest

/-- The per-unit digit-position map built at the top of the only-position
pass: `pos` maps each digit of `DIGITS` to the list of empty cells of the
unit whose candidate set holds the digit, pushed in unit order. -/
def posPush : List (Nat × List Nat) → Nat → Nat → List (Nat × List Nat)
  | [], _, _ => []
  | (k, l) :: rest, d, i =>
    if k = d then (k, l ++ [i]) :: rest else (k, l) :: posPush rest d i

/-- Construction of the `pos` map for one unit from the current state. -/
def buildPos (grid : Grid) (cand : Cands) (unit : List Nat) :
    List (Nat × List Nat) :=
  unit.foldl (fun pos i =>
    if grid.getD i 0 ≠ 0 then pos
    else (cand.getD i []).foldl (fun pos d => posPush pos d i) pos)
    (DIGITS.map (fun d => (d, [])))

/-- Lookup in the `pos` map (`pos.get(d)`; every digit of `DIGITS` is a
key, so the default is never used on the paths the solver takes). -/
def posGet : List (Nat × List Nat) → Nat → List Nat
  | [], _ => []
  | (k, l) :: rest, d => if k = d then l else posGet rest d

/-- The digit loop of the only-position pass for one unit: the `pos` map
was computed from the state at unit entry and is not rebuilt while the
digits of the unit are processed. -/
def hiddenDigits (grid : Grid) (cand : Cands) (changed : Bool)
    (pos : List (Nat × List Nat)) : List Nat → PassRes × List Ev
  | [] => (.done grid cand changed, [])
  | d :: ds =>
    match posGet pos d with
    | [s0] =>
      match assign grid cand s0 d "only-position" with
      | (none, ev) => (.contra, ev)
      | (some (g2, c2), ev) =>
        let r := hiddenDigits g2 c2 true pos ds
        (r.1, ev ++ r.2)
    | _ => hiddenDigits grid cand changed pos ds

/-- The only-position pass over the whole unit list. -/
def hiddenPass (grid : Grid) (cand : Cands) (changed : Bool) :
    List (List Nat) → PassRes × List Ev
  | [] => (.done grid cand changed, [])
  | u :: us =>
    match hiddenDigits grid cand changed (buildPos grid cand u) DIGITS with
    | (.contra, ev) => (.contra, ev)
    | (.done g2 c2 ch, ev) =>
      let r := hiddenPass g2 c2 ch us
      (r.1, ev ++ r.2)

/-- One iteration of the `while (true)` body of `propagate`: the
single-candidate pass over the 81 cells followed by the only-position pass
over the 27 units, starting from `changed = false`. -/
def propagateIter (grid : Grid) (cand : Cands) : PassRes × List Ev :=
  match nakedPass grid cand false (List.range 81) with
  | (.contra, ev) => (.contra, ev)
  | (.done g2 c2 ch, ev) =>
    match hiddenPass g2 c2 ch UNITS with
    | (.contra, ev2) => (.contra, ev ++ ev2)
    | (.done g3 c3 ch2, ev2) => (.done g3 c3 ch2, ev ++ ev2)

/-- Outcome of the fueled `propagate`: `fuelOut` marks fuel exhaustion (a
branch proved unreachable for the fuel `coreSolve` supplies), `contra` is
the JS `return false`, `done` the JS `return true` with the final state. -/
inductive PRes where
  | fuelOut
  | contra
  | done (grid : Grid) (cand : Cands)
deriving DecidableEq, Repr

/-- The function `propagate(grid, cand)`: repeat the two passes until an
iteration reports `changed = false`. -/
def propagate : Nat → Grid → Cands → PRes × List Ev
  | 0, _, _ => (.fuelOut, [])
  | fuel + 1, grid, cand =>
    match propagateIter grid cand with
    | (.contra, ev) => (.contra, ev)
    | (.done g2 c2 true, ev) =>
      let r := propagate fuel g2 c2
      (r.1, ev ++ r.2)
    | (.done g2 c2 false, ev) => (.done g2 c2, ev)

/-- Outcome of the fueled `dfs`: `found` is a returned grid, `exhausted`
the JS `return null`, `fuelOut` the (unreachable) fuel exhaustion. -/
inductive DRes where
  | fuelOut
  | exhausted
  | found (grid : Grid)
deriving DecidableEq, Repr

/-- Error kinds of the solver, one per JS error string:
`Conflicts found.`, `Invalid puzzle.`, `Unsolvable puzzle.`,
`No solution found.`. -/
inductive SolveError where
  | conflictsFound (conflicts : List Nat)
  | invalidPuzzle
  | unsolvablePuzzle
  | noSolutionFound
deriving DecidableEq, Repr

/-- Result shape of `solve` and `solveWithSteps`: `{ ok: true, grid }` or
`{ ok: false, error, conflicts? }`. -/
inductive SolveResult where
  | ok (grid : Grid)
  | err (e : SolveError)
deriving DecidableEq, Repr

/-- The candidate loop of `dfs`: `for (const val of [...cand[cell]])`, with
`next` the recursive entry into `dfs` one level deeper.  The JS `clone` is
value copying, which the Lean embedding performs implicitly: the branch
works on its own `(grid, cand)` values and the loop continues from the
unchanged parent state.  On a failed assignment, a failed propagation, or
an exhausted recursive call the code emits `backtrack` and then `unassign`
before moving on to the next candidate value. -/
def tryVals (next : Grid → Cands → DRes × List Ev) (grid : Grid)
    (cand : Cands) (cell : Nat) : List Nat → DRes × List Ev
  | [] => (.exhausted, [])
  | val :: rest =>
    match assign grid cand cell val "guess" with
    | (none, aEv) =>
      let r := tryVals next grid cand cell rest
      (r.1, Ev.guess cell val :: aEv
        ++ [Ev.backtrack cell val, Ev.unassign cell] ++ r.2)
    | (some (g1, c1), aEv) =>
      match propagate (zeros g1 + 1) g1 c1 with
      | (.fuelOut, pEv) =>
        (.fuelOut, Ev.guess cell val :: aEv ++ pEv)
      | (.contra, pEv) =>
        let r := tryVals next grid cand cell rest
        (r.1, Ev.guess cell val :: aEv ++ pEv
          ++ [Ev.backtrack cell val, Ev.unassign cell] ++ r.2)
      | (.done g2 c2, pEv) =>
        match next g2 c2 with
        | (.found out, dEv) =>
          (.found out, Ev.guess cell val :: aEv ++ pEv ++ dEv)
        | (.exhausted, dEv) =>
          let r := tryVals next grid cand cell rest
          (r.1, Ev.guess cell val :: aEv ++ pEv ++ dEv
            ++ [Ev.backtrack cell val, Ev.unassign cell] ++ r.2)
        | (.fuelOut, dEv) =>
          (.fuelOut, Ev.guess cell val :: aEv ++ pEv ++ dEv)

/-- The backtracking search `dfs(grid, cand)`: return the grid when solved,
pick the MRV cell, emit `focus`, then try its candidate values in list
order.  The fuel argument bounds the recursion depth; `coreSolve` supplies
enough fuel for the branch `DRes.fuelOut` to be unreachable. -/
def dfs : Nat → Grid → Cands → DRes × List Ev
  | 0, _, _ => (.fuelOut, [])
  | fuel + 1, grid, cand =>
    if solved grid then (.found grid, [])
    else
      match pickMRV grid cand with
      | none => (.exhausted, [])
      | some cell =>
        let r := tryVals (dfs fuel) grid cand cell (cand.getD cell [])
        (r.1, Ev.focus cell :: r.2)

/-- The function `coreSolve(gridInput, onStep)`: validate, build the
candidates, run one propagation, and hand over to the search when cells
remain.  The JS `gridInput.slice()` is value copying and is implicit in the
embedding.  The second component collects the events passed to `onStep`. -/
def coreSolve (gridInput : Grid) : SolveResult × List Ev :=
  let grid := gridInput
  let v := validate grid
  if v.ok = false then (.err (.conflictsFound v.conflicts), [])
  else
    match buildCandidates grid with
    | none => (.err .invalidPuzzle, [])
    | some cand =>
      match propagate (zeros grid + 1) grid cand with
      | (.fuelOut, ev) => (.err .unsolvablePuzzle, ev)
      | (.contra, ev) => (.err .unsolvablePuzzle, ev)
      | (.done g2 c2, ev) =>
        if solved g2 then (.ok g2, ev)
        else
          match dfs (zeros g2 + 1) g2 c2 with
          | (.found out, dEv) => (.ok out, ev ++ dEv)
          | (.exhausted, dEv) => (.err .noSolutionFound, ev ++ dEv)
          | (.fuelOut, dEv) => (.err .noSolutionFound, ev ++ dEv)

/-- The exported `solve(g)`: `coreSolve` with a null step callback. -/
def solve (g : Grid) : SolveResult := (coreSolve g).1

/-- The exported `solveWithSteps(g, onStep)`: same core, returning the
result together with the full event sequence delivered to the sink. -/
def solveWithSteps (g : Grid) : SolveResult × List Ev := coreSolve g

/-! ## Basic list facts used throughout the development -/

theorem getD_set_self {α : Type} (l : List α) (i : Nat) (v d : α)
    (h : i < l.length) : (l.set i v).getD i d = v := by
  rw [List.getD_eq_getElem?_getD, List.getElem?_set_self h]
  rfl

theorem getD_set_ne {α : Type} (l : List α) {i j : Nat} (v d : α)
    (h : i ≠ j) : (l.set i v).getD j d = l.getD j d := by
  rw [List.getD_eq_getElem?_getD, List.getElem?_set_ne h,
    ← List.getD_eq_getElem?_getD]

theorem mem_setAdd {s : List Nat} {x y : Nat} :
    y ∈ setAdd s x ↔ y = x ∨ y ∈ s := by
  unfold setAdd
  split
  · constructor
    · exact fun h => Or.inr h
    · rintro (rfl | h)
      · assumption
      · assumption
  · simp [List.mem_append, or_comm]

theorem setAdd_subset (s : List Nat) (x : Nat) : s ⊆ setAdd s x := by
  intro y hy
  exact mem_setAdd.mpr (Or.inr hy)

theorem mem_setAdd_self (s : List Nat) (x : Nat) : x ∈ setAdd s x :=
  mem_setAdd.mpr (Or.inl rfl)

theorem setAdd_ne_nil (s : List Nat) (x : Nat) : setAdd s x ≠ [] := by
  unfold setAdd
  split
  · rename_i h
    intro hnil
    rw [hnil] at h
    cases h
  · simp

/-! ## The validator (claim C4 infrastructure)

The specification side of C4: a unit has a duplicate when two distinct
cells of it hold the same non-zero digit. -/

/-- Specification predicate: unit `u` holds two equal non-zero digits. -/
def dupInUnit (grid : Grid) (u : List Nat) : Prop :=
  ∃ i ∈ u, ∃ j ∈ u, i ≠ j ∧ grid.getD i 0 ≠ 0 ∧ grid.getD i 0 = grid.getD j 0

theorem mapFind_append (s : List (Nat × Nat)) (v i w : Nat) :
    mapFind (s ++ [(v, i)]) w =
      match mapFind s w with
      | some j => some j
      | none => if v = w then some i else none := by
  induction s with
  | nil => simp [mapFind]
  | cons a t ih =>
    obtain ⟨k, b⟩ := a
    by_cases h : k = w
    · subst h
      simp [mapFind]
    · simp only [List.cons_append, mapFind, if_neg h]
      exact ih

theorem scanUnit_mono (grid : Grid) :
    ∀ (rest : List Nat) (seen : List (Nat × Nat)) (conflicts : List Nat),
    conflicts ⊆ scanUnit grid rest seen conflicts := by
  intro rest
  induction rest with
  | nil => intro seen conflicts x hx; exact hx
  | cons i t ih =>
    intro seen conflicts x hx
    unfold scanUnit
    split
    · exact ih _ _ hx
    · split
      · exact ih _ _ (setAdd_subset _ _ (setAdd_subset _ _ hx))
      · exact ih _ _ hx

theorem scanUnit_nil (grid : Grid) :
    ∀ (rest : List Nat) (seen : List (Nat × Nat)) (conflicts : List Nat),
    scanUnit grid rest seen conflicts = [] → conflicts = [] := by
  intro rest
  induction rest with
  | nil => intro seen conflicts h; exact h
  | cons i t ih =>
    intro seen conflicts h
    unfold scanUnit at h
    revert h
    split
    · exact fun h => ih _ _ h
    · split
      · intro h
        have := ih _ _ h
        exact absurd this (setAdd_ne_nil _ _)
      · exact fun h => ih _ _ h

theorem scanUnit_complete (grid : Grid) :
    ∀ (rest P : List Nat) (seen : List (Nat × Nat)) (conflicts : List Nat),
    (∀ v j, mapFind seen v = some j → j ∈ P ∧ grid.getD j 0 = v) →
    (∀ v, v ≠ 0 → mapFind seen v = none → ∀ k ∈ P, grid.getD k 0 ≠ v) →
    (∀ a, a ∈ P → grid.getD a 0 ≠ 0 →
      (∃ b, b ∈ P ∧ b ≠ a ∧ grid.getD b 0 = grid.getD a 0) →
      a ∈ conflicts) →
    ∀ x, (x ∈ P ∨ x ∈ rest) → grid.getD x 0 ≠ 0 →
      (∃ y, (y ∈ P ∨ y ∈ rest) ∧ y ≠ x ∧ grid.getD y 0 = grid.getD x 0) →
      x ∈ scanUnit grid rest seen conflicts := by
  intro rest
  induction rest with
  | nil =>
    intro P seen conflicts _ _ Hconf x hx hnz hpair
    obtain ⟨y, hy, hyx, hval⟩ := hpair
    simp only [List.not_mem_nil, or_false] at hx hy
    exact Hconf x hx hnz ⟨y, hy, hyx, hval⟩
  | cons i t ih =>
    intro P seen conflicts HS HN Hconf x hx hnz hpair
    obtain ⟨y, hy, hyx, hval⟩ := hpair
    have lift : ∀ z : Nat, (z ∈ P ∨ z ∈ i :: t) → (z ∈ i :: P ∨ z ∈ t) := by
      intro z hz
      rcases hz with hz | hz
      · exact Or.inl (List.mem_cons_of_mem _ hz)
      · rcases List.mem_cons.mp hz with rfl | hz
        · exact Or.inl (List.mem_cons_self _ _)
        · exact Or.inr hz
    have HSlift : ∀ v j, mapFind seen v = some j →
        j ∈ i :: P ∧ grid.getD j 0 = v := by
      intro v j hvj
      exact ⟨List.mem_cons_of_mem _ (HS v j hvj).1, (HS v j hvj).2⟩
    unfold scanUnit
    by_cases hz : grid.getD i 0 = 0
    · rw [if_pos hz]
      refine ih (i :: P) seen conflicts HSlift ?_ ?_ x (lift x hx) hnz
        ⟨y, lift y hy, hyx, hval⟩
      · intro v hv hnone k hk
        rcases List.mem_cons.mp hk with hki | hk
        · rw [hki, hz]; exact fun h => hv h.symm
        · exact HN v hv hnone k hk
      · intro a ha hanz hab
        obtain ⟨b, hb, hba, hbval⟩ := hab
        rcases List.mem_cons.mp ha with hai | ha
        · rw [hai] at hanz
          exact absurd hz hanz
        · rcases List.mem_cons.mp hb with hbi | hb
          · rw [hbi, hz] at hbval
            exact absurd hbval.symm hanz
          · exact Hconf a ha hanz ⟨b, hb, hba, hbval⟩
    · rw [if_neg hz]
      cases hfind : mapFind seen (grid.getD i 0) with
      | some j =>
        obtain ⟨hjP, hjv⟩ := HS _ j hfind
        refine ih (i :: P) seen (setAdd (setAdd conflicts i) j) HSlift ?_ ?_
          x (lift x hx) hnz ⟨y, lift y hy, hyx, hval⟩
        · intro v hv hnone k hk
          rcases List.mem_cons.mp hk with hki | hk
          · intro hkv
            rw [hki] at hkv
            rw [hkv, hnone] at hfind
            exact Option.noConfusion hfind
          · exact HN v hv hnone k hk
        · intro a ha hanz hab
          obtain ⟨b, hb, hba, hbval⟩ := hab
          rcases List.mem_cons.mp ha with hai | ha
          · rw [hai]
            exact setAdd_subset _ _ (mem_setAdd_self _ _)
          · rcases List.mem_cons.mp hb with hbi | hb
            · rw [hbi] at hbval
              by_cases haj : a = j
              · rw [haj]
                exact mem_setAdd_self _ _
              · refine setAdd_subset _ _ (setAdd_subset _ _ ?_)
                exact Hconf a ha hanz
                  ⟨j, hjP, fun h => haj h.symm, hjv.trans hbval⟩
            · exact setAdd_subset _ _ (setAdd_subset _ _
                (Hconf a ha hanz ⟨b, hb, hba, hbval⟩))
      | none =>
        refine ih (i :: P) (seen ++ [(grid.getD i 0, i)]) conflicts ?_ ?_ ?_
          x (lift x hx) hnz ⟨y, lift y hy, hyx, hval⟩
        · intro v j2 hvj
          rw [mapFind_append] at hvj
          cases hs : mapFind seen v with
          | some j3 =>
            rw [hs] at hvj
            have hvj2 : some j3 = some j2 := hvj
            injection hvj2 with he
            subst he
            exact ⟨List.mem_cons_of_mem _ (HS v j3 hs).1, (HS v j3 hs).2⟩
          | none =>
            rw [hs] at hvj
            have hvj2 : (if grid.getD i 0 = v then some i else none) = some j2 := hvj
            by_cases hveq : grid.getD i 0 = v
            · rw [if_pos hveq] at hvj2
              injection hvj2 with he
              subst he
              exact ⟨List.mem_cons_self _ _, hveq⟩
            · rw [if_neg hveq] at hvj2
              exact Option.noConfusion hvj2
        · intro v hv hnone k hk
          rw [mapFind_append] at hnone
          cases hs : mapFind seen v with
          | some j3 =>
            rw [hs] at hnone
            exact Option.noConfusion (hnone : some j3 = (none : Option Nat))
          | none =>
            rw [hs] at hnone
            have hx2 : (if grid.getD i 0 = v then some i else none) = none := hnone
            by_cases hveq : grid.getD i 0 = v
            · rw [if_pos hveq] at hx2
              exact Option.noConfusion hx2
            · rcases List.mem_cons.mp hk with hki | hk
              · rw [hki]
                exact fun h => hveq h
              · exact HN v hv hs k hk
        · intro a ha hanz hab
          obtain ⟨b, hb, hba, hbval⟩ := hab
          rcases List.mem_cons.mp ha with hai | ha
          · rcases List.mem_cons.mp hb with hbi | hb
            · rw [hai, hbi] at hba
              exact absurd rfl hba
            · rw [hai] at hanz hbval
              exact absurd hbval (HN _ hanz hfind b hb)
          · rcases List.mem_cons.mp hb with hbi | hb
            · rw [hbi] at hbval
              rw [hbval] at hfind
              exact absurd rfl (HN _ hanz hfind a ha)
            · exact Hconf a ha hanz ⟨b, hb, hba, hbval⟩

theorem scanUnit_sound (grid : Grid) :
    ∀ (rest P : List Nat) (seen : List (Nat × Nat)) (conflicts : List Nat),
    (∀ v j, mapFind seen v = some j → j ∈ P ∧ grid.getD j 0 = v) →
    (∀ x y, (x ∈ P ∨ x ∈ rest) → (y ∈ P ∨ y ∈ rest) → x ≠ y →
      grid.getD x 0 ≠ 0 → grid.getD x 0 ≠ grid.getD y 0) →
    (∀ x, x ∈ P → x ∈ rest → False) →
    rest.Nodup →
    scanUnit grid rest seen conflicts = conflicts := by
  intro rest
  induction rest with
  | nil => intro P seen conflicts _ _ _ _; rfl
  | cons i t ih =>
    intro P seen conflicts HS Hpair Hdisj Hnd
    have hit : i ∉ t := (List.nodup_cons.mp Hnd).1
    have htnd : t.Nodup := (List.nodup_cons.mp Hnd).2
    have lift : ∀ z : Nat, (z ∈ i :: P ∨ z ∈ t) → (z ∈ P ∨ z ∈ i :: t) := by
      intro z hz
      rcases hz with hz | hz
      · rcases List.mem_cons.mp hz with hzi | hz
        · exact Or.inr (hzi ▸ List.mem_cons_self _ _)
        · exact Or.inl hz
      · exact Or.inr (List.mem_cons_of_mem _ hz)
    have Hpair2 : ∀ x y, (x ∈ i :: P ∨ x ∈ t) → (y ∈ i :: P ∨ y ∈ t) →
        x ≠ y → grid.getD x 0 ≠ 0 → grid.getD x 0 ≠ grid.getD y 0 := by
      intro x y hx hy
      exact Hpair x y (lift x hx) (lift y hy)
    have Hdisj2 : ∀ x, x ∈ i :: P → x ∈ t → False := by
      intro x hx hxt
      rcases List.mem_cons.mp hx with hxi | hx
      · exact hit (hxi ▸ hxt)
      · exact Hdisj x hx (List.mem_cons_of_mem _ hxt)
    unfold scanUnit
    by_cases hz : grid.getD i 0 = 0
    · rw [if_pos hz]
      refine ih (i :: P) seen conflicts ?_ Hpair2 Hdisj2 htnd
      intro v j hvj
      exact ⟨List.mem_cons_of_mem _ (HS v j hvj).1, (HS v j hvj).2⟩
    · rw [if_neg hz]
      cases hfind : mapFind seen (grid.getD i 0) with
      | some j =>
        obtain ⟨hjP, hjv⟩ := HS _ j hfind
        have hji : j ≠ i := by
          intro h
          exact Hdisj i (h ▸ hjP) (List.mem_cons_self _ _)
        have hjnz : grid.getD j 0 ≠ 0 := by
          rw [hjv]; exact hz
        have := Hpair j i (Or.inl hjP) (Or.inr (List.mem_cons_self _ _))
          hji hjnz
        exact absurd hjv this
      | none =>
        refine ih (i :: P) (seen ++ [(grid.getD i 0, i)]) conflicts ?_
          Hpair2 Hdisj2 htnd
        intro v j2 hvj
        rw [mapFind_append] at hvj
        cases hs : mapFind seen v with
        | some j3 =>
          rw [hs] at hvj
          have hvj2 : some j3 = some j2 := hvj
          injection hvj2 with he
          subst he
          exact ⟨List.mem_cons_of_mem _ (HS v j3 hs).1, (HS v j3 hs).2⟩
        | none =>
          rw [hs] at hvj
          have hvj2 : (if grid.getD i 0 = v then some i else none) = some j2 := hvj
          by_cases hveq : grid.getD i 0 = v
          · rw [if_pos hveq] at hvj2
            injection hvj2 with he
            subst he
            exact ⟨List.mem_cons_self _ _, hveq⟩
          · rw [if_neg hveq] at hvj2
            exact Option.noConfusion hvj2

theorem UNITS_nodup : ∀ u ∈ UNITS, u.Nodup := by decide

theorem scanUnit_of_noDup (grid : Grid) (u : List Nat) (hnd : u.Nodup)
    (hnodup : ¬ dupInUnit grid u) (conflicts : List Nat) :
    scanUnit grid u [] conflicts = conflicts := by
  refine scanUnit_sound grid u [] [] conflicts ?_ ?_ ?_ hnd
  · intro v j hvj
    exact Option.noConfusion hvj
  · intro x y hx hy hxy hxnz hval
    simp only [List.not_mem_nil, false_or] at hx hy
    exact hnodup ⟨x, hx, y, hy, hxy, hxnz, hval⟩
  · intro x hx
    exact absurd hx (List.not_mem_nil x)

theorem foldScan_mono (grid : Grid) :
    ∀ (us : List (List Nat)) (c : List Nat),
    c ⊆ us.foldl (fun conflicts unit => scanUnit grid unit [] conflicts) c := by
  intro us
  induction us with
  | nil => intro c x hx; exact hx
  | cons u t ih =>
    intro c x hx
    exact ih _ (scanUnit_mono grid u [] c hx)

theorem foldScan_complete (grid : Grid) :
    ∀ (us : List (List Nat)) (c : List Nat) (u : List Nat), u ∈ us →
    ∀ x ∈ u, grid.getD x 0 ≠ 0 →
    (∃ y ∈ u, y ≠ x ∧ grid.getD y 0 = grid.getD x 0) →
    x ∈ us.foldl (fun conflicts unit => scanUnit grid unit [] conflicts) c := by
  intro us
  induction us with
  | nil =>
    intro c u hu
    exact absurd hu (List.not_mem_nil u)
  | cons u0 t ih =>
    intro c u hu x hx hnz hpair
    rcases List.mem_cons.mp hu with hu0 | hu
    · subst hu0
      obtain ⟨y, hy, hyx, hval⟩ := hpair
      refine foldScan_mono grid t _ ?_
      refine scanUnit_complete grid u [] [] c ?_ ?_ ?_ x (Or.inr hx) hnz
        ⟨y, Or.inr hy, hyx, hval⟩
      · intro v j hvj
        exact Option.noConfusion hvj
      · intro v _ _ k hk
        exact absurd hk (List.not_mem_nil k)
      · intro a ha
        exact absurd ha (List.not_mem_nil a)
    · exact ih _ u hu x hx hnz hpair

theorem foldScan_of_noDup (grid : Grid) :
    ∀ (us : List (List Nat)) (c : List Nat),
    (∀ u ∈ us, u.Nodup) → (∀ u ∈ us, ¬ dupInUnit grid u) →
    us.foldl (fun conflicts unit => scanUnit grid unit [] conflicts) c = c := by
  intro us
  induction us with
  | nil => intro c _ _; rfl
  | cons u t ih =>
    intro c hnd hnodup
    have h1 : scanUnit grid u [] c = c :=
      scanUnit_of_noDup grid u (hnd u (List.mem_cons_self _ _))
        (hnodup u (List.mem_cons_self _ _)) c
    simp only [List.foldl_cons, h1]
    exact ih c (fun v hv => hnd v (List.mem_cons_of_mem _ hv))
      (fun v hv => hnodup v (List.mem_cons_of_mem _ hv))

theorem validateConflicts_nil_iff (g : Grid) :
    validateConflicts g = [] ↔ ∀ u ∈ UNITS, ¬ dupInUnit g u := by
  constructor
  · intro hnil u hu hdup
    obtain ⟨i, hi, j, hj, hij, hinz, hval⟩ := hdup
    have : i ∈ validateConflicts g := by
      refine foldScan_complete g UNITS [] u hu i hi hinz ⟨j, hj, ?_, hval.symm⟩
      exact fun h => hij h.symm
    rw [hnil] at this
    exact absurd this (List.not_mem_nil i)
  · intro h
    exact foldScan_of_noDup g UNITS [] UNITS_nodup h

theorem validate_ok_iff (g : Grid) :
    (validate g).ok = true ↔ ∀ u ∈ UNITS, ¬ dupInUnit g u := by
  rw [show (validate g).ok = (validateConflicts g).isEmpty from rfl,
    List.isEmpty_iff]
  exact validateConflicts_nil_iff g

/-- Claim C4: `validate(g).ok` is true iff no unit of `g` contains two equal
non-zero digits; `ok` is true iff `conflicts` is empty; and every index of
a unit holding a digit that occurs more than once in that unit (among
non-zero cells) is a member of `conflicts`. -/
theorem C4_validate_spec (g : Grid) :
    ((validate g).ok = true ↔ ∀ u ∈ UNITS, ¬ dupInUnit g u)
    ∧ ((validate g).ok = true ↔ (validate g).conflicts = [])
    ∧ (∀ u ∈ UNITS, ∀ x ∈ u, g.getD x 0 ≠ 0 →
        (∃ y ∈ u, y ≠ x ∧ g.getD y 0 = g.getD x 0) →
        x ∈ (validate g).conflicts) := by
  refine ⟨validate_ok_iff g, ?_, ?_⟩
  · rw [show (validate g).conflicts = validateConflicts g from rfl,
      show (validate g).ok = (validateConflicts g).isEmpty from rfl,
      List.isEmpty_iff]
  · intro u hu x hx hnz hpair
    exact foldScan_complete g UNITS [] u hu x hx hnz hpair

/-! ## Soundness of the search (claim C1) -/

theorem solved_iff (g : Grid) :
    solved g = true ↔ (∀ i < 81, g.getD i 0 ≠ 0) ∧ (validate g).ok = true := by
  unfold solved
  rw [Bool.and_eq_true, List.all_eq_true]
  constructor
  · rintro ⟨h1, h2⟩
    refine ⟨fun i hi => ?_, h2⟩
    exact of_decide_eq_true (h1 i (List.mem_range.mpr hi))
  · rintro ⟨h1, h2⟩
    exact ⟨fun i hi => decide_eq_true (h1 i (List.mem_range.mp hi)), h2⟩

theorem tryVals_found (next : Grid → Cands → DRes × List Ev)
    (H : ∀ g2 c2 out2, (next g2 c2).1 = .found out2 → solved out2 = true)
    (g : Grid) (c : Cands) (cell : Nat) :
    ∀ (vals : List Nat) (out : Grid),
    (tryVals next g c cell vals).1 = .found out → solved out = true := by
  intro vals
  induction vals with
  | nil =>
    intro out h
    exact absurd h (by simp [tryVals])
  | cons v rest ih =>
    intro out h
    rw [tryVals] at h
    revert h
    split
    · intro h
      exact ih out h
    · split
      · intro h
        exact absurd h (by simp)
      · intro h
        exact ih out h
      · split
        · rename_i out2 dEv hD
          intro h
          have h2 : DRes.found out2 = DRes.found out := h
          injection h2 with he
          subst he
          exact H _ _ out2 (by rw [hD])
        · intro h
          exact ih out h
        · intro h
          exact absurd h (by simp)

theorem dfs_found (fuel : Nat) :
    ∀ (g : Grid) (c : Cands) (out : Grid),
    (dfs fuel g c).1 = .found out → solved out = true := by
  induction fuel with
  | zero =>
    intro g c out h
    exact absurd h (by simp [dfs])
  | succ fuel ih =>
    intro g c out h
    rw [dfs] at h
    revert h
    split
    · rename_i hS
      intro h
      have h2 : DRes.found g = DRes.found out := h
      injection h2 with he
      subst he
      exact hS
    · split
      · intro h
        exact absurd h (by simp)
      · intro h
        exact tryVals_found (dfs fuel) ih g c _ _ out h

theorem coreSolve_ok_solved (g g2 : Grid)
    (h : (coreSolve g).1 = .ok g2) : solved g2 = true := by
  simp only [coreSolve] at h
  revert h
  split
  · intro h
    exact absurd h (by simp)
  · split
    · intro h
      exact absurd h (by simp)
    · split
      · intro h
        exact absurd h (by simp)
      · intro h
        exact absurd h (by simp)
      · split
        · rename_i hS
          intro h
          have h2 : SolveResult.ok _ = SolveResult.ok g2 := h
          injection h2 with he
          subst he
          exact hS
        · split
          · rename_i out dEv hD
            intro h
            have h2 : SolveResult.ok out = SolveResult.ok g2 := h
            injection h2 with he
            subst he
            exact dfs_found _ _ _ _ (by rw [hD])
          · intro h
            exact absurd h (by simp)
          · intro h
            exact absurd h (by simp)

/-- Claim C1: when `solve(g)` returns ok with grid `g2`, the grid `g2` is a
valid completion: every cell is non-zero, `validate(g2)` reports ok, and no
unit of `g2` contains two equal non-zero digits. -/
theorem C1_solve_sound (g g2 : Grid) (h : solve g = .ok g2) :
    (∀ i < 81, g2.getD i 0 ≠ 0) ∧ (validate g2).ok = true
    ∧ (∀ u ∈ UNITS, ¬ dupInUnit g2 u) := by
  have hs : solved g2 = true := coreSolve_ok_solved g g2 h
  obtain ⟨h1, h2⟩ := (solved_iff g2).mp hs
  exact ⟨h1, h2, (validate_ok_iff g2).mp h2⟩

/-- Fully solved reference grid used by the concrete witnesses. -/
def W : Grid :=
  [1,2,3,4,5,6,7,8,9,
   4,5,6,7,8,9,1,2,3,
   7,8,9,1,2,3,4,5,6,
   2,3,1,5,6,4,8,9,7,
   5,6,4,8,9,7,2,3,1,
   8,9,7,2,3,1,5,6,4,
   3,1,2,6,4,5,9,7,8,
   6,4,5,9,7,8,3,1,2,
   9,7,8,3,1,2,6,4,5]

set_option maxRecDepth 100000 in
/-- Witness for C1 at a concrete input: `solve W` succeeds with `W`. -/
theorem C1_solve_sound_witness :
    solve W = .ok W ∧
    ((∀ i < 81, W.getD i 0 ≠ 0) ∧ (validate W).ok = true
      ∧ (∀ u ∈ UNITS, ¬ dupInUnit W u)) :=
  ⟨by decide, C1_solve_sound W W (by decide)⟩

/-! ## Determinism (claim C2)

The embedding of the solver is a pure function of the input grid: the JS
source uses no randomness, no time, no global mutable state across calls,
and the iteration order of its `Set`/`Map` containers is the insertion
order guaranteed by the language, which the embedding reproduces.  Two
invocations on the identical grid therefore deliver the identical event
sequence to the sink and return the identical result. -/

/-- Claim C2: two runs of `solveWithSteps` on the identical grid `g` invoke
the sink with identical event sequences and return identical results. -/
theorem C2_determinism (g : Grid) (runA runB : SolveResult × List Ev)
    (hA : runA = solveWithSteps g) (hB : runB = solveWithSteps g) :
    runA.2 = runB.2 ∧ runA.1 = runB.1 := by
  subst hA
  subst hB
  exact ⟨rfl, rfl⟩

/-- Witness for C2: the two runs on the reference grid agree. -/
theorem C2_determinism_witness :
    (solveWithSteps W = solveWithSteps W) ∧
    ((solveWithSteps W).2 = (solveWithSteps W).2
      ∧ (solveWithSteps W).1 = (solveWithSteps W).1) :=
  ⟨rfl, C2_determinism W (solveWithSteps W) (solveWithSteps W) rfl rfl⟩

/-! ## The pos map of the only-position pass -/

theorem posGet_posPush (pos : List (Nat × List Nat)) (d2 i d : Nat) :
    posGet (posPush pos d2 i) d =
      if d2 = d ∧ d ∈ pos.map Prod.fst
      then posGet pos d ++ [i] else posGet pos d := by
  induction pos with
  | nil => simp [posPush, posGet]
  | cons a t ih =>
    obtain ⟨k, l⟩ := a
    by_cases h1 : k = d2 <;> by_cases h2 : k = d
    · have hd2d : d2 = d := h1 ▸ h2
      simp [posPush, posGet, h1, h2, hd2d]
    · have hne : ¬ (d2 = d ∧ (d = k ∨ d ∈ t.map Prod.fst)) := by
        intro ⟨ha, _⟩
        exact h2 (h1.trans ha)
      simp only [posPush, if_pos h1, posGet, if_neg h2, List.map_cons,
        List.mem_cons]
      rw [if_neg (by intro ⟨ha, hb⟩; exact hne ⟨ha, hb⟩)]
    · subst h2
      have h1b : d2 ≠ k := fun h => h1 h.symm
      simp [posPush, posGet, h1, h1b]
    · simp only [posPush, if_neg h1, posGet, if_neg h2, List.map_cons,
        List.mem_cons, ih]
      by_cases h3 : d2 = d ∧ d ∈ t.map Prod.fst
      · rw [if_pos h3, if_pos ⟨h3.1, Or.inr h3.2⟩]
      · rw [if_neg h3, if_neg (by
          intro ⟨ha, hb⟩
          rcases hb with hb | hb
          · exact h2 hb.symm
          · exact h3 ⟨ha, hb⟩)]

theorem keys_posPush (pos : List (Nat × List Nat)) (d2 i : Nat) :
    (posPush pos d2 i).map Prod.fst = pos.map Prod.fst := by
  induction pos with
  | nil => rfl
  | cons a t ih =>
    obtain ⟨k, l⟩ := a
    by_cases hkd2 : k = d2
    · subst hkd2
      simp [posPush]
    · simp [posPush, if_neg hkd2, ih]

theorem keys_foldPush (L : List Nat) (i : Nat) :
    ∀ pos : List (Nat × List Nat),
    ((L.foldl (fun pos d => posPush pos d i) pos).map Prod.fst)
      = pos.map Prod.fst := by
  induction L with
  | nil => intro pos; rfl
  | cons d2 t ih =>
    intro pos
    simp only [List.foldl_cons]
    rw [ih, keys_posPush]

theorem posGet_foldPush (i d : Nat) :
    ∀ (L : List Nat) (pos : List (Nat × List Nat)),
    posGet (L.foldl (fun pos d2 => posPush pos d2 i) pos) d =
      posGet pos d ++
        (if d ∈ pos.map Prod.fst then List.replicate (L.count d) i else []) := by
  intro L
  induction L with
  | nil =>
    intro pos
    simp
  | cons d2 t ih =>
    intro pos
    simp only [List.foldl_cons]
    rw [ih, posGet_posPush, keys_posPush]
    by_cases hmem : d ∈ pos.map Prod.fst
    · rw [if_pos hmem, if_pos hmem]
      by_cases hd2 : d2 = d
      · subst hd2
        rw [if_pos ⟨rfl, hmem⟩]
        simp [List.replicate_succ]
      · rw [if_neg (fun h => hd2 h.1), List.count_cons_of_ne (fun h => hd2 h.symm)]
    · simp [hmem]

theorem posGet_initPos (d : Nat) :
    ∀ L : List Nat, posGet (L.map (fun d2 => (d2, ([] : List Nat)))) d = [] := by
  intro L
  induction L with
  | nil => rfl
  | cons a t ih =>
    simp only [List.map_cons, posGet]
    split
    · rfl
    · exact ih

theorem posGet_buildPosAux (grid : Grid) (cand : Cands) (d : Nat) :
    ∀ (u : List Nat) (pos : List (Nat × List Nat)), d ∈ pos.map Prod.fst →
    (∀ i, (cand.getD i []).Nodup) →
    posGet (u.foldl (fun pos i =>
      if grid.getD i 0 ≠ 0 then pos
      else (cand.getD i []).foldl (fun pos d2 => posPush pos d2 i) pos) pos) d =
      posGet pos d ++
        u.filter (fun i => grid.getD i 0 == 0 && (cand.getD i []).contains d) := by
  intro u
  induction u with
  | nil =>
    intro pos _ _
    simp
  | cons i t ih =>
    intro pos hkey hnd
    simp only [List.foldl_cons]
    by_cases hz : grid.getD i 0 = 0
    · rw [if_neg (not_not_intro hz)]
      rw [ih _ (by rw [keys_foldPush]; exact hkey) hnd]
      rw [posGet_foldPush, if_pos hkey]
      by_cases hc : d ∈ cand.getD i []
      · have hcount : (cand.getD i []).count d = 1 :=
          List.count_eq_one_of_mem (hnd i) hc
        rw [hcount, List.filter_cons, if_pos (by rw [hz]; simpa using hc)]
        simp
      · have hcount : (cand.getD i []).count d = 0 :=
          List.count_eq_zero_of_not_mem hc
        rw [hcount, List.filter_cons, if_neg (by rw [hz]; simpa using hc)]
        simp
    · rw [if_pos hz]
      rw [ih _ hkey hnd]
      rw [List.filter_cons, if_neg (by
        intro hcon
        rw [Bool.and_eq_true, beq_iff_eq] at hcon
        exact hz hcon.1)]

theorem posGet_buildPos (grid : Grid) (cand : Cands) (u : List Nat) (d : Nat)
    (hd : d ∈ DIGITS) (hnd : ∀ i, (cand.getD i []).Nodup) :
    posGet (buildPos grid cand u) d =
      u.filter (fun i => grid.getD i 0 == 0 && (cand.getD i []).contains d) := by
  unfold buildPos
  rw [posGet_buildPosAux grid cand d u _ (by simpa using hd) hnd,
    posGet_initPos]
  rfl

theorem posGet_buildPos_zero (grid : Grid) (cand : Cands) (d s : Nat) :
    ∀ (u : List Nat) (pos : List (Nat × List Nat)),
    (∀ x, x ∈ posGet pos d → grid.getD x 0 = 0) →
    s ∈ posGet (u.foldl (fun pos i =>
      if grid.getD i 0 ≠ 0 then pos
      else (cand.getD i []).foldl (fun pos d2 => posPush pos d2 i) pos) pos) d →
    grid.getD s 0 = 0 := by
  intro u
  induction u with
  | nil =>
    intro pos hpos hs
    exact hpos s hs
  | cons i t ih =>
    intro pos hpos hs
    simp only [List.foldl_cons] at hs
    by_cases hz : grid.getD i 0 = 0
    · rw [if_neg (not_not_intro hz)] at hs
      refine ih _ ?_ hs
      intro x hx
      rw [posGet_foldPush] at hx
      rcases List.mem_append.mp hx with hx | hx
      · exact hpos x hx
      · revert hx
        split
        · intro hx
          rw [List.eq_of_mem_replicate hx]
          exact hz
        · intro hx
          exact absurd hx (List.not_mem_nil x)
    · rw [if_pos hz] at hs
      exact ih _ hpos hs

theorem buildPos_zero (grid : Grid) (cand : Cands) (u : List Nat) (d s : Nat)
    (hs : s ∈ posGet (buildPos grid cand u) d) : grid.getD s 0 = 0 := by
  unfold buildPos at hs
  refine posGet_buildPos_zero grid cand d s u _ ?_ hs
  intro x hx
  rw [posGet_initPos] at hx
  exact absurd hx (List.not_mem_nil x)

/-! ## Basic facts about pickMRV and assign -/

theorem pickMRVAux_spec (grid : Grid) (cand : Cands) :
    ∀ (l : List Nat) (best : Option Nat) (bestSize : Nat) (b : Nat),
    (∀ x, best = some x → grid.getD x 0 = 0 ∧ x < 81) →
    (∀ i ∈ l, i < 81) →
    (pickMRVAux grid cand l (best, bestSize)).1 = some b →
    grid.getD b 0 = 0 ∧ b < 81 := by
  intro l
  induction l with
  | nil =>
    intro best bestSize b hbest _ h
    exact hbest b h
  | cons i t ih =>
    intro best bestSize b hbest hl h
    rw [pickMRVAux] at h
    revert h
    split
    · intro h
      exact ih best bestSize b hbest
        (fun x hx => hl x (List.mem_cons_of_mem _ hx)) h
    · rename_i hz
      split
      · intro h
        refine ih _ _ b ?_ (fun x hx => hl x (List.mem_cons_of_mem _ hx)) h
        intro x hx
        injection hx with he
        subst he
        exact ⟨not_not.mp hz, hl i (List.mem_cons_self _ _)⟩
      · intro h
        exact ih best bestSize b hbest
          (fun x hx => hl x (List.mem_cons_of_mem _ hx)) h

theorem pickMRV_unfilled (grid : Grid) (cand : Cands) (cell : Nat)
    (h : pickMRV grid cand = some cell) :
    grid.getD cell 0 = 0 ∧ cell < 81 := by
  refine pickMRVAux_spec grid cand (List.range 81) none 10 cell ?_ ?_ h
  · intro x hx
    exact Option.noConfusion hx
  · intro i hi
    exact List.mem_range.mp hi

theorem assign_some (grid : Grid) (cand : Cands) (i val : Nat) (r : String)
    (g' : Grid) (c' : Cands) (ev : List Ev)
    (h : assign grid cand i val r = (some (g', c'), ev)) :
    g' = grid.set i val ∧ ev = [Ev.assignStep i val r]
    ∧ assignPeers (grid.set i val) (cand.set i [val]) val (PEERS.getD i [])
        = some c' := by
  unfold assign at h
  revert h
  split
  · intro h
    injection h with h1 h2
    exact absurd h1 (by simp)
  · rename_i c2 hP
    intro h
    injection h with h1 h2
    injection h1 with h3
    injection h3 with h4 h5
    exact ⟨h4.symm, h2.symm, h5 ▸ hP⟩

theorem assign_none (grid : Grid) (cand : Cands) (i val : Nat) (r : String)
    (ev : List Ev) (h : assign grid cand i val r = (none, ev)) :
    ev = [Ev.assignStep i val r]
    ∧ assignPeers (grid.set i val) (cand.set i [val]) val (PEERS.getD i [])
        = none := by
  unfold assign at h
  revert h
  split
  · rename_i hP
    intro h
    injection h with h1 h2
    exact ⟨h2.symm, hP⟩
  · intro h
    injection h with h1 h2
    exact absurd h1 (by simp)

/-! ## Clue preservation (claim C10): an assignment never targets a cell
that already held a non-zero value at the moment its target was selected,
so any cell non-zero in the input keeps its value in every state the
solver reaches. -/

theorem nakedPass_pres (i0 v0 : Nat) (hv : v0 ≠ 0) :
    ∀ (l : List Nat) (grid : Grid) (cand : Cands) (ch : Bool)
      (g' : Grid) (c' : Cands) (ch2 : Bool) (ev : List Ev),
    grid.getD i0 0 = v0 →
    nakedPass grid cand ch l = (.done g' c' ch2, ev) →
    g'.getD i0 0 = v0 := by
  intro l
  induction l with
  | nil =>
    intro grid cand ch g' c' ch2 ev hg h
    rw [nakedPass] at h
    injection h with h1 h2
    injection h1 with h3
    subst h3
    exact hg
  | cons i t ih =>
    intro grid cand ch g' c' ch2 ev hg h
    rw [nakedPass] at h
    revert h
    split
    · intro h
      exact ih grid cand ch g' c' ch2 ev hg h
    · rename_i hz
      split
      · split
        · intro h
          injection h with h1
          exact absurd h1 (by simp)
        · rename_i val hcv g2 c2 aEv hA
          intro h
          injection h with h1 h2
          have hii0 : i ≠ i0 := by
            intro he
            rw [he, hg] at hz
            exact absurd (not_not.mp hz) hv
          obtain ⟨hgeq, _, _⟩ := assign_some _ _ _ _ _ _ _ _ hA
          have hg2 : g2.getD i0 0 = v0 := by
            rw [hgeq, getD_set_ne _ _ _ hii0, hg]
          rcases hres : nakedPass g2 c2 true t with ⟨res, ev2⟩
          rw [hres] at h1
          have h1b : res = PassRes.done g' c' ch2 := h1
          exact ih g2 c2 true g' c' ch2 ev2 hg2 (by rw [hres, h1b])
      · intro h
        exact ih grid cand ch g' c' ch2 ev hg h

theorem hiddenDigits_pres (i0 v0 : Nat) (hv : v0 ≠ 0)
    (pos : List (Nat × List Nat))
    (Hp : ∀ d s, s ∈ posGet pos d → s ≠ i0) :
    ∀ (ds : List Nat) (grid : Grid) (cand : Cands) (ch : Bool)
      (g' : Grid) (c' : Cands) (ch2 : Bool) (ev : List Ev),
    grid.getD i0 0 = v0 →
    hiddenDigits grid cand ch pos ds = (.done g' c' ch2, ev) →
    g'.getD i0 0 = v0 := by
  intro ds
  induction ds with
  | nil =>
    intro grid cand ch g' c' ch2 ev hg h
    rw [hiddenDigits] at h
    injection h with h1 h2
    injection h1 with h3
    subst h3
    exact hg
  | cons d t ih =>
    intro grid cand ch g' c' ch2 ev hg h
    rw [hiddenDigits] at h
    revert h
    split
    · rename_i s0 hpos
      split
      · intro h
        injection h with h1
        exact absurd h1 (by simp)
      · rename_i g2 c2 aEv hA
        intro h
        injection h with h1 h2
        have hs0 : s0 ≠ i0 := Hp d s0 (hpos ▸ List.mem_cons_self _ _)
        obtain ⟨hgeq, _, _⟩ := assign_some _ _ _ _ _ _ _ _ hA
        have hg2 : g2.getD i0 0 = v0 := by
          rw [hgeq, getD_set_ne _ _ _ hs0, hg]
        rcases hres : hiddenDigits g2 c2 true pos t with ⟨res, ev2⟩
        rw [hres] at h1
        have h1b : res = PassRes.done g' c' ch2 := h1
        exact ih g2 c2 true g' c' ch2 ev2 hg2 (by rw [hres, h1b])
    · intro h
      exact ih grid cand ch g' c' ch2 ev hg h

theorem hiddenPass_pres (i0 v0 : Nat) (hv : v0 ≠ 0) :
    ∀ (us : List (List Nat)) (grid : Grid) (cand : Cands) (ch : Bool)
      (g' : Grid) (c' : Cands) (ch2 : Bool) (ev : List Ev),
    grid.getD i0 0 = v0 →
    hiddenPass grid cand ch us = (.done g' c' ch2, ev) →
    g'.getD i0 0 = v0 := by
  intro us
  induction us with
  | nil =>
    intro grid cand ch g' c' ch2 ev hg h
    rw [hiddenPass] at h
    injection h with h1 h2
    injection h1 with h3
    subst h3
    exact hg
  | cons u t ih =>
    intro grid cand ch g' c' ch2 ev hg h
    rw [hiddenPass] at h
    revert h
    split
    · intro h
      injection h with h1
      exact absurd h1 (by simp)
    · rename_i g2 c2 ch3 dEv hD
      intro h
      injection h with h1 h2
      have Hp : ∀ d s, s ∈ posGet (buildPos grid cand u) d → s ≠ i0 := by
        intro d s hs he
        have hz := buildPos_zero grid cand u d s hs
        rw [he, hg] at hz
        exact hv hz
      have hg2 : g2.getD i0 0 = v0 :=
        hiddenDigits_pres i0 v0 hv _ Hp DIGITS grid cand ch g2 c2 ch3 dEv hg hD
      rcases hres : hiddenPass g2 c2 ch3 t with ⟨res, ev2⟩
      rw [hres] at h1
      have h1b : res = PassRes.done g' c' ch2 := h1
      exact ih g2 c2 ch3 g' c' ch2 ev2 hg2 (by rw [hres, h1b])

theorem propagateIter_pres (i0 v0 : Nat) (hv : v0 ≠ 0)
    (grid : Grid) (cand : Cands) (g' : Grid) (c' : Cands) (ch : Bool)
    (ev : List Ev) (hg : grid.getD i0 0 = v0)
    (h : propagateIter grid cand = (.done g' c' ch, ev)) :
    g'.getD i0 0 = v0 := by
  unfold propagateIter at h
  revert h
  split
  · intro h
    injection h with h1
    exact absurd h1 (by simp)
  · rename_i g2 c2 ch2 nEv hN
    have hg2 : g2.getD i0 0 = v0 :=
      nakedPass_pres i0 v0 hv (List.range 81) grid cand false g2 c2 ch2 nEv hg hN
    split
    · intro h
      injection h with h1
      exact absurd h1 (by simp)
    · rename_i g3 c3 ch3 hEv hH
      intro h
      injection h with h1 h2
      injection h1 with h3 h4 h5
      exact h3 ▸ hiddenPass_pres i0 v0 hv UNITS g2 c2 ch2 g3 c3 ch3 hEv hg2 hH

theorem propagate_pres (i0 v0 : Nat) (hv : v0 ≠ 0) :
    ∀ (fuel : Nat) (grid : Grid) (cand : Cands) (g' : Grid) (c' : Cands)
      (ev : List Ev),
    grid.getD i0 0 = v0 →
    propagate fuel grid cand = (.done g' c', ev) →
    g'.getD i0 0 = v0 := by
  intro fuel
  induction fuel with
  | zero =>
    intro grid cand g' c' ev hg h
    rw [propagate] at h
    injection h with h1
    exact absurd h1 (by simp)
  | succ fuel ih =>
    intro grid cand g' c' ev hg h
    rw [propagate] at h
    revert h
    split
    · intro h
      injection h with h1
      exact absurd h1 (by simp)
    · rename_i g2 c2 iEv hI
      intro h
      injection h with h1 h2
      have hg2 : g2.getD i0 0 = v0 :=
        propagateIter_pres i0 v0 hv grid cand g2 c2 true iEv hg hI
      rcases hres : propagate fuel g2 c2 with ⟨res, ev2⟩
      rw [hres] at h1
      have h1b : res = PRes.done g' c' := h1
      exact ih g2 c2 g' c' ev2 hg2 (by rw [hres, h1b])
    · rename_i g2 c2 iEv hI
      intro h
      injection h with h1 h2
      have h1b : PRes.done g2 c2 = PRes.done g' c' := h1
      injection h1b with h3 h4
      exact h3 ▸ propagateIter_pres i0 v0 hv grid cand g2 c2 false iEv hg hI

theorem tryVals_pres (i0 v0 : Nat) (hv : v0 ≠ 0)
    (next : Grid → Cands → DRes × List Ev)
    (H : ∀ g c out ev, g.getD i0 0 = v0 → next g c = (.found out, ev) →
      out.getD i0 0 = v0)
    (grid : Grid) (cand : Cands) (cell : Nat)
    (hg : grid.getD i0 0 = v0) (hcell0 : grid.getD cell 0 = 0) :
    ∀ (vals : List Nat) (out : Grid) (ev : List Ev),
    tryVals next grid cand cell vals = (.found out, ev) →
    out.getD i0 0 = v0 := by
  intro vals
  induction vals with
  | nil =>
    intro out ev h
    rw [tryVals] at h
    injection h with h1
    exact absurd h1 (by simp)
  | cons v rest ih =>
    intro out ev h
    rw [tryVals] at h
    revert h
    split
    · intro h
      injection h with h1 h2
      rcases hres : tryVals next grid cand cell rest with ⟨res, ev2⟩
      rw [hres] at h1
      have h1b : res = DRes.found out := h1
      exact ih out ev2 (by rw [hres, h1b])
    · rename_i g1 c1 aEv hA
      split
      · intro h
        injection h with h1
        exact absurd h1 (by simp)
      · intro h
        injection h with h1 h2
        rcases hres : tryVals next grid cand cell rest with ⟨res, ev2⟩
        rw [hres] at h1
        have h1b : res = DRes.found out := h1
        exact ih out ev2 (by rw [hres, h1b])
      · rename_i g2 c2 pEv hP
        split
        · rename_i out2 dEv hD
          intro h
          injection h with h1 h2
          have h1b : DRes.found out2 = DRes.found out := h1
          injection h1b with he
          obtain ⟨hgeq, _, _⟩ := assign_some _ _ _ _ _ _ _ _ hA
          have hcell : cell ≠ i0 := by
            intro he
            rw [he, hg] at hcell0
            exact hv hcell0
          have hg1 : g1.getD i0 0 = v0 := by
            rw [hgeq, getD_set_ne _ _ _ hcell, hg]
          have hg2 : g2.getD i0 0 = v0 :=
            propagate_pres i0 v0 hv _ g1 c1 g2 c2 pEv hg1 hP
          exact he ▸ H g2 c2 out2 dEv hg2 hD
        · intro h
          injection h with h1 h2
          rcases hres : tryVals next grid cand cell rest with ⟨res, ev2⟩
          rw [hres] at h1
          have h1b : res = DRes.found out := h1
          exact ih out ev2 (by rw [hres, h1b])
        · intro h
          injection h with h1
          exact absurd h1 (by simp)

theorem dfs_pres (i0 v0 : Nat) (hv : v0 ≠ 0) :
    ∀ (fuel : Nat) (grid : Grid) (cand : Cands) (out : Grid) (ev : List Ev),
    grid.getD i0 0 = v0 →
    dfs fuel grid cand = (.found out, ev) →
    out.getD i0 0 = v0 := by
  intro fuel
  induction fuel with
  | zero =>
    intro grid cand out ev hg h
    rw [dfs] at h
    injection h with h1
    exact absurd h1 (by simp)
  | succ fuel ih =>
    intro grid cand out ev hg h
    rw [dfs] at h
    revert h
    split
    · intro h
      injection h with h1 h2
      injection h1 with he
      exact he ▸ hg
    · split
      · intro h
        injection h with h1
        exact absurd h1 (by simp)
      · rename_i cell hpick
        intro h
        injection h with h1 h2
        rcases hres : tryVals (dfs fuel) grid cand cell (cand.getD cell [])
          with ⟨res, ev2⟩
        rw [hres] at h1
        have h1b : res = DRes.found out := h1
        have hcell0 := (pickMRV_unfilled grid cand cell hpick).1
        exact tryVals_pres i0 v0 hv (dfs fuel)
          (fun g c o e hg2 hD => ih g c o e hg2 hD) grid cand cell hg hcell0
          (cand.getD cell []) out ev2 (by rw [hres, h1b])

theorem coreSolve_pres (g g2 : Grid) (h : (coreSolve g).1 = .ok g2) :
    ∀ i0, g.getD i0 0 ≠ 0 → g2.getD i0 0 = g.getD i0 0 := by
  intro i0 hnz
  simp only [coreSolve] at h
  revert h
  split
  · intro h
    exact absurd h (by simp)
  · split
    · intro h
      exact absurd h (by simp)
    · rename_i cand hB
      split
      · intro h
        exact absurd h (by simp)
      · intro h
        exact absurd h (by simp)
      · rename_i gp cp pEv hP
        have hgp : gp.getD i0 0 = g.getD i0 0 :=
          propagate_pres i0 (g.getD i0 0) hnz _ g cand gp cp pEv rfl hP
        split
        · intro h
          have h2 : SolveResult.ok gp = SolveResult.ok g2 := h
          injection h2 with he
          exact he ▸ hgp
        · split
          · rename_i out dEv hD
            intro h
            have h2 : SolveResult.ok out = SolveResult.ok g2 := h
            injection h2 with he
            exact he ▸ dfs_pres i0 (g.getD i0 0) hnz _ gp cp out dEv hgp hD
          · intro h
            exact absurd h (by simp)
          · intro h
            exact absurd h (by simp)

/-- Claim C10: a successful `solve` extends its input: every non-zero cell
of the input grid keeps exactly its value in the returned grid (the solver
never overwrites a caller-supplied clue). -/
theorem C10_preserves_clues (g g2 : Grid) (h : solve g = .ok g2) :
    ∀ i, g.getD i 0 ≠ 0 → g2.getD i 0 = g.getD i 0 :=
  coreSolve_pres g g2 h

set_option maxRecDepth 100000 in
/-- Witness for C10 at a concrete input. -/
theorem C10_preserves_clues_witness :
    solve W = .ok W ∧ (∀ i, W.getD i 0 ≠ 0 → W.getD i 0 = W.getD i 0) :=
  ⟨by decide, C10_preserves_clues W W (by decide)⟩

/-! ## Candidate-set invariants and the termination measure

Reachable candidate sets are JS `Set`s built from `DIGITS` (ascending, no
duplicates) by deletions and singleton collapses, so they stay strictly
ascending lists of digits `1..9`.  This invariant yields both the
bounded sizes used by `pickMRV` and the strict decrease of the number of
empty cells in every changed propagation iteration. -/

/-- Invariant of one candidate set: strictly ascending digits `1..9`. -/
def SetInv (s : List Nat) : Prop :=
  s.Sorted (· < ·) ∧ ∀ v ∈ s, 1 ≤ v ∧ v ≤ 9

/-- Invariant of the whole candidate structure. -/
def CandsInv (cand : Cands) : Prop := ∀ i, SetInv (cand.getD i [])

theorem SetInv_nil : SetInv [] := ⟨List.sorted_nil, by intro v hv; cases hv⟩

theorem SetInv_singleton (v : Nat) (h1 : 1 ≤ v) (h9 : v ≤ 9) :
    SetInv [v] := by
  refine ⟨List.sorted_singleton v, ?_⟩
  intro w hw
  rcases List.mem_singleton.mp hw with rfl
  exact ⟨h1, h9⟩

theorem SetInv_DIGITS : SetInv DIGITS := by
  constructor
  · decide
  · decide

theorem SetInv_erase (s : List Nat) (val : Nat) (h : SetInv s) :
    SetInv (s.erase val) := by
  refine ⟨List.Pairwise.sublist (List.erase_sublist val s) h.1, ?_⟩
  intro v hv
  exact h.2 v ((List.erase_sublist val s).subset hv)

theorem SetInv_nodup (s : List Nat) (h : SetInv s) : s.Nodup :=
  h.1.nodup

theorem SetInv_length_le (s : List Nat) (h : SetInv s) : s.length ≤ 9 := by
  have hnd := SetInv_nodup s h
  have hsub : s ⊆ DIGITS := by
    intro v hv
    have := h.2 v hv
    have h1 := this.1
    have h9 := this.2
    interval_cases v <;> decide
  calc s.length = s.toFinset.card := (List.toFinset_card_of_nodup hnd).symm
    _ ≤ DIGITS.toFinset.card := Finset.card_le_card (by
        intro v hv
        rw [List.mem_toFinset] at hv ⊢
        exact hsub hv)
    _ ≤ 9 := by decide

theorem getD_set_ite {α : Type} (l : List α) (i j : Nat) (v d : α) :
    (l.set i v).getD j d =
      if i = j ∧ i < l.length then v else l.getD j d := by
  by_cases hij : i = j
  · subst hij
    by_cases hlen : i < l.length
    · rw [if_pos ⟨rfl, hlen⟩, getD_set_self _ _ _ _ hlen]
    · rw [if_neg (fun h => hlen h.2),
        List.set_eq_of_length_le (Nat.le_of_not_lt hlen)]
  · rw [if_neg (fun h => hij h.1), getD_set_ne _ _ _ hij]

theorem CandsInv_set (cand : Cands) (i : Nat) (s : List Nat)
    (h : CandsInv cand) (hs : SetInv s) : CandsInv (cand.set i s) := by
  intro j
  rw [getD_set_ite]
  split
  · exact hs
  · exact h j

theorem assignPeers_inv (grid : Grid) (val : Nat) :
    ∀ (ps : List Nat) (cand : Cands) (c' : Cands),
    CandsInv cand → assignPeers grid cand val ps = some c' → CandsInv c' := by
  intro ps
  induction ps with
  | nil =>
    intro cand c' h hp
    rw [assignPeers] at hp
    injection hp with he
    exact he ▸ h
  | cons p t ih =>
    intro cand c' h hp
    rw [assignPeers] at hp
    revert hp
    split
    · exact fun hp => ih cand c' h hp
    · split
      · split
        · intro hp
          exact Option.noConfusion hp
        · intro hp
          exact ih _ c' (CandsInv_set _ _ _ h (SetInv_erase _ _ (h p))) hp
      · exact fun hp => ih cand c' h hp

theorem assign_inv (grid : Grid) (cand : Cands) (i val : Nat) (r : String)
    (g' : Grid) (c' : Cands) (ev : List Ev)
    (h : CandsInv cand) (h1 : 1 ≤ val) (h9 : val ≤ 9)
    (hA : assign grid cand i val r = (some (g', c'), ev)) : CandsInv c' := by
  obtain ⟨_, _, hP⟩ := assign_some _ _ _ _ _ _ _ _ hA
  exact assignPeers_inv _ _ _ _ _
    (CandsInv_set _ _ _ h (SetInv_singleton val h1 h9)) hP

theorem countP_mono_of_imp {α : Type} (p q : α → Bool) :
    ∀ l : List α, (∀ x ∈ l, p x = true → q x = true) →
    l.countP p ≤ l.countP q := by
  intro l
  induction l with
  | nil => intro _; simp
  | cons a t ih =>
    intro h
    have hle := ih (fun x hx => h x (List.mem_cons_of_mem _ hx))
    rw [List.countP_cons, List.countP_cons]
    by_cases hp : p a = true
    · rw [if_pos hp, if_pos (h a (List.mem_cons_self _ _) hp)]
      omega
    · rw [Bool.not_eq_true] at hp
      rw [hp]
      have hzero : (if (false = true) then 1 else 0) = 0 := by simp
      rw [hzero]
      by_cases hq : q a = true
      · rw [if_pos hq]
        omega
      · rw [Bool.not_eq_true] at hq
        rw [hq, hzero]
        omega

theorem countP_lt_of_flip {α : Type} (p q : α → Bool) :
    ∀ l : List α, l.Nodup → ∀ i ∈ l, p i = false → q i = true →
    (∀ x ∈ l, p x = true → q x = true) → l.countP p < l.countP q := by
  intro l
  induction l with
  | nil =>
    intro _ i hi
    exact absurd hi (List.not_mem_nil i)
  | cons a t ih =>
    intro hnd i hi hpi hqi himp
    have hmono := countP_mono_of_imp p q t
      (fun x hx => himp x (List.mem_cons_of_mem _ hx))
    rw [List.countP_cons, List.countP_cons]
    rcases List.mem_cons.mp hi with hia | hit
    · rw [← hia, hpi, hqi]
      simp only [Bool.false_eq_true, if_false]
      rw [if_pos trivial]
      omega
    · have hrec := ih (List.nodup_cons.mp hnd).2 i hit hpi hqi
        (fun x hx => himp x (List.mem_cons_of_mem _ hx))
      by_cases hpa : p a = true
      · rw [if_pos hpa, if_pos (himp a (List.mem_cons_self _ _) hpa)]
        omega
      · rw [Bool.not_eq_true] at hpa
        rw [hpa]
        simp only [Bool.false_eq_true, if_false]
        by_cases hqa : q a = true
        · rw [if_pos hqa]
          omega
        · rw [Bool.not_eq_true] at hqa
          rw [hqa]
          simp only [Bool.false_eq_true, if_false]
          omega

theorem zeros_set_le (grid : Grid) (i val : Nat) (hval : val ≠ 0) :
    zeros (grid.set i val) ≤ zeros grid := by
  refine countP_mono_of_imp _ _ _ ?_
  intro x _ hpx
  rw [getD_set_ite] at hpx
  revert hpx
  split
  · intro hpx
    rw [beq_iff_eq] at hpx
    exact absurd hpx hval
  · exact fun hpx => hpx

theorem zeros_set_lt (grid : Grid) (i val : Nat) (hval : val ≠ 0)
    (hi : i < 81) (hz : grid.getD i 0 = 0) (hilen : i < grid.length) :
    zeros (grid.set i val) < zeros grid := by
  refine countP_lt_of_flip _ _ _ (List.nodup_range 81)
    i (List.mem_range.mpr hi) ?_ ?_ ?_
  · rw [getD_set_self _ _ _ _ hilen]
    exact beq_eq_false_iff_ne.mpr hval
  · rw [hz]
    rfl
  · intro x _ hpx
    rw [getD_set_ite] at hpx
    revert hpx
    split
    · intro hpx
      rw [beq_iff_eq] at hpx
      exact absurd hpx hval
    · exact fun hpx => hpx

theorem posGet_buildPos_mem_unit (grid : Grid) (cand : Cands) (d s : Nat) :
    ∀ (u : List Nat) (pos : List (Nat × List Nat)),
    s ∈ posGet (u.foldl (fun pos i =>
      if grid.getD i 0 ≠ 0 then pos
      else (cand.getD i []).foldl (fun pos d2 => posPush pos d2 i) pos) pos) d →
    s ∈ posGet pos d ∨ s ∈ u := by
  intro u
  induction u with
  | nil =>
    intro pos hs
    exact Or.inl hs
  | cons i t ih =>
    intro pos hs
    simp only [List.foldl_cons] at hs
    by_cases hz : grid.getD i 0 = 0
    · rw [if_neg (not_not_intro hz)] at hs
      rcases ih _ hs with hold | ht
      · rw [posGet_foldPush] at hold
        rcases List.mem_append.mp hold with hold | hrep
        · exact Or.inl hold
        · revert hrep
          split
          · intro hrep
            rw [List.eq_of_mem_replicate hrep]
            exact Or.inr (List.mem_cons_self _ _)
          · intro hrep
            exact absurd hrep (List.not_mem_nil s)
      · exact Or.inr (List.mem_cons_of_mem _ ht)
    · rw [if_pos hz] at hs
      rcases ih _ hs with hold | ht
      · exact Or.inl hold
      · exact Or.inr (List.mem_cons_of_mem _ ht)

theorem buildPos_mem (grid : Grid) (cand : Cands) (u : List Nat) (d s : Nat)
    (hs : s ∈ posGet (buildPos grid cand u) d) : s ∈ u := by
  unfold buildPos at hs
  rcases posGet_buildPos_mem_unit grid cand d s u _ hs with hold | ht
  · rw [posGet_initPos] at hold
    exact absurd hold (List.not_mem_nil s)
  · exact ht

/-! ## Fixed-point properties of the propagation loop (claim C9) -/

theorem nakedPass_ch :
    ∀ (l : List Nat) (grid : Grid) (cand : Cands)
      (g' : Grid) (c' : Cands) (ch2 : Bool) (ev : List Ev),
    nakedPass grid cand true l = (.done g' c' ch2, ev) → ch2 = true := by
  intro l
  induction l with
  | nil =>
    intro grid cand g' c' ch2 ev h
    rw [nakedPass] at h
    injection h with h1 h2
    injection h1 with h3 h4 h5
    exact h5.symm
  | cons i t ih =>
    intro grid cand g' c' ch2 ev h
    rw [nakedPass] at h
    revert h
    split
    · exact fun h => ih grid cand g' c' ch2 ev h
    · split
      · split
        · intro h
          injection h with h1
          exact absurd h1 (by simp)
        · rename_i g2 c2 aEv hA
          intro h
          injection h with h1 h2
          rcases hres : nakedPass g2 c2 true t with ⟨res, ev2⟩
          rw [hres] at h1
          have h1b : res = PassRes.done g' c' ch2 := h1
          exact ih g2 c2 g' c' ch2 ev2 (by rw [hres, h1b])
      · exact fun h => ih grid cand g' c' ch2 ev h

theorem nakedPass_unchanged :
    ∀ (l : List Nat) (grid : Grid) (cand : Cands) (ch : Bool)
      (g' : Grid) (c' : Cands) (ev : List Ev),
    nakedPass grid cand ch l = (.done g' c' false, ev) →
    g' = grid ∧ c' = cand ∧ ev = [] ∧
    ∀ i ∈ l, grid.getD i 0 = 0 → (cand.getD i []).length ≠ 1 := by
  intro l
  induction l with
  | nil =>
    intro grid cand ch g' c' ev h
    rw [nakedPass] at h
    injection h with h1 h2
    injection h1 with h3 h4 h5
    exact ⟨h3.symm, h4.symm, h2.symm, fun i hi => absurd hi (List.not_mem_nil i)⟩
  | cons i t ih =>
    intro grid cand ch g' c' ev h
    rw [nakedPass] at h
    revert h
    split
    · rename_i hnz
      intro h
      obtain ⟨e1, e2, e3, e4⟩ := ih grid cand ch g' c' ev h
      refine ⟨e1, e2, e3, ?_⟩
      intro j hj hz
      rcases List.mem_cons.mp hj with hji | hjt
      · rw [hji] at hz
        exact absurd hz hnz
      · exact e4 j hjt hz
    · split
      · split
        · intro h
          injection h with h1
          exact absurd h1 (by simp)
        · rename_i g2 c2 aEv hA
          intro h
          injection h with h1 h2
          rcases hres : nakedPass g2 c2 true t with ⟨res, ev2⟩
          rw [hres] at h1
          have h1b : res = PassRes.done g' c' false := h1
          have := nakedPass_ch t g2 c2 g' c' false ev2 (by rw [hres, h1b])
          exact absurd this (by simp)
      · rename_i hz hne
        intro h
        obtain ⟨e1, e2, e3, e4⟩ := ih grid cand ch g' c' ev h
        refine ⟨e1, e2, e3, ?_⟩
        intro j hj hjz
        rcases List.mem_cons.mp hj with hji | hjt
        · rw [← hji] at hne
          intro hlen
          obtain ⟨a, ha⟩ := List.length_eq_one.mp hlen
          exact hne a ha
        · exact e4 j hjt hjz

theorem hiddenDigits_ch (pos : List (Nat × List Nat)) :
    ∀ (ds : List Nat) (grid : Grid) (cand : Cands)
      (g' : Grid) (c' : Cands) (ch2 : Bool) (ev : List Ev),
    hiddenDigits grid cand true pos ds = (.done g' c' ch2, ev) → ch2 = true := by
  intro ds
  induction ds with
  | nil =>
    intro grid cand g' c' ch2 ev h
    rw [hiddenDigits] at h
    injection h with h1 h2
    injection h1 with h3 h4 h5
    exact h5.symm
  | cons d t ih =>
    intro grid cand g' c' ch2 ev h
    rw [hiddenDigits] at h
    revert h
    split
    · split
      · intro h
        injection h with h1
        exact absurd h1 (by simp)
      · rename_i g2 c2 aEv hA
        intro h
        injection h with h1 h2
        rcases hres : hiddenDigits g2 c2 true pos t with ⟨res, ev2⟩
        rw [hres] at h1
        have h1b : res = PassRes.done g' c' ch2 := h1
        exact ih g2 c2 g' c' ch2 ev2 (by rw [hres, h1b])
    · exact fun h => ih grid cand g' c' ch2 ev h

theorem hiddenDigits_unchanged (pos : List (Nat × List Nat)) :
    ∀ (ds : List Nat) (grid : Grid) (cand : Cands) (ch : Bool)
      (g' : Grid) (c' : Cands) (ev : List Ev),
    hiddenDigits grid cand ch pos ds = (.done g' c' false, ev) →
    g' = grid ∧ c' = cand ∧ ev = [] ∧
    ∀ d ∈ ds, (posGet pos d).length ≠ 1 := by
  intro ds
  induction ds with
  | nil =>
    intro grid cand ch g' c' ev h
    rw [hiddenDigits] at h
    injection h with h1 h2
    injection h1 with h3 h4 h5
    exact ⟨h3.symm, h4.symm, h2.symm, fun d hd => absurd hd (List.not_mem_nil d)⟩
  | cons d t ih =>
    intro grid cand ch g' c' ev h
    rw [hiddenDigits] at h
    revert h
    split
    · split
      · intro h
        injection h with h1
        exact absurd h1 (by simp)
      · rename_i g2 c2 aEv hA
        intro h
        injection h with h1 h2
        rcases hres : hiddenDigits g2 c2 true pos t with ⟨res, ev2⟩
        rw [hres] at h1
        have h1b : res = PassRes.done g' c' false := h1
        have := hiddenDigits_ch pos t g2 c2 g' c' false ev2 (by rw [hres, h1b])
        exact absurd this (by simp)
    · rename_i hne
      intro h
      obtain ⟨e1, e2, e3, e4⟩ := ih grid cand ch g' c' ev h
      refine ⟨e1, e2, e3, ?_⟩
      intro d2 hd2 hlen
      rcases List.mem_cons.mp hd2 with hdd | hdt
      · obtain ⟨a, ha⟩ := List.length_eq_one.mp hlen
        rw [← hdd] at hne
        exact hne a ha
      · exact e4 d2 hdt hlen

theorem hiddenPass_ch :
    ∀ (us : List (List Nat)) (grid : Grid) (cand : Cands)
      (g' : Grid) (c' : Cands) (ch2 : Bool) (ev : List Ev),
    hiddenPass grid cand true us = (.done g' c' ch2, ev) → ch2 = true := by
  intro us
  induction us with
  | nil =>
    intro grid cand g' c' ch2 ev h
    rw [hiddenPass] at h
    injection h with h1 h2
    injection h1 with h3 h4 h5
    exact h5.symm
  | cons u t ih =>
    intro grid cand g' c' ch2 ev h
    rw [hiddenPass] at h
    revert h
    split
    · intro h
      injection h with h1
      exact absurd h1 (by simp)
    · rename_i g2 c2 ch3 dEv hD
      intro h
      injection h with h1 h2
      have hch3 : ch3 = true := hiddenDigits_ch _ DIGITS grid cand g2 c2 ch3 dEv hD
      rcases hres : hiddenPass g2 c2 ch3 t with ⟨res, ev2⟩
      rw [hres] at h1
      have h1b : res = PassRes.done g' c' ch2 := h1
      exact ih g2 c2 g' c' ch2 ev2 (by rw [← hch3, hres, h1b])

theorem hiddenPass_unchanged :
    ∀ (us : List (List Nat)) (grid : Grid) (cand : Cands) (ch : Bool)
      (g' : Grid) (c' : Cands) (ev : List Ev),
    hiddenPass grid cand ch us = (.done g' c' false, ev) →
    g' = grid ∧ c' = cand ∧ ev = [] ∧
    ∀ u ∈ us, ∀ d ∈ DIGITS, (posGet (buildPos grid cand u) d).length ≠ 1 := by
  intro us
  induction us with
  | nil =>
    intro grid cand ch g' c' ev h
    rw [hiddenPass] at h
    injection h with h1 h2
    injection h1 with h3 h4 h5
    exact ⟨h3.symm, h4.symm, h2.symm, fun u hu => absurd hu (List.not_mem_nil u)⟩
  | cons u t ih =>
    intro grid cand ch g' c' ev h
    rw [hiddenPass] at h
    revert h
    split
    · intro h
      injection h with h1
      exact absurd h1 (by simp)
    · rename_i g2 c2 ch3 dEv hD
      intro h
      injection h with h1 h2
      rcases hres : hiddenPass g2 c2 ch3 t with ⟨res, ev2⟩
      rw [hres] at h1
      have h1b : res = PassRes.done g' c' false := h1
      by_cases hch3 : ch3 = true
      · have := hiddenPass_ch t g2 c2 g' c' false ev2 (by rw [← hch3, hres, h1b])
        exact absurd this (by simp)
      · rw [Bool.not_eq_true] at hch3
        rw [hch3] at hD
        rw [hch3] at hres
        obtain ⟨f1, f2, f3, f4⟩ := hiddenDigits_unchanged _ DIGITS grid cand ch g2 c2 dEv hD
        subst f1
        subst f2
        obtain ⟨e1, e2, e3, e4⟩ := ih g2 c2 false g' c' ev2 (by rw [hres, h1b])
        refine ⟨e1, e2, by rw [← h2, f3, hch3, hres, e3]; rfl, ?_⟩
        intro u2 hu2 d hd
        rcases List.mem_cons.mp hu2 with huu | hut
        · rw [huu]
          exact f4 d hd
        · exact e4 u2 hut d hd

theorem propagateIter_fix (grid : Grid) (cand : Cands) (g' : Grid)
    (c' : Cands) (ev : List Ev)
    (h : propagateIter grid cand = (.done g' c' false, ev)) :
    g' = grid ∧ c' = cand ∧
    (∀ i ∈ List.range 81, grid.getD i 0 = 0 → (cand.getD i []).length ≠ 1) ∧
    (∀ u ∈ UNITS, ∀ d ∈ DIGITS,
      (posGet (buildPos grid cand u) d).length ≠ 1) := by
  unfold propagateIter at h
  revert h
  split
  · intro h
    injection h with h1
    exact absurd h1 (by simp)
  · rename_i g2 c2 chN nEv hN
    split
    · intro h
      injection h with h1
      exact absurd h1 (by simp)
    · rename_i g3 c3 ch3 hEv hH
      intro h
      injection h with h1 h2
      injection h1 with e1 e2 e3
      by_cases hchN : chN = true
      · rw [hchN] at hH
        have := hiddenPass_ch UNITS g2 c2 g3 c3 ch3 hEv hH
        rw [this] at e3
        exact absurd e3.symm (by simp)
      · rw [Bool.not_eq_true] at hchN
        rw [hchN] at hN
        obtain ⟨f1, f2, f3, f4⟩ := nakedPass_unchanged (List.range 81)
          grid cand false g2 c2 nEv hN
        subst f1
        subst f2
        rw [e3] at hH
        obtain ⟨k1, k2, k3, k4⟩ := hiddenPass_unchanged UNITS g2 c2 chN
          g3 c3 hEv hH
        exact ⟨e1 ▸ k1, e2 ▸ k2, f4, k4⟩

theorem propagate_fix :
    ∀ (fuel : Nat) (grid : Grid) (cand : Cands) (g' : Grid) (c' : Cands)
      (ev : List Ev),
    propagate fuel grid cand = (.done g' c', ev) →
    (∀ i ∈ List.range 81, g'.getD i 0 = 0 → (c'.getD i []).length ≠ 1) ∧
    (∀ u ∈ UNITS, ∀ d ∈ DIGITS,
      (posGet (buildPos g' c' u) d).length ≠ 1) := by
  intro fuel
  induction fuel with
  | zero =>
    intro grid cand g' c' ev h
    rw [propagate] at h
    injection h with h1
    exact absurd h1 (by simp)
  | succ fuel ih =>
    intro grid cand g' c' ev h
    rw [propagate] at h
    revert h
    split
    · intro h
      injection h with h1
      exact absurd h1 (by simp)
    · rename_i g2 c2 iEv hI
      intro h
      injection h with h1 h2
      rcases hres : propagate fuel g2 c2 with ⟨res, ev2⟩
      rw [hres] at h1
      have h1b : res = PRes.done g' c' := h1
      exact ih g2 c2 g' c' ev2 (by rw [hres, h1b])
    · rename_i g2 c2 iEv hI
      intro h
      injection h with h1 h2
      have h1b : PRes.done g2 c2 = PRes.done g' c' := h1
      injection h1b with e1 e2
      obtain ⟨k1, k2, k3, k4⟩ := propagateIter_fix grid cand g2 c2 iEv hI
      subst e1
      subst e2
      rw [k1, k2]
      exact ⟨k3, k4⟩

/-! ## Measure and invariant bookkeeping of the passes -/

theorem UNITS_lt81 : ∀ u ∈ UNITS, ∀ i ∈ u, i < 81 := by decide

theorem nakedPass_main :
    ∀ (l : List Nat) (grid : Grid) (cand : Cands) (ch : Bool)
      (g' : Grid) (c' : Cands) (ch2 : Bool) (ev : List Ev),
    (∀ i ∈ l, i < 81) → grid.length = 81 → CandsInv cand →
    nakedPass grid cand ch l = (.done g' c' ch2, ev) →
    zeros g' ≤ zeros grid ∧ CandsInv c' ∧ g'.length = 81 ∧
    (ch2 = true → ch = true ∨ zeros g' < zeros grid) := by
  intro l
  induction l with
  | nil =>
    intro grid cand ch g' c' ch2 ev _ hlen hinv h
    rw [nakedPass] at h
    injection h with h1 h2
    injection h1 with h3 h4 h5
    subst h3
    subst h4
    exact ⟨Nat.le_refl _, hinv, hlen, fun hc => Or.inl (h5 ▸ hc)⟩
  | cons i t ih =>
    intro grid cand ch g' c' ch2 ev hl hlen hinv h
    rw [nakedPass] at h
    revert h
    split
    · intro h
      exact ih grid cand ch g' c' ch2 ev
        (fun x hx => hl x (List.mem_cons_of_mem _ hx)) hlen hinv h
    · rename_i hz
      split
      · split
        · intro h
          injection h with h1
          exact absurd h1 (by simp)
        · rename_i val0 hval hpr g2 c2 aEv hA
          intro h
          injection h with h1 h2
          obtain ⟨hgeq, _, _⟩ := assign_some _ _ _ _ _ _ _ _ hA
          have hvmem : val0 ∈ cand.getD i [] := by
            rw [hval]
            exact List.mem_cons_self _ _
          have hvb := (hinv i).2 val0 hvmem
          have hv0 : val0 ≠ 0 := by omega
          have hi81 : i < 81 := hl i (List.mem_cons_self _ _)
          have hilen : i < grid.length := by omega
          have hzlt : zeros g2 < zeros grid := by
            rw [hgeq]
            exact zeros_set_lt grid i val0 hv0 hi81 (not_not.mp hz) hilen
          have hlen2 : g2.length = 81 := by
            rw [hgeq, List.length_set, hlen]
          have hinv2 : CandsInv c2 :=
            assign_inv grid cand i val0 _ g2 c2 aEv hinv hvb.1 hvb.2 hA
          rcases hres : nakedPass g2 c2 true t with ⟨res, ev2⟩
          rw [hres] at h1
          have h1b : res = PassRes.done g' c' ch2 := h1
          obtain ⟨m1, m2, m3, _⟩ := ih g2 c2 true g' c' ch2 ev2
            (fun x hx => hl x (List.mem_cons_of_mem _ hx)) hlen2 hinv2
            (by rw [hres, h1b])
          exact ⟨Nat.le_trans m1 (Nat.le_of_lt hzlt), m2, m3,
            fun _ => Or.inr (Nat.lt_of_le_of_lt m1 hzlt)⟩
      · intro h
        exact ih grid cand ch g' c' ch2 ev
          (fun x hx => hl x (List.mem_cons_of_mem _ hx)) hlen hinv h

theorem hiddenDigits_main (pos : List (Nat × List Nat))
    (hpos81 : ∀ d s, s ∈ posGet pos d → s < 81) :
    ∀ (ds : List Nat) (grid : Grid) (cand : Cands) (ch : Bool)
      (g' : Grid) (c' : Cands) (ch2 : Bool) (ev : List Ev),
    (∀ d ∈ ds, 1 ≤ d ∧ d ≤ 9) → grid.length = 81 → CandsInv cand →
    hiddenDigits grid cand ch pos ds = (.done g' c' ch2, ev) →
    zeros g' ≤ zeros grid ∧ CandsInv c' ∧ g'.length = 81 := by
  intro ds
  induction ds with
  | nil =>
    intro grid cand ch g' c' ch2 ev _ hlen hinv h
    rw [hiddenDigits] at h
    injection h with h1 h2
    injection h1 with h3 h4 h5
    subst h3
    subst h4
    exact ⟨Nat.le_refl _, hinv, hlen⟩
  | cons d t ih =>
    intro grid cand ch g' c' ch2 ev hds hlen hinv h
    rw [hiddenDigits] at h
    revert h
    split
    · rename_i s0 hposd
      split
      · intro h
        injection h with h1
        exact absurd h1 (by simp)
      · rename_i g2 c2 aEv hA
        intro h
        injection h with h1 h2
        obtain ⟨hgeq, _, _⟩ := assign_some _ _ _ _ _ _ _ _ hA
        have hdb := hds d (List.mem_cons_self _ _)
        have hd0 : d ≠ 0 := by omega
        have hzle : zeros g2 ≤ zeros grid := by
          rw [hgeq]
          exact zeros_set_le grid s0 d hd0
        have hlen2 : g2.length = 81 := by
          rw [hgeq, List.length_set, hlen]
        have hinv2 : CandsInv c2 :=
          assign_inv grid cand s0 d _ g2 c2 aEv hinv hdb.1 hdb.2 hA
        rcases hres : hiddenDigits g2 c2 true pos t with ⟨res, ev2⟩
        rw [hres] at h1
        have h1b : res = PassRes.done g' c' ch2 := h1
        obtain ⟨m1, m2, m3⟩ := ih g2 c2 true g' c' ch2 ev2
          (fun x hx => hds x (List.mem_cons_of_mem _ hx)) hlen2 hinv2
          (by rw [hres, h1b])
        exact ⟨Nat.le_trans m1 hzle, m2, m3⟩
    · intro h
      exact ih grid cand ch g' c' ch2 ev
        (fun x hx => hds x (List.mem_cons_of_mem _ hx)) hlen hinv h

theorem hiddenDigits_strict (pos : List (Nat × List Nat))
    (hpos81 : ∀ d s, s ∈ posGet pos d → s < 81) :
    ∀ (ds : List Nat) (grid : Grid) (cand : Cands)
      (g' : Grid) (c' : Cands) (ch2 : Bool) (ev : List Ev),
    (∀ d s, s ∈ posGet pos d → grid.getD s 0 = 0) →
    (∀ d ∈ ds, 1 ≤ d ∧ d ≤ 9) → grid.length = 81 → CandsInv cand →
    hiddenDigits grid cand false pos ds = (.done g' c' ch2, ev) →
    ch2 = true → zeros g' < zeros grid := by
  intro ds
  induction ds with
  | nil =>
    intro grid cand g' c' ch2 ev _ _ _ _ h hc
    rw [hiddenDigits] at h
    injection h with h1 h2
    injection h1 with h3 h4 h5
    rw [hc] at h5
    exact absurd h5.symm (by simp)
  | cons d t ih =>
    intro grid cand g' c' ch2 ev hpos0 hds hlen hinv h hc
    rw [hiddenDigits] at h
    revert h
    split
    · rename_i s0 hposd
      split
      · intro h
        injection h with h1
        exact absurd h1 (by simp)
      · rename_i g2 c2 aEv hA
        intro h
        injection h with h1 h2
        obtain ⟨hgeq, _, _⟩ := assign_some _ _ _ _ _ _ _ _ hA
        have hdb := hds d (List.mem_cons_self _ _)
        have hd0 : d ≠ 0 := by omega
        have hs0mem : s0 ∈ posGet pos d := hposd ▸ List.mem_cons_self _ _
        have hs081 : s0 < 81 := hpos81 d s0 hs0mem
        have hs0z : grid.getD s0 0 = 0 := hpos0 d s0 hs0mem
        have hzlt : zeros g2 < zeros grid := by
          rw [hgeq]
          exact zeros_set_lt grid s0 d hd0 hs081 hs0z (by omega)
        have hlen2 : g2.length = 81 := by
          rw [hgeq, List.length_set, hlen]
        have hinv2 : CandsInv c2 :=
          assign_inv grid cand s0 d _ g2 c2 aEv hinv hdb.1 hdb.2 hA
        rcases hres : hiddenDigits g2 c2 true pos t with ⟨res, ev2⟩
        rw [hres] at h1
        have h1b : res = PassRes.done g' c' ch2 := h1
        obtain ⟨m1, _, _⟩ := hiddenDigits_main pos hpos81 t g2 c2 true
          g' c' ch2 ev2 (fun x hx => hds x (List.mem_cons_of_mem _ hx))
          hlen2 hinv2 (by rw [hres, h1b])
        exact Nat.lt_of_le_of_lt m1 hzlt
    · intro h
      exact ih grid cand g' c' ch2 ev hpos0
        (fun x hx => hds x (List.mem_cons_of_mem _ hx)) hlen hinv h hc

theorem hiddenPass_main :
    ∀ (us : List (List Nat)) (grid : Grid) (cand : Cands) (ch : Bool)
      (g' : Grid) (c' : Cands) (ch2 : Bool) (ev : List Ev),
    (∀ u ∈ us, ∀ i ∈ u, i < 81) → grid.length = 81 → CandsInv cand →
    hiddenPass grid cand ch us = (.done g' c' ch2, ev) →
    zeros g' ≤ zeros grid ∧ CandsInv c' ∧ g'.length = 81 ∧
    (ch2 = true → ch = true ∨ zeros g' < zeros grid) := by
  intro us
  induction us with
  | nil =>
    intro grid cand ch g' c' ch2 ev _ hlen hinv h
    rw [hiddenPass] at h
    injection h with h1 h2
    injection h1 with h3 h4 h5
    subst h3
    subst h4
    exact ⟨Nat.le_refl _, hinv, hlen, fun hc => Or.inl (h5 ▸ hc)⟩
  | cons u t ih =>
    intro grid cand ch g' c' ch2 ev hus hlen hinv h
    rw [hiddenPass] at h
    revert h
    split
    · intro h
      injection h with h1
      exact absurd h1 (by simp)
    · rename_i g2 c2 ch3 dEv hD
      intro h
      injection h with h1 h2
      have hpos81 : ∀ d s, s ∈ posGet (buildPos grid cand u) d → s < 81 := by
        intro d s hs
        exact hus u (List.mem_cons_self _ _) s (buildPos_mem grid cand u d s hs)
      have hdigb : ∀ d ∈ DIGITS, 1 ≤ d ∧ d ≤ 9 := by decide
      obtain ⟨a1, a2, a3⟩ := hiddenDigits_main _ hpos81 DIGITS grid cand ch
        g2 c2 ch3 dEv hdigb hlen hinv hD
      have hheadOr : ch3 = true → ch = true ∨ zeros g2 < zeros grid := by
        intro hch3
        by_cases hch : ch = true
        · exact Or.inl hch
        · rw [Bool.not_eq_true] at hch
          rw [hch] at hD
          refine Or.inr (hiddenDigits_strict _ hpos81 DIGITS grid cand
            g2 c2 ch3 dEv ?_ hdigb hlen hinv hD hch3)
          intro d s hs
          exact buildPos_zero grid cand u d s hs
      rcases hres : hiddenPass g2 c2 ch3 t with ⟨res, ev2⟩
      rw [hres] at h1
      have h1b : res = PassRes.done g' c' ch2 := h1
      obtain ⟨m1, m2, m3, m4⟩ := ih g2 c2 ch3 g' c' ch2 ev2
        (fun v hv => hus v (List.mem_cons_of_mem _ hv)) a3 a2
        (by rw [hres, h1b])
      refine ⟨Nat.le_trans m1 a1, m2, m3, ?_⟩
      intro hc2
      rcases m4 hc2 with hch3 | hstr
      · rcases hheadOr hch3 with hch | hstr2
        · exact Or.inl hch
        · exact Or.inr (Nat.lt_of_le_of_lt m1 hstr2)
      · exact Or.inr (Nat.lt_of_lt_of_le hstr a1)

theorem propagateIter_main (grid : Grid) (cand : Cands) (g3 : Grid)
    (c3 : Cands) (ch : Bool) (ev : List Ev)
    (hlen : grid.length = 81) (hinv : CandsInv cand)
    (h : propagateIter grid cand = (.done g3 c3 ch, ev)) :
    zeros g3 ≤ zeros grid ∧ CandsInv c3 ∧ g3.length = 81 ∧
    (ch = true → zeros g3 < zeros grid) := by
  unfold propagateIter at h
  revert h
  split
  · intro h
    injection h with h1
    exact absurd h1 (by simp)
  · rename_i g2 c2 chN nEv hN
    split
    · intro h
      injection h with h1
      exact absurd h1 (by simp)
    · rename_i g4 c4 ch4 hEv hH
      intro h
      injection h with h1 h2
      injection h1 with e1 e2 e3
      subst e1
      subst e2
      obtain ⟨n1, n2, n3, n4⟩ := nakedPass_main (List.range 81) grid cand
        false g2 c2 chN nEv (fun x hx => List.mem_range.mp hx) hlen hinv hN
      obtain ⟨m1, m2, m3, m4⟩ := hiddenPass_main UNITS g2 c2 chN g4 c4 ch4
        hEv UNITS_lt81 n3 n2 hH
      refine ⟨Nat.le_trans m1 n1, m2, m3, ?_⟩
      intro hch
      rw [← e3] at hch
      rcases m4 hch with hchN | hstr
      · rcases n4 hchN with hfalse | hstrN
        · exact absurd hfalse.symm (by simp)
        · exact Nat.lt_of_le_of_lt m1 hstrN
      · exact Nat.lt_of_lt_of_le hstr n1

theorem propagate_main :
    ∀ (fuel : Nat) (grid : Grid) (cand : Cands) (g' : Grid) (c' : Cands)
      (ev : List Ev),
    grid.length = 81 → CandsInv cand →
    propagate fuel grid cand = (.done g' c', ev) →
    zeros g' ≤ zeros grid ∧ CandsInv c' ∧ g'.length = 81 := by
  intro fuel
  induction fuel with
  | zero =>
    intro grid cand g' c' ev _ _ h
    rw [propagate] at h
    injection h with h1
    exact absurd h1 (by simp)
  | succ fuel ih =>
    intro grid cand g' c' ev hlen hinv h
    rw [propagate] at h
    revert h
    split
    · intro h
      injection h with h1
      exact absurd h1 (by simp)
    · rename_i g2 c2 iEv hI
      intro h
      injection h with h1 h2
      obtain ⟨n1, n2, n3, _⟩ := propagateIter_main grid cand g2 c2 true iEv
        hlen hinv hI
      rcases hres : propagate fuel g2 c2 with ⟨res, ev2⟩
      rw [hres] at h1
      have h1b : res = PRes.done g' c' := h1
      obtain ⟨m1, m2, m3⟩ := ih g2 c2 g' c' ev2 n3 n2 (by rw [hres, h1b])
      exact ⟨Nat.le_trans m1 n1, m2, m3⟩
    · rename_i g2 c2 iEv hI
      intro h
      injection h with h1 h2
      have h1b : PRes.done g2 c2 = PRes.done g' c' := h1
      injection h1b with e1 e2
      subst e1
      subst e2
      obtain ⟨n1, n2, n3, _⟩ := propagateIter_main grid cand g2 c2 false iEv
        hlen hinv hI
      exact ⟨n1, n2, n3⟩

theorem propagate_fuel :
    ∀ (fuel : Nat) (grid : Grid) (cand : Cands),
    grid.length = 81 → CandsInv cand → zeros grid < fuel →
    (propagate fuel grid cand).1 ≠ .fuelOut := by
  intro fuel
  induction fuel with
  | zero =>
    intro grid cand _ _ hz
    exact absurd hz (Nat.not_lt_zero _)
  | succ fuel ih =>
    intro grid cand hlen hinv hz
    rw [propagate]
    rcases hI : propagateIter grid cand with ⟨res, ev⟩
    cases res with
    | contra => simp
    | done g2 c2 chb =>
      cases chb with
      | false => simp
      | true =>
        obtain ⟨n1, n2, n3, n4⟩ := propagateIter_main grid cand g2 c2 true ev
          hlen hinv hI
        have hz2 : zeros g2 < fuel := by
          have := n4 rfl
          omega
        have := ih g2 c2 n3 n2 hz2
        rcases hres : propagate fuel g2 c2 with ⟨res2, ev2⟩
        intro hcon
        exact this hcon

instance SetInv_decidable (s : List Nat) : Decidable (SetInv s) := by
  unfold SetInv
  infer_instance

theorem CandsInv_of_forall_mem (cand : Cands) (h : ∀ s ∈ cand, SetInv s) :
    CandsInv cand := by
  intro i
  by_cases hi : i < cand.length
  · refine h _ ?_
    rw [List.getD_eq_getElem?_getD, List.getElem?_eq_getElem hi]
    exact List.getElem_mem hi
  · rw [List.getD_eq_getElem?_getD, List.getElem?_eq_none (Nat.le_of_not_lt hi)]
    exact SetInv_nil

/-- Claim C9: when `propagate` returns success, the final state is a fixed
point of both deduction rules: no unresolved cell keeps exactly one
candidate, and within every unit no digit has exactly one possible
position among the unresolved cells. -/
theorem C9_propagate_fixpoint (fuel : Nat) (grid : Grid) (cand : Cands)
    (g' : Grid) (c' : Cands) (ev : List Ev)
    (hlen : grid.length = 81) (hinv : CandsInv cand)
    (hrun : propagate fuel grid cand = (.done g' c', ev)) :
    (∀ i < 81, g'.getD i 0 = 0 → (c'.getD i []).length ≠ 1) ∧
    (∀ u ∈ UNITS, ∀ d ∈ DIGITS,
      (u.filter (fun i =>
        g'.getD i 0 == 0 && (c'.getD i []).contains d)).length ≠ 1) := by
  obtain ⟨f1, f2⟩ := propagate_fix fuel grid cand g' c' ev hrun
  obtain ⟨_, hinv2, _⟩ := propagate_main fuel grid cand g' c' ev hlen hinv hrun
  have hnd : ∀ i, (c'.getD i []).Nodup := fun i => SetInv_nodup _ (hinv2 i)
  refine ⟨fun i hi => f1 i (List.mem_range.mpr hi), ?_⟩
  intro u hu d hd
  rw [← posGet_buildPos g' c' u d hd hnd]
  exact f2 u hu d hd

/-- Candidate table of the already-solved reference grid: one singleton
per cell. -/
def Wcand : Cands := (List.range 81).map (fun i => [W.getD i 0])

set_option maxRecDepth 100000 in
/-- Witness for C9 at a concrete state: propagation on the solved grid
stops immediately and its result satisfies both fixed-point properties. -/
theorem C9_propagate_fixpoint_witness :
    (W.length = 81 ∧ CandsInv Wcand
      ∧ propagate 1 W Wcand = (.done W Wcand, []))
    ∧ ((∀ i < 81, W.getD i 0 = 0 → (Wcand.getD i []).length ≠ 1) ∧
      (∀ u ∈ UNITS, ∀ d ∈ DIGITS,
        (u.filter (fun i =>
          W.getD i 0 == 0 && (Wcand.getD i []).contains d)).length ≠ 1)) :=
  ⟨⟨by decide, CandsInv_of_forall_mem Wcand (by decide), by decide⟩,
    C9_propagate_fixpoint 1 W Wcand W Wcand [] (by decide)
      (CandsInv_of_forall_mem Wcand (by decide)) (by decide)⟩

/-! ## Idempotence on solved grids (claim C7) -/

theorem elimCell_skip (grid : Grid) (cand : Cands) (val : Nat) :
    ∀ ps : List Nat, (∀ p ∈ ps, grid.getD p 0 ≠ 0) →
    elimCell grid cand val ps = some cand := by
  intro ps
  induction ps with
  | nil => intro _; rfl
  | cons p t ih =>
    intro h
    rw [elimCell, if_pos (h p (List.mem_cons_self _ _))]
    exact ih (fun q hq => h q (List.mem_cons_of_mem _ hq))

theorem elimAll_skip (grid : Grid) (cand : Cands) :
    ∀ l : List Nat,
    (∀ i ∈ l, grid.getD i 0 = 0 ∨ ∀ p ∈ PEERS.getD i [], grid.getD p 0 ≠ 0) →
    elimAll grid cand l = some cand := by
  intro l
  induction l with
  | nil => intro _; rfl
  | cons i t ih =>
    intro h
    rw [elimAll]
    rcases h i (List.mem_cons_self _ _) with hz | hp
    · rw [if_pos hz]
      exact ih (fun j hj => h j (List.mem_cons_of_mem _ hj))
    · by_cases hz : grid.getD i 0 = 0
      · rw [if_pos hz]
        exact ih (fun j hj => h j (List.mem_cons_of_mem _ hj))
      · rw [if_neg hz, elimCell_skip grid cand _ _ hp]
        exact ih (fun j hj => h j (List.mem_cons_of_mem _ hj))

theorem PEERS_lt81 : ∀ i ∈ List.range 81, ∀ p ∈ PEERS.getD i [], p < 81 := by
  decide

theorem buildCandidates_solved (g : Grid) (hs : solved g = true) :
    buildCandidates g = some ((List.range 81).map (fun i =>
      if g.getD i 0 ≠ 0 then [g.getD i 0] else DIGITS)) := by
  obtain ⟨hfill, hok⟩ := (solved_iff g).mp hs
  unfold buildCandidates
  rw [if_neg (by rw [hok]; simp)]
  refine elimAll_skip g _ (List.range 81) ?_
  intro i hi
  refine Or.inr ?_
  intro p hp
  exact hfill p (PEERS_lt81 i hi p hp)

theorem nakedPass_filled (grid : Grid) (cand : Cands) (ch : Bool)
    (hfill : ∀ i < 81, grid.getD i 0 ≠ 0) :
    ∀ l : List Nat, (∀ i ∈ l, i < 81) →
    nakedPass grid cand ch l = (.done grid cand ch, []) := by
  intro l
  induction l with
  | nil => intro _; rfl
  | cons i t ih =>
    intro h
    rw [nakedPass, if_pos (hfill i (h i (List.mem_cons_self _ _)))]
    exact ih (fun j hj => h j (List.mem_cons_of_mem _ hj))

theorem hiddenDigits_nofire (grid : Grid) (cand : Cands) (ch : Bool)
    (pos : List (Nat × List Nat))
    (hno : ∀ d, (posGet pos d).length ≠ 1) :
    ∀ ds : List Nat,
    hiddenDigits grid cand ch pos ds = (.done grid cand ch, []) := by
  intro ds
  induction ds with
  | nil => rfl
  | cons d t ih =>
    rw [hiddenDigits]
    revert ih
    split
    · rename_i s0 hpos
      intro _
      exact absurd (by rw [hpos]; rfl) (hno d)
    · intro ih
      exact ih

theorem hiddenPass_filled (grid : Grid) (cand : Cands) (ch : Bool)
    (hfill : ∀ i < 81, grid.getD i 0 ≠ 0) :
    ∀ us : List (List Nat), (∀ u ∈ us, ∀ i ∈ u, i < 81) →
    hiddenPass grid cand ch us = (.done grid cand ch, []) := by
  intro us
  induction us with
  | nil => intro _; rfl
  | cons u t ih =>
    intro hlt
    rw [hiddenPass]
    have hno : ∀ d, (posGet (buildPos grid cand u) d).length ≠ 1 := by
      intro d
      have hempty : posGet (buildPos grid cand u) d = [] := by
        rcases hcase : posGet (buildPos grid cand u) d with _ | ⟨s, rest⟩
        · rfl
        · have hs : s ∈ posGet (buildPos grid cand u) d := by
            rw [hcase]
            exact List.mem_cons_self _ _
          have hz := buildPos_zero grid cand u d s hs
          have hsu : s ∈ u := buildPos_mem grid cand u d s hs
          have hs81 : s < 81 := hlt u (List.mem_cons_self _ _) s hsu
          exact absurd hz (hfill s hs81)
      rw [hempty]
      simp
    rw [hiddenDigits_nofire grid cand ch _ hno DIGITS]
    show ((hiddenPass grid cand ch t).1, [] ++ (hiddenPass grid cand ch t).2)
      = (.done grid cand ch, [])
    rw [ih (fun v hv => hlt v (List.mem_cons_of_mem _ hv))]
    rfl

theorem zeros_solved (g : Grid) (hfill : ∀ i < 81, g.getD i 0 ≠ 0) :
    zeros g = 0 := by
  unfold zeros
  rw [List.countP_eq_zero]
  intro a ha
  simp only [beq_iff_eq]
  exact hfill a (List.mem_range.mp ha)

theorem propagateIter_filled (g : Grid) (cm : Cands)
    (hfill : ∀ i < 81, g.getD i 0 ≠ 0) :
    propagateIter g cm = (.done g cm false, []) := by
  simp only [propagateIter,
    nakedPass_filled g cm false hfill (List.range 81)
      (fun i hi => List.mem_range.mp hi),
    hiddenPass_filled g cm false hfill UNITS UNITS_lt81]
  rfl

theorem propagate_filled (g : Grid) (cm : Cands) (fuel : Nat)
    (hfill : ∀ i < 81, g.getD i 0 ≠ 0) :
    propagate (fuel + 1) g cm = (.done g cm, []) := by
  rw [propagate]
  simp only [propagateIter_filled g cm hfill]

theorem coreSolve_solved (g : Grid) (hs : solved g = true) :
    coreSolve g = (.ok g, []) := by
  obtain ⟨hfill, hok⟩ := (solved_iff g).mp hs
  have hz : zeros g = 0 := zeros_solved g hfill
  simp only [coreSolve]
  rw [if_neg (by rw [hok]; simp)]
  simp only [buildCandidates_solved g hs, hz,
    propagate_filled g _ 0 hfill, hs]
  rfl

/-- Number of `guess` events in a trace. -/
def countGuess (evs : List Ev) : Nat :=
  evs.countP (fun e => match e with | .guess _ _ => true | _ => false)

/-- Number of `backtrack` events in a trace. -/
def countBacktrack (evs : List Ev) : Nat :=
  evs.countP (fun e => match e with | .backtrack _ _ => true | _ => false)

/-- Claim C7: if `solve(g)` succeeds with `g2`, then `solve(g2)` succeeds
and returns `g2` unchanged, and `solveWithSteps(g2, sink)` delivers zero
`guess` and zero `backtrack` events to the sink. -/
theorem C7_idempotent (g g2 : Grid) (h : solve g = .ok g2) :
    solve g2 = .ok g2
    ∧ countGuess (solveWithSteps g2).2 = 0
    ∧ countBacktrack (solveWithSteps g2).2 = 0 := by
  have hs : solved g2 = true := coreSolve_ok_solved g g2 h
  have hrun := coreSolve_solved g2 hs
  refine ⟨?_, ?_, ?_⟩
  · show (coreSolve g2).1 = SolveResult.ok g2
    rw [hrun]
  · show countGuess (coreSolve g2).2 = 0
    rw [hrun]
    rfl
  · show countBacktrack (coreSolve g2).2 = 0
    rw [hrun]
    rfl

set_option maxRecDepth 100000 in
/-- Witness for C7 at a concrete input. -/
theorem C7_idempotent_witness :
    solve W = .ok W ∧
    (solve W = .ok W
      ∧ countGuess (solveWithSteps W).2 = 0
      ∧ countBacktrack (solveWithSteps W).2 = 0) :=
  ⟨by decide, C7_idempotent W W (by decide)⟩

/-! ## Error classification (claim C5) -/

theorem getD_map_range {α : Type} (f : Nat → α) (n j : Nat) (d : α) :
    ((List.range n).map f).getD j d = if j < n then f j else d := by
  rw [List.getD_eq_getElem?_getD, List.getElem?_map]
  by_cases h : j < n
  · rw [List.getElem?_range h, if_pos h]
    rfl
  · rw [List.getElem?_eq_none (by simpa using Nat.le_of_not_lt h), if_neg h]
    rfl

set_option maxRecDepth 40000 in
theorem PEERS_symm : ∀ i ∈ List.range 81, ∀ p ∈ PEERS.getD i [],
    i ∈ PEERS.getD p [] := by decide

/-- Legal digits of a cell before any propagation, as the specification
describes them: the digits `1..9` not held by any peer. -/
def legalCands (g : Grid) (i : Nat) : List Nat :=
  DIGITS.filter (fun d => !(PEERS.getD i []).any (fun q => g.getD q 0 == d))

theorem mem_legalCands (g : Grid) (i d : Nat) :
    d ∈ legalCands g i ↔
      d ∈ DIGITS ∧ ∀ q ∈ PEERS.getD i [], g.getD q 0 ≠ d := by
  unfold legalCands
  rw [List.mem_filter]
  constructor
  · rintro ⟨h1, h2⟩
    refine ⟨h1, ?_⟩
    intro q hq hval
    rw [Bool.not_eq_true', List.any_eq_false] at h2
    have := h2 q hq
    rw [hval] at this
    simp at this
  · rintro ⟨h1, h2⟩
    refine ⟨h1, ?_⟩
    rw [Bool.not_eq_true', List.any_eq_false]
    intro q hq
    exact Bool.not_eq_true _ ▸ beq_eq_false_iff_ne.mpr (h2 q hq)

/-- Invariant carried through the candidate elimination of
`buildCandidates`: the table has 81 rows, each unresolved row still
contains every legal digit and is non-empty, and rows have no
duplicates. -/
def ElimInv (g : Grid) (cand : Cands) : Prop :=
  cand.length = 81
  ∧ (∀ j, j < 81 → g.getD j 0 = 0 →
      legalCands g j ⊆ cand.getD j [] ∧ cand.getD j [] ≠ [])
  ∧ ∀ j, (cand.getD j []).Nodup

theorem elimCell_some (g : Grid) (val : Nat) :
    ∀ (ps : List Nat) (cand : Cands) (c' : Cands),
    (∀ p ∈ ps, p < 81) →
    (∀ p ∈ ps, g.getD p 0 = 0 → val ∉ legalCands g p) →
    ElimInv g cand →
    elimCell g cand val ps = some c' →
    ElimInv g c' ∧ (∀ j, c'.getD j [] ⊆ cand.getD j [])
    ∧ (∀ p ∈ ps, g.getD p 0 = 0 → val ∉ c'.getD p []) := by
  intro ps
  induction ps with
  | nil =>
    intro cand c' _ _ hinv h
    rw [elimCell] at h
    injection h with he
    subst he
    exact ⟨hinv, fun j x hx => hx, fun p hp => absurd hp (List.not_mem_nil p)⟩
  | cons p t ih =>
    intro cand c' hps hnl hinv h
    rw [elimCell] at h
    revert h
    split
    · rename_i hfill
      intro h
      obtain ⟨k1, k2, k3⟩ := ih cand c'
        (fun q hq => hps q (List.mem_cons_of_mem _ hq))
        (fun q hq => hnl q (List.mem_cons_of_mem _ hq)) hinv h
      refine ⟨k1, k2, ?_⟩
      intro q hq hqz
      rcases List.mem_cons.mp hq with hqp | hqt
      · rw [hqp] at hqz
        exact absurd hqz hfill
      · exact k3 q hqt hqz
    · rename_i hfill
      split
      · intro h
        exact Option.noConfusion h
      · rename_i hlen0
        intro h
        have hp81 : p < 81 := hps p (List.mem_cons_self _ _)
        have hpz : g.getD p 0 = 0 := not_not.mp hfill
        have hplen : p < cand.length := by
          rw [hinv.1]
          exact hp81
        have hvnl : val ∉ legalCands g p :=
          hnl p (List.mem_cons_self _ _) hpz
        have hsub : legalCands g p ⊆ (cand.getD p []).erase val := by
          intro x hx
          have hxc : x ∈ cand.getD p [] :=
            (hinv.2.1 p hp81 hpz).1 hx
          have hxv : x ≠ val := fun he => hvnl (he ▸ hx)
          exact (List.mem_erase_of_ne hxv).mpr hxc
        have hinv2 : ElimInv g (cand.set p ((cand.getD p []).erase val)) := by
          refine ⟨by rw [List.length_set, hinv.1], ?_, ?_⟩
          · intro j hj hjz
            rw [getD_set_ite]
            split
            · rename_i hcase
              rw [← hcase.1]
              refine ⟨hsub, ?_⟩
              intro hnil
              rw [hnil] at hlen0
              exact hlen0 rfl
            · exact hinv.2.1 j hj hjz
          · intro j
            rw [getD_set_ite]
            split
            · exact List.Nodup.sublist (List.erase_sublist _ _) (hinv.2.2 p)
            · exact hinv.2.2 j
        obtain ⟨k1, k2, k3⟩ := ih _ c'
          (fun q hq => hps q (List.mem_cons_of_mem _ hq))
          (fun q hq => hnl q (List.mem_cons_of_mem _ hq)) hinv2 h
        refine ⟨k1, ?_, ?_⟩
        · intro j x hx
          have := k2 j hx
          rw [getD_set_ite] at this
          revert this
          split
          · rename_i hcase
            intro hmem
            rw [← hcase.1]
            exact (List.erase_sublist _ _).subset hmem
          · exact fun hmem => hmem
        · intro q hq hqz
          rcases List.mem_cons.mp hq with hqp | hqt
          · intro hmem
            have := k2 q hmem
            rw [getD_set_ite] at this
            revert this
            rw [hqp]
            split
            · rename_i hcase
              intro hmem2
              exact absurd ((List.Nodup.mem_erase_iff (hinv.2.2 p)).mp hmem2).1
                (by rw [hqp] at hmem; exact fun hne => hne rfl)
            · rename_i hcase
              intro _
              exact absurd ⟨rfl, hplen⟩ hcase
          · exact k3 q hqt hqz

theorem elimCell_none (g : Grid) (val : Nat) :
    ∀ (ps : List Nat) (cand : Cands),
    (∀ p ∈ ps, p < 81) →
    (∀ p ∈ ps, g.getD p 0 = 0 → val ∉ legalCands g p) →
    ElimInv g cand →
    elimCell g cand val ps = none →
    ∃ p, p < 81 ∧ g.getD p 0 = 0 ∧ legalCands g p = [] := by
  intro ps
  induction ps with
  | nil =>
    intro cand _ _ _ h
    rw [elimCell] at h
    exact Option.noConfusion h
  | cons p t ih =>
    intro cand hps hnl hinv h
    rw [elimCell] at h
    revert h
    split
    · intro h
      exact ih cand (fun q hq => hps q (List.mem_cons_of_mem _ hq))
        (fun q hq => hnl q (List.mem_cons_of_mem _ hq)) hinv h
    · rename_i hfill
      split
      · rename_i hlen0
        intro _
        have hp81 : p < 81 := hps p (List.mem_cons_self _ _)
        have hpz : g.getD p 0 = 0 := not_not.mp hfill
        have hvnl : val ∉ legalCands g p :=
          hnl p (List.mem_cons_self _ _) hpz
        refine ⟨p, hp81, hpz, ?_⟩
        have hsub : legalCands g p ⊆ (cand.getD p []).erase val := by
          intro x hx
          have hxc : x ∈ cand.getD p [] :=
            (hinv.2.1 p hp81 hpz).1 hx
          have hxv : x ≠ val := fun he => hvnl (he ▸ hx)
          exact (List.mem_erase_of_ne hxv).mpr hxc
        have hnil : (cand.getD p []).erase val = [] :=
          List.length_eq_zero.mp hlen0
        rw [hnil] at hsub
        exact List.eq_nil_iff_forall_not_mem.mpr
          (fun x hx => absurd (hsub hx) (List.not_mem_nil x))
      · rename_i hlen0
        intro h
        have hp81 : p < 81 := hps p (List.mem_cons_self _ _)
        have hpz : g.getD p 0 = 0 := not_not.mp hfill
        have hvnl : val ∉ legalCands g p :=
          hnl p (List.mem_cons_self _ _) hpz
        have hsub : legalCands g p ⊆ (cand.getD p []).erase val := by
          intro x hx
          have hxc : x ∈ cand.getD p [] :=
            (hinv.2.1 p hp81 hpz).1 hx
          have hxv : x ≠ val := fun he => hvnl (he ▸ hx)
          exact (List.mem_erase_of_ne hxv).mpr hxc
        refine ih _ (fun q hq => hps q (List.mem_cons_of_mem _ hq))
          (fun q hq => hnl q (List.mem_cons_of_mem _ hq)) ?_ h
        refine ⟨by rw [List.length_set, hinv.1], ?_, ?_⟩
        · intro j hj hjz
          rw [getD_set_ite]
          split
          · rename_i hcase
            rw [← hcase.1]
            refine ⟨hsub, ?_⟩
            intro hnil
            rw [hnil] at hlen0
            exact hlen0 rfl
          · exact hinv.2.1 j hj hjz
        · intro j
          rw [getD_set_ite]
          split
          · exact List.Nodup.sublist (List.erase_sublist _ _) (hinv.2.2 p)
          · exact hinv.2.2 j

theorem val_not_legal_of_peer (g : Grid) (i : Nat) (hi : i < 81)
    (hfill : g.getD i 0 ≠ 0) :
    ∀ p ∈ PEERS.getD i [], g.getD p 0 = 0 →
    g.getD i 0 ∉ legalCands g p := by
  intro p hp _ hmem
  obtain ⟨_, hall⟩ := (mem_legalCands g p (g.getD i 0)).mp hmem
  exact hall i (PEERS_symm i (List.mem_range.mpr hi) p hp) rfl

theorem elimAll_none (g : Grid) :
    ∀ (l : List Nat) (cand : Cands),
    (∀ i ∈ l, i < 81) →
    ElimInv g cand →
    elimAll g cand l = none →
    ∃ p, p < 81 ∧ g.getD p 0 = 0 ∧ legalCands g p = [] := by
  intro l
  induction l with
  | nil =>
    intro cand _ _ h
    rw [elimAll] at h
    exact Option.noConfusion h
  | cons i t ih =>
    intro cand hl hinv h
    rw [elimAll] at h
    revert h
    split
    · intro h
      exact ih cand (fun j hj => hl j (List.mem_cons_of_mem _ hj)) hinv h
    · rename_i hfill
      split
      · rename_i hE
        intro _
        have hi81 : i < 81 := hl i (List.mem_cons_self _ _)
        exact elimCell_none g _ (PEERS.getD i []) cand
          (fun p hp => PEERS_lt81 i (List.mem_range.mpr hi81) p hp)
          (val_not_legal_of_peer g i hi81 hfill) hinv hE
      · rename_i c2 hE
        intro h
        have hi81 : i < 81 := hl i (List.mem_cons_self _ _)
        obtain ⟨k1, _, _⟩ := elimCell_some g _ (PEERS.getD i []) cand c2
          (fun p hp => PEERS_lt81 i (List.mem_range.mpr hi81) p hp)
          (val_not_legal_of_peer g i hi81 hfill) hinv hE
        exact ih c2 (fun j hj => hl j (List.mem_cons_of_mem _ hj)) k1 h

theorem elimAll_some (g : Grid) :
    ∀ (l : List Nat) (cand : Cands) (c' : Cands),
    (∀ i ∈ l, i < 81) →
    ElimInv g cand →
    elimAll g cand l = some c' →
    ElimInv g c' ∧ (∀ j, c'.getD j [] ⊆ cand.getD j [])
    ∧ (∀ i ∈ l, g.getD i 0 ≠ 0 → ∀ p ∈ PEERS.getD i [],
        g.getD p 0 = 0 → g.getD i 0 ∉ c'.getD p []) := by
  intro l
  induction l with
  | nil =>
    intro cand c' _ hinv h
    rw [elimAll] at h
    injection h with he
    subst he
    exact ⟨hinv, fun j x hx => hx, fun i hi => absurd hi (List.not_mem_nil i)⟩
  | cons i t ih =>
    intro cand c' hl hinv h
    rw [elimAll] at h
    revert h
    split
    · rename_i hz
      intro h
      obtain ⟨k1, k2, k3⟩ := ih cand c'
        (fun j hj => hl j (List.mem_cons_of_mem _ hj)) hinv h
      refine ⟨k1, k2, ?_⟩
      intro j hj hjfill
      rcases List.mem_cons.mp hj with hji | hjt
      · rw [hji] at hjfill
        exact absurd hz hjfill
      · exact k3 j hjt hjfill
    · rename_i hfill
      split
      · intro h
        exact Option.noConfusion h
      · rename_i c2 hE
        intro h
        have hi81 : i < 81 := hl i (List.mem_cons_self _ _)
        obtain ⟨k1, k2, k3⟩ := elimCell_some g _ (PEERS.getD i []) cand c2
          (fun p hp => PEERS_lt81 i (List.mem_range.mpr hi81) p hp)
          (val_not_legal_of_peer g i hi81 hfill) hinv hE
        obtain ⟨m1, m2, m3⟩ := ih c2 c'
          (fun j hj => hl j (List.mem_cons_of_mem _ hj)) k1 h
        refine ⟨m1, fun j x hx => k2 j (m2 j hx), ?_⟩
        intro j hj hjfill p hp hpz
        rcases List.mem_cons.mp hj with hji | hjt
        · rw [hji]
          rw [hji] at hjfill
          intro hmem
          exact k3 p (hji ▸ hp) hpz (m2 p hmem)
        · exact m3 j hjt hjfill p hp hpz

theorem ElimInv_init (g : Grid) :
    ElimInv g ((List.range 81).map (fun i =>
      if g.getD i 0 ≠ 0 then [g.getD i 0] else DIGITS)) := by
  refine ⟨by rw [List.length_map, List.length_range], ?_, ?_⟩
  · intro j hj hjz
    rw [getD_map_range, if_pos hj, if_neg (not_not_intro hjz)]
    exact ⟨fun x hx => List.Sublist.subset (List.filter_sublist _) hx, by decide⟩
  · intro j
    rw [getD_map_range]
    by_cases hj : j < 81
    · rw [if_pos hj]
      split
      · exact List.nodup_singleton _
      · decide
    · rw [if_neg hj]
      exact List.nodup_nil

theorem buildCandidates_some_upper (g : Grid) (c' : Cands)
    (h : buildCandidates g = some c') :
    ∀ j, j < 81 → g.getD j 0 = 0 →
    c'.getD j [] ⊆ legalCands g j ∧ c'.getD j [] ≠ [] := by
  unfold buildCandidates at h
  revert h
  split
  · intro h
    exact Option.noConfusion h
  · intro h
    obtain ⟨k1, k2, k3⟩ := elimAll_some g (List.range 81) _ c'
      (fun i hi => List.mem_range.mp hi) (ElimInv_init g) h
    intro j hj hjz
    refine ⟨?_, (k1.2.1 j hj hjz).2⟩
    intro d hd
    have hdD : d ∈ DIGITS := by
      have := k2 j hd
      rw [getD_map_range, if_pos hj, if_neg (not_not_intro hjz)] at this
      exact this
    rw [mem_legalCands]
    refine ⟨hdD, ?_⟩
    intro q hq hval
    have hd1 : 1 ≤ d := by
      have : ∀ x ∈ DIGITS, 1 ≤ x := by decide
      exact this d hdD
    have hq81 : q < 81 := PEERS_lt81 j (List.mem_range.mpr hj) q hq
    have hqfill : g.getD q 0 ≠ 0 := by
      rw [hval]
      omega
    have hjq : j ∈ PEERS.getD q [] :=
      PEERS_symm j (List.mem_range.mpr hj) q hq
    have := k3 q (List.mem_range.mpr hq81) hqfill j hjq hjz
    rw [hval] at this
    exact this hd

theorem buildCandidates_none_iff (g : Grid) :
    buildCandidates g = none ↔
      ((validate g).ok = false
        ∨ ∃ i, i < 81 ∧ g.getD i 0 = 0 ∧ legalCands g i = []) := by
  constructor
  · intro h
    unfold buildCandidates at h
    revert h
    split
    · rename_i hok
      intro _
      exact Or.inl hok
    · intro h
      exact Or.inr (elimAll_none g (List.range 81) _
        (fun i hi => List.mem_range.mp hi) (ElimInv_init g) h)
  · intro h
    rcases h with hok | ⟨i, hi, hiz, hleg⟩
    · unfold buildCandidates
      rw [if_pos hok]
    · rcases hB : buildCandidates g with _ | c'
      · rfl
      · obtain ⟨hsub, hne⟩ := buildCandidates_some_upper g c' hB i hi hiz
        rw [hleg] at hsub
        exact absurd (List.eq_nil_iff_forall_not_mem.mpr
          (fun x hx => absurd (hsub hx) (List.not_mem_nil x))) hne

theorem getD_mem {α : Type} (l : List α) (i : Nat) (d : α)
    (h : i < l.length) : l.getD i d ∈ l := by
  rw [List.getD_eq_getElem?_getD, List.getElem?_eq_getElem h]
  exact List.getElem_mem h

theorem elimCell_candsInv (g : Grid) (val : Nat) :
    ∀ (ps : List Nat) (cand : Cands) (c' : Cands),
    CandsInv cand → elimCell g cand val ps = some c' → CandsInv c' := by
  intro ps
  induction ps with
  | nil =>
    intro cand c' h hp
    rw [elimCell] at hp
    injection hp with he
    exact he ▸ h
  | cons p t ih =>
    intro cand c' h hp
    rw [elimCell] at hp
    revert hp
    split
    · exact fun hp => ih cand c' h hp
    · split
      · intro hp
        exact Option.noConfusion hp
      · intro hp
        exact ih _ c' (CandsInv_set _ _ _ h (SetInv_erase _ _ (h p))) hp

theorem elimAll_candsInv (g : Grid) :
    ∀ (l : List Nat) (cand : Cands) (c' : Cands),
    CandsInv cand → elimAll g cand l = some c' → CandsInv c' := by
  intro l
  induction l with
  | nil =>
    intro cand c' h hp
    rw [elimAll] at hp
    injection hp with he
    exact he ▸ h
  | cons i t ih =>
    intro cand c' h hp
    rw [elimAll] at hp
    revert hp
    split
    · exact fun hp => ih cand c' h hp
    · split
      · intro hp
        exact Option.noConfusion hp
      · rename_i c2 hE
        intro hp
        exact ih c2 c' (elimCell_candsInv g _ _ cand c2 h hE) hp

theorem buildCandidates_candsInv (g : Grid) (c' : Cands)
    (hlen : g.length = 81) (hvals : ∀ v ∈ g, v ≤ 9)
    (h : buildCandidates g = some c') : CandsInv c' := by
  unfold buildCandidates at h
  revert h
  split
  · intro h
    exact Option.noConfusion h
  · intro h
    refine elimAll_candsInv g (List.range 81) _ c' ?_ h
    refine CandsInv_of_forall_mem _ ?_
    intro s hs
    rw [List.mem_map] at hs
    obtain ⟨i, hi, hmap⟩ := hs
    rw [← hmap]
    split
    · rename_i hfill
      refine SetInv_singleton _ ?_ ?_
      · omega
      · refine hvals _ (getD_mem g i 0 ?_)
        rw [hlen]
        exact List.mem_range.mp hi
    · exact SetInv_DIGITS

theorem tryVals_fuel (fuel : Nat) (next : Grid → Cands → DRes × List Ev)
    (H : ∀ g c, g.length = 81 → CandsInv c → zeros g < fuel →
      (next g c).1 ≠ .fuelOut) :
    ∀ (vals : List Nat) (grid : Grid) (cand : Cands) (cell : Nat),
    grid.length = 81 → CandsInv cand → zeros grid ≤ fuel →
    grid.getD cell 0 = 0 → cell < 81 →
    (∀ v ∈ vals, 1 ≤ v ∧ v ≤ 9) →
    (tryVals next grid cand cell vals).1 ≠ .fuelOut := by
  intro vals
  induction vals with
  | nil =>
    intro grid cand cell _ _ _ _ _ _
    rw [tryVals]
    simp
  | cons v rest ih =>
    intro grid cand cell hlen hinv hzf hcz hc81 hvb
    have hv := hvb v (List.mem_cons_self _ _)
    have hvrest := fun x hx => hvb x (List.mem_cons_of_mem _ hx)
    rw [tryVals]
    split
    · exact ih grid cand cell hlen hinv hzf hcz hc81 hvrest
    · rename_i g1 c1 aEv hA
      obtain ⟨hgeq, _, _⟩ := assign_some _ _ _ _ _ _ _ _ hA
      have hlen1 : g1.length = 81 := by
        rw [hgeq, List.length_set, hlen]
      have hinv1 : CandsInv c1 :=
        assign_inv grid cand cell v _ g1 c1 aEv hinv hv.1 hv.2 hA
      have hzlt : zeros g1 < zeros grid := by
        rw [hgeq]
        refine zeros_set_lt grid cell v (by omega) hc81 hcz (by omega)
      split
      · rename_i pEv hP
        have := propagate_fuel (zeros g1 + 1) g1 c1 hlen1 hinv1
          (Nat.lt_succ_self _)
        rw [hP] at this
        exact absurd rfl this
      · exact ih grid cand cell hlen hinv hzf hcz hc81 hvrest
      · rename_i g2 c2 pEv hP
        obtain ⟨m1, m2, m3⟩ := propagate_main (zeros g1 + 1) g1 c1 g2 c2 pEv
          hlen1 hinv1 hP
        split
        · simp
        · exact ih grid cand cell hlen hinv hzf hcz hc81 hvrest
        · rename_i dEv hD
          have := H g2 c2 m3 m2 (by omega)
          rw [hD] at this
          exact absurd rfl this

theorem dfs_fuel :
    ∀ (fuel : Nat) (grid : Grid) (cand : Cands),
    grid.length = 81 → CandsInv cand → zeros grid < fuel →
    (dfs fuel grid cand).1 ≠ .fuelOut := by
  intro fuel
  induction fuel with
  | zero =>
    intro grid cand _ _ hz
    exact absurd hz (Nat.not_lt_zero _)
  | succ fuel ih =>
    intro grid cand hlen hinv hz
    rw [dfs]
    split
    · simp
    · split
      · simp
      · rename_i cell hpick
        obtain ⟨hcz, hc81⟩ := pickMRV_unfilled grid cand cell hpick
        intro hcon
        refine tryVals_fuel fuel (dfs fuel) ih (cand.getD cell [])
          grid cand cell hlen hinv (by omega) hcz hc81 ?_ hcon
        intro x hx
        exact (hinv cell).2 x hx

theorem solve_path (g : Grid) (hlen : g.length = 81)
    (hvals : ∀ v ∈ g, v ≤ 9) :
    ((validate g).ok = false
      ∧ (coreSolve g).1 = .err (.conflictsFound (validate g).conflicts))
    ∨ ((validate g).ok = true ∧ buildCandidates g = none
      ∧ (coreSolve g).1 = .err .invalidPuzzle)
    ∨ (∃ c ev, (validate g).ok = true ∧ buildCandidates g = some c
      ∧ propagate (zeros g + 1) g c = (.contra, ev)
      ∧ (coreSolve g).1 = .err .unsolvablePuzzle)
    ∨ (∃ c g2 c2 ev, (validate g).ok = true ∧ buildCandidates g = some c
      ∧ propagate (zeros g + 1) g c = (.done g2 c2, ev)
      ∧ solved g2 = true ∧ (coreSolve g).1 = .ok g2)
    ∨ (∃ c g2 c2 ev out dEv, (validate g).ok = true
      ∧ buildCandidates g = some c
      ∧ propagate (zeros g + 1) g c = (.done g2 c2, ev)
      ∧ solved g2 = false ∧ dfs (zeros g2 + 1) g2 c2 = (.found out, dEv)
      ∧ (coreSolve g).1 = .ok out)
    ∨ (∃ c g2 c2 ev dEv, (validate g).ok = true
      ∧ buildCandidates g = some c
      ∧ propagate (zeros g + 1) g c = (.done g2 c2, ev)
      ∧ solved g2 = false ∧ dfs (zeros g2 + 1) g2 c2 = (.exhausted, dEv)
      ∧ (coreSolve g).1 = .err .noSolutionFound) := by
  cases hok : (validate g).ok with
  | false =>
    refine Or.inl ⟨rfl, ?_⟩
    simp only [coreSolve]
    rw [if_pos hok]
  | true =>
    have hokne : ¬ ((validate g).ok = false) := by
      rw [hok]
      simp
    rcases hB : buildCandidates g with _ | c
    · refine Or.inr (Or.inl ⟨rfl, rfl, ?_⟩)
      simp only [coreSolve]
      rw [if_neg hokne]
      simp only [hB]
    · have hinvc : CandsInv c := buildCandidates_candsInv g c hlen hvals hB
      rcases hP : propagate (zeros g + 1) g c with ⟨pres, ev⟩
      cases pres with
      | fuelOut =>
        have := propagate_fuel (zeros g + 1) g c hlen hinvc
          (Nat.lt_succ_self _)
        rw [hP] at this
        exact absurd rfl this
      | contra =>
        refine Or.inr (Or.inr (Or.inl ⟨c, ev, rfl, rfl, hP, ?_⟩))
        simp only [coreSolve]
        rw [if_neg hokne]
        simp only [hB, hP]
      | done g2 c2 =>
        obtain ⟨hz2, hinv2, hlen2⟩ := propagate_main (zeros g + 1) g c
          g2 c2 ev hlen hinvc hP
        by_cases hs : solved g2 = true
        · refine Or.inr (Or.inr (Or.inr (Or.inl
            ⟨c, g2, c2, ev, rfl, rfl, hP, hs, ?_⟩)))
          simp only [coreSolve]
          rw [if_neg hokne]
          simp only [hB, hP]
          rw [if_pos hs]
        · rw [Bool.not_eq_true] at hs
          rcases hD : dfs (zeros g2 + 1) g2 c2 with ⟨dres, dEv⟩
          cases dres with
          | fuelOut =>
            have := dfs_fuel (zeros g2 + 1) g2 c2 hlen2 hinv2
              (Nat.lt_succ_self _)
            rw [hD] at this
            exact absurd rfl this
          | found out =>
            refine Or.inr (Or.inr (Or.inr (Or.inr (Or.inl
              ⟨c, g2, c2, ev, out, dEv, rfl, rfl, hP, hs, hD, ?_⟩))))
            simp only [coreSolve]
            rw [if_neg hokne]
            simp only [hB, hP]
            rw [if_neg (by rw [hs]; simp)]
            simp only [hD]
          | exhausted =>
            refine Or.inr (Or.inr (Or.inr (Or.inr (Or.inr
              ⟨c, g2, c2, ev, dEv, rfl, rfl, hP, hs, hD, ?_⟩))))
            simp only [coreSolve]
            rw [if_neg hokne]
            simp only [hB, hP]
            rw [if_neg (by rw [hs]; simp)]
            simp only [hD]

theorem validate_false_iff_dup (g : Grid) :
    (validate g).ok = false ↔ ∃ u ∈ UNITS, dupInUnit g u := by
  rw [← Bool.not_eq_true, validate_ok_iff]
  push_neg
  rfl

theorem buildCandidates_conflict (g : Grid)
    (hok : (validate g).ok = false) : buildCandidates g = none := by
  unfold buildCandidates
  rw [if_pos hok]

theorem coreSolve_conflict (g : Grid) (hok : (validate g).ok = false) :
    coreSolve g = (.err (.conflictsFound (validate g).conflicts), []) := by
  simp only [coreSolve]
  rw [if_pos hok]

theorem coreSolve_invalid (g : Grid) (hok : (validate g).ok = true)
    (hB : buildCandidates g = none) :
    coreSolve g = (.err .invalidPuzzle, []) := by
  simp only [coreSolve]
  rw [if_neg (by rw [hok]; simp)]
  simp only [hB]

/-- Claim C5: `solve` always returns a structured value (never a thrown
fault: the embedding is a total function into `SolveResult`), and its four
error outcomes occur exactly under their stated conditions: `ConflictsFound`
(carrying `validate(g).conflicts`, with an empty event trace, so before any
propagation or search) iff some unit of `g` holds a duplicate non-zero
digit; `InvalidPuzzle` (also with an empty trace, so no search attempted)
iff `g` is conflict-free but some empty cell has zero legal candidates
before propagation; `UnsolvablePuzzle` iff the initial propagation (before
any guessing) derives a contradiction; `NoSolutionFound` iff the exhaustive
search runs and finds no completion. -/
theorem C5_error_kinds (g : Grid) (hlen : g.length = 81)
    (hvals : ∀ v ∈ g, v ≤ 9) :
    ((∃ g2, solve g = .ok g2) ∨ (∃ e, solve g = .err e))
    ∧ ((∃ cs, solve g = .err (.conflictsFound cs)) ↔
        ∃ u ∈ UNITS, dupInUnit g u)
    ∧ (∀ cs, solve g = .err (.conflictsFound cs) →
        cs = (validate g).conflicts ∧ (solveWithSteps g).2 = [])
    ∧ (solve g = .err .invalidPuzzle ↔
        ((∀ u ∈ UNITS, ¬ dupInUnit g u)
          ∧ ∃ i, i < 81 ∧ g.getD i 0 = 0 ∧ legalCands g i = []))
    ∧ (solve g = .err .invalidPuzzle → (solveWithSteps g).2 = [])
    ∧ (solve g = .err .unsolvablePuzzle ↔
        ((validate g).ok = true ∧ ∃ c ev, buildCandidates g = some c
          ∧ propagate (zeros g + 1) g c = (.contra, ev)))
    ∧ (solve g = .err .noSolutionFound ↔
        (∃ c g2 c2 ev dEv, buildCandidates g = some c
          ∧ propagate (zeros g + 1) g c = (.done g2 c2, ev)
          ∧ solved g2 = false
          ∧ dfs (zeros g2 + 1) g2 c2 = (.exhausted, dEv))) := by
  rcases solve_path g hlen hvals with
      ⟨hok, h1⟩
    | ⟨hok, hB, h1⟩
    | ⟨c, ev, hok, hB, hP, h1⟩
    | ⟨c, g2, c2, ev, hok, hB, hP, hs, h1⟩
    | ⟨c, g2, c2, ev, out, dEv, hok, hB, hP, hs, hD, h1⟩
    | ⟨c, g2, c2, ev, dEv, hok, hB, hP, hs, hD, h1⟩
  · -- validate failed: ConflictsFound
    refine ⟨Or.inr ⟨_, h1⟩, ?_, ?_, ?_, ?_, ?_, ?_⟩
    · exact iff_of_true ⟨_, h1⟩ ((validate_false_iff_dup g).mp hok)
    · intro cs h2
      simp only [solve] at h2
      rw [h1] at h2
      have hcs : cs = (validate g).conflicts := by
        cases h2
        rfl
      refine ⟨hcs, ?_⟩
      show (coreSolve g).2 = []
      rw [coreSolve_conflict g hok]
    · refine iff_of_false ?_ ?_
      · intro h2
        simp only [solve] at h2
        rw [h1] at h2
        simp at h2
      · rintro ⟨hnd, -⟩
        rw [(validate_ok_iff g).mpr hnd] at hok
        simp at hok
    · intro h2
      simp only [solve] at h2
      rw [h1] at h2
      simp at h2
    · refine iff_of_false ?_ ?_
      · intro h2
        simp only [solve] at h2
        rw [h1] at h2
        simp at h2
      · rintro ⟨hok', -⟩
        rw [hok'] at hok
        simp at hok
    · refine iff_of_false ?_ ?_
      · intro h2
        simp only [solve] at h2
        rw [h1] at h2
        simp at h2
      · rintro ⟨c, g2, c2, ev, dEv, hB, -⟩
        rw [buildCandidates_conflict g hok] at hB
        exact Option.noConfusion hB
  · -- buildCandidates none: InvalidPuzzle
    refine ⟨Or.inr ⟨_, h1⟩, ?_, ?_, ?_, ?_, ?_, ?_⟩
    · refine iff_of_false ?_ ?_
      · rintro ⟨cs, h2⟩
        simp only [solve] at h2
        rw [h1] at h2
        simp at h2
      · intro hdup
        rw [(validate_false_iff_dup g).mpr hdup] at hok
        simp at hok
    · intro cs h2
      simp only [solve] at h2
      rw [h1] at h2
      simp at h2
    · refine iff_of_true h1 ⟨(validate_ok_iff g).mp hok, ?_⟩
      rcases (buildCandidates_none_iff g).mp hB with hok' | hi
      · rw [hok'] at hok
        simp at hok
      · exact hi
    · intro _
      show (coreSolve g).2 = []
      rw [coreSolve_invalid g hok hB]
    · refine iff_of_false ?_ ?_
      · intro h2
        simp only [solve] at h2
        rw [h1] at h2
        simp at h2
      · rintro ⟨-, c, ev, hB', -⟩
        rw [hB] at hB'
        exact Option.noConfusion hB'
    · refine iff_of_false ?_ ?_
      · intro h2
        simp only [solve] at h2
        rw [h1] at h2
        simp at h2
      · rintro ⟨c, g2, c2, ev, dEv, hB', -⟩
        rw [hB] at hB'
        exact Option.noConfusion hB'
  · -- initial propagation contradicts: UnsolvablePuzzle
    refine ⟨Or.inr ⟨_, h1⟩, ?_, ?_, ?_, ?_, ?_, ?_⟩
    · refine iff_of_false ?_ ?_
      · rintro ⟨cs, h2⟩
        simp only [solve] at h2
        rw [h1] at h2
        simp at h2
      · intro hdup
        rw [(validate_false_iff_dup g).mpr hdup] at hok
        simp at hok
    · intro cs h2
      simp only [solve] at h2
      rw [h1] at h2
      simp at h2
    · refine iff_of_false ?_ ?_
      · intro h2
        simp only [solve] at h2
        rw [h1] at h2
        simp at h2
      · rintro ⟨-, i, hi, hiz, hleg⟩
        rw [(buildCandidates_none_iff g).mpr
          (Or.inr ⟨i, hi, hiz, hleg⟩)] at hB
        exact Option.noConfusion hB
    · intro h2
      simp only [solve] at h2
      rw [h1] at h2
      simp at h2
    · exact iff_of_true h1 ⟨hok, c, ev, hB, hP⟩
    · refine iff_of_false ?_ ?_
      · intro h2
        simp only [solve] at h2
        rw [h1] at h2
        simp at h2
      · rintro ⟨c', g2, c2, ev', dEv, hB', hP', -⟩
        rw [hB] at hB'
        injection hB' with hc
        rw [← hc] at hP'
        rw [hP] at hP'
        simp at hP'
  · -- solved right after propagation: success, no error
    refine ⟨Or.inl ⟨_, h1⟩, ?_, ?_, ?_, ?_, ?_, ?_⟩
    · refine iff_of_false ?_ ?_
      · rintro ⟨cs, h2⟩
        simp only [solve] at h2
        rw [h1] at h2
        simp at h2
      · intro hdup
        rw [(validate_false_iff_dup g).mpr hdup] at hok
        simp at hok
    · intro cs h2
      simp only [solve] at h2
      rw [h1] at h2
      simp at h2
    · refine iff_of_false ?_ ?_
      · intro h2
        simp only [solve] at h2
        rw [h1] at h2
        simp at h2
      · rintro ⟨-, i, hi, hiz, hleg⟩
        rw [(buildCandidates_none_iff g).mpr
          (Or.inr ⟨i, hi, hiz, hleg⟩)] at hB
        exact Option.noConfusion hB
    · intro h2
      simp only [solve] at h2
      rw [h1] at h2
      simp at h2
    · refine iff_of_false ?_ ?_
      · intro h2
        simp only [solve] at h2
        rw [h1] at h2
        simp at h2
      · rintro ⟨-, c', ev', hB', hP'⟩
        rw [hB] at hB'
        injection hB' with hc
        rw [← hc] at hP'
        rw [hP] at hP'
        simp at hP'
    · refine iff_of_false ?_ ?_
      · intro h2
        simp only [solve] at h2
        rw [h1] at h2
        simp at h2
      · rintro ⟨c', g2', c2', ev', dEv, hB', hP', hs', -⟩
        rw [hB] at hB'
        injection hB' with hc
        rw [← hc] at hP'
        rw [hP] at hP'
        rw [Prod.mk.injEq] at hP'
        obtain ⟨hd, -⟩ := hP'
        injection hd with hg2 hc2
        rw [← hg2] at hs'
        rw [hs] at hs'
        simp at hs'
  · -- search found a completion: success, no error
    refine ⟨Or.inl ⟨_, h1⟩, ?_, ?_, ?_, ?_, ?_, ?_⟩
    · refine iff_of_false ?_ ?_
      · rintro ⟨cs, h2⟩
        simp only [solve] at h2
        rw [h1] at h2
        simp at h2
      · intro hdup
        rw [(validate_false_iff_dup g).mpr hdup] at hok
        simp at hok
    · intro cs h2
      simp only [solve] at h2
      rw [h1] at h2
      simp at h2
    · refine iff_of_false ?_ ?_
      · intro h2
        simp only [solve] at h2
        rw [h1] at h2
        simp at h2
      · rintro ⟨-, i, hi, hiz, hleg⟩
        rw [(buildCandidates_none_iff g).mpr
          (Or.inr ⟨i, hi, hiz, hleg⟩)] at hB
        exact Option.noConfusion hB
    · intro h2
      simp only [solve] at h2
      rw [h1] at h2
      simp at h2
    · refine iff_of_false ?_ ?_
      · intro h2
        simp only [solve] at h2
        rw [h1] at h2
        simp at h2
      · rintro ⟨-, c', ev', hB', hP'⟩
        rw [hB] at hB'
        injection hB' with hc
        rw [← hc] at hP'
        rw [hP] at hP'
        simp at hP'
    · refine iff_of_false ?_ ?_
      · intro h2
        simp only [solve] at h2
        rw [h1] at h2
        simp at h2
      · rintro ⟨c', g2', c2', ev', dEv', hB', hP', hs', hD'⟩
        rw [hB] at hB'
        injection hB' with hc
        rw [← hc] at hP'
        rw [hP] at hP'
        rw [Prod.mk.injEq] at hP'
        obtain ⟨hd, -⟩ := hP'
        injection hd with hg2 hc2
        rw [← hg2, ← hc2] at hD'
        rw [hD] at hD'
        simp at hD'
  · -- search exhausted: NoSolutionFound
    refine ⟨Or.inr ⟨_, h1⟩, ?_, ?_, ?_, ?_, ?_, ?_⟩
    · refine iff_of_false ?_ ?_
      · rintro ⟨cs, h2⟩
        simp only [solve] at h2
        rw [h1] at h2
        simp at h2
      · intro hdup
        rw [(validate_false_iff_dup g).mpr hdup] at hok
        simp at hok
    · intro cs h2
      simp only [solve] at h2
      rw [h1] at h2
      simp at h2
    · refine iff_of_false ?_ ?_
      · intro h2
        simp only [solve] at h2
        rw [h1] at h2
        simp at h2
      · rintro ⟨-, i, hi, hiz, hleg⟩
        rw [(buildCandidates_none_iff g).mpr
          (Or.inr ⟨i, hi, hiz, hleg⟩)] at hB
        exact Option.noConfusion hB
    · intro h2
      simp only [solve] at h2
      rw [h1] at h2
      simp at h2
    · refine iff_of_false ?_ ?_
      · intro h2
        simp only [solve] at h2
        rw [h1] at h2
        simp at h2
      · rintro ⟨-, c', ev', hB', hP'⟩
        rw [hB] at hB'
        injection hB' with hc
        rw [← hc] at hP'
        rw [hP] at hP'
        simp at hP'
    · exact iff_of_true h1 ⟨c, g2, c2, ev, dEv, hB, hP, hs, hD⟩

/-- Witness for C5: the complete valid grid `W` satisfies the hypotheses,
and `solve W` is a structured value. -/
theorem C5_error_kinds_witness :
    (∃ g2, solve W = .ok g2) ∨ (∃ e, solve W = .err e) :=
  (C5_error_kinds W (by decide) (by decide)).1

/-! ## Claim C6 infrastructure: the guess events of a trace, the MRV
selection property of `pickMRV`, and the order of tried values. -/

/-- The values of the `guess` events for a given cell, in trace order. -/
def guessesFor (cell : Nat) : List Ev → List Nat
  | [] => []
  | Ev.guess i v :: rest =>
    if i = cell then v :: guessesFor cell rest else guessesFor cell rest
  | Ev.assignStep _ _ _ :: rest => guessesFor cell rest
  | Ev.focus _ :: rest => guessesFor cell rest
  | Ev.backtrack _ _ :: rest => guessesFor cell rest
  | Ev.unassign _ :: rest => guessesFor cell rest

theorem guessesFor_append (cell : Nat) :
    ∀ (a b : List Ev),
    guessesFor cell (a ++ b) = guessesFor cell a ++ guessesFor cell b := by
  intro a
  induction a with
  | nil =>
    intro b
    rfl
  | cons e t ih =>
    intro b
    cases e with
    | guess i v =>
      by_cases hi : i = cell
      · rw [List.cons_append, guessesFor, if_pos hi, guessesFor, if_pos hi,
          ih b, List.cons_append]
      · rw [List.cons_append, guessesFor, if_neg hi, guessesFor, if_neg hi,
          ih b]
    | assignStep i v r =>
      rw [List.cons_append, guessesFor, guessesFor, ih b]
    | focus i =>
      rw [List.cons_append, guessesFor, guessesFor, ih b]
    | backtrack i v =>
      rw [List.cons_append, guessesFor, guessesFor, ih b]
    | unassign i =>
      rw [List.cons_append, guessesFor, guessesFor, ih b]

/-- Recognizer for `assign` events, the only kind propagation emits. -/
def isAssignEv : Ev → Bool
  | .assignStep _ _ _ => true
  | _ => false

theorem guessesFor_nil_of_assign (cell : Nat) :
    ∀ (evs : List Ev), (∀ e ∈ evs, isAssignEv e = true) →
    guessesFor cell evs = [] := by
  intro evs
  induction evs with
  | nil =>
    intro _
    rfl
  | cons e t ih =>
    intro h
    have he := h e (List.mem_cons_self _ _)
    have ht := fun x hx => h x (List.mem_cons_of_mem _ hx)
    cases e with
    | guess i v => exact Bool.noConfusion he
    | assignStep i v r => rw [guessesFor]; exact ih ht
    | focus i => exact Bool.noConfusion he
    | backtrack i v => exact Bool.noConfusion he
    | unassign i => exact Bool.noConfusion he

theorem assign_ev (grid : Grid) (cand : Cands) (i val : Nat) (r : String)
    (o : Option (Grid × Cands)) (ev : List Ev)
    (h : assign grid cand i val r = (o, ev)) :
    ev = [Ev.assignStep i val r] := by
  unfold assign at h
  revert h
  split
  · intro h
    injection h with _ h2
    exact h2.symm
  · intro h
    injection h with _ h2
    exact h2.symm

theorem nakedPass_ev :
    ∀ (l : List Nat) (grid : Grid) (cand : Cands) (ch : Bool)
      (res : PassRes) (ev : List Ev),
    nakedPass grid cand ch l = (res, ev) →
    ∀ e ∈ ev, isAssignEv e = true := by
  intro l
  induction l with
  | nil =>
    intro grid cand ch res ev h
    rw [nakedPass] at h
    injection h with _ h2
    rw [← h2]
    intro e he
    exact absurd he (List.not_mem_nil e)
  | cons i t ih =>
    intro grid cand ch res ev h
    rw [nakedPass] at h
    revert h
    split
    · intro h
      exact ih grid cand ch res ev h
    · split
      · rename_i val hval
        split
        · rename_i aEv hA
          intro h
          injection h with _ h2
          rw [← h2]
          have := assign_ev _ _ _ _ _ _ _ hA
          rw [this]
          intro e he
          rcases List.mem_singleton.mp he with rfl
          rw [isAssignEv]
        · rename_i g2 c2 aEv hA
          intro h
          injection h with h1 h2
          rcases hres : nakedPass g2 c2 true t with ⟨res2, ev2⟩
          rw [hres] at h2
          rw [← h2]
          intro e he
          rcases List.mem_append.mp he with he1 | he2
          · have := assign_ev _ _ _ _ _ _ _ hA
            rw [this] at he1
            rcases List.mem_singleton.mp he1 with rfl
            rw [isAssignEv]
          · exact ih g2 c2 true res2 ev2 hres e he2
      · intro h
        exact ih grid cand ch res ev h

theorem hiddenDigits_ev (pos : List (Nat × List Nat)) :
    ∀ (ds : List Nat) (grid : Grid) (cand : Cands) (ch : Bool)
      (res : PassRes) (ev : List Ev),
    hiddenDigits grid cand ch pos ds = (res, ev) →
    ∀ e ∈ ev, isAssignEv e = true := by
  intro ds
  induction ds with
  | nil =>
    intro grid cand ch res ev h
    rw [hiddenDigits] at h
    injection h with _ h2
    rw [← h2]
    intro e he
    exact absurd he (List.not_mem_nil e)
  | cons d t ih =>
    intro grid cand ch res ev h
    rw [hiddenDigits] at h
    revert h
    split
    · rename_i s0 hpos
      split
      · rename_i aEv hA
        intro h
        injection h with _ h2
        rw [← h2]
        have := assign_ev _ _ _ _ _ _ _ hA
        rw [this]
        intro e he
        rcases List.mem_singleton.mp he with rfl
        rw [isAssignEv]
      · rename_i g2 c2 aEv hA
        intro h
        injection h with h1 h2
        rcases hres : hiddenDigits g2 c2 true pos t with ⟨res2, ev2⟩
        rw [hres] at h2
        rw [← h2]
        intro e he
        rcases List.mem_append.mp he with he1 | he2
        · have := assign_ev _ _ _ _ _ _ _ hA
          rw [this] at he1
          rcases List.mem_singleton.mp he1 with rfl
          rw [isAssignEv]
        · exact ih g2 c2 true res2 ev2 hres e he2
    · intro h
      exact ih grid cand ch res ev h

theorem hiddenPass_ev :
    ∀ (us : List (List Nat)) (grid : Grid) (cand : Cands) (ch : Bool)
      (res : PassRes) (ev : List Ev),
    hiddenPass grid cand ch us = (res, ev) →
    ∀ e ∈ ev, isAssignEv e = true := by
  intro us
  induction us with
  | nil =>
    intro grid cand ch res ev h
    rw [hiddenPass] at h
    injection h with _ h2
    rw [← h2]
    intro e he
    exact absurd he (List.not_mem_nil e)
  | cons u t ih =>
    intro grid cand ch res ev h
    rw [hiddenPass] at h
    revert h
    split
    · rename_i ev1 hH
      intro h
      injection h with _ h2
      rw [← h2]
      exact hiddenDigits_ev _ _ _ _ _ _ _ hH
    · rename_i g2 c2 ch2 ev1 hH
      intro h
      injection h with h1 h2
      rcases hres : hiddenPass g2 c2 ch2 t with ⟨res2, ev2⟩
      rw [hres] at h2
      rw [← h2]
      intro e he
      rcases List.mem_append.mp he with he1 | he2
      · exact hiddenDigits_ev _ _ _ _ _ _ _ hH e he1
      · exact ih g2 c2 ch2 res2 ev2 hres e he2

theorem propagateIter_ev (grid : Grid) (cand : Cands) (res : PassRes)
    (ev : List Ev) (h : propagateIter grid cand = (res, ev)) :
    ∀ e ∈ ev, isAssignEv e = true := by
  unfold propagateIter at h
  revert h
  split
  · rename_i ev1 hN
    intro h
    injection h with _ h2
    rw [← h2]
    exact nakedPass_ev _ _ _ _ _ _ hN
  · rename_i g2 c2 ch ev1 hN
    split
    · rename_i ev2 hH
      intro h
      injection h with _ h2
      rw [← h2]
      intro e he
      rcases List.mem_append.mp he with he1 | he2
      · exact nakedPass_ev _ _ _ _ _ _ hN e he1
      · exact hiddenPass_ev _ _ _ _ _ _ hH e he2
    · rename_i g3 c3 ch2 ev2 hH
      intro h
      injection h with _ h2
      rw [← h2]
      intro e he
      rcases List.mem_append.mp he with he1 | he2
      · exact nakedPass_ev _ _ _ _ _ _ hN e he1
      · exact hiddenPass_ev _ _ _ _ _ _ hH e he2

theorem propagate_ev :
    ∀ (fuel : Nat) (grid : Grid) (cand : Cands) (res : PRes) (ev : List Ev),
    propagate fuel grid cand = (res, ev) →
    ∀ e ∈ ev, isAssignEv e = true := by
  intro fuel
  induction fuel with
  | zero =>
    intro grid cand res ev h
    rw [propagate] at h
    injection h with _ h2
    rw [← h2]
    intro e he
    exact absurd he (List.not_mem_nil e)
  | succ fuel ih =>
    intro grid cand res ev h
    rw [propagate] at h
    revert h
    split
    · rename_i ev1 hI
      intro h
      injection h with _ h2
      rw [← h2]
      exact propagateIter_ev _ _ _ _ hI
    · rename_i g2 c2 ev1 hI
      intro h
      injection h with h1 h2
      rcases hres : propagate fuel g2 c2 with ⟨res2, ev2⟩
      rw [hres] at h2
      rw [← h2]
      intro e he
      rcases List.mem_append.mp he with he1 | he2
      · exact propagateIter_ev _ _ _ _ hI e he1
      · exact ih g2 c2 res2 ev2 hres e he2
    · rename_i g2 c2 ev1 hI
      intro h
      injection h with _ h2
      rw [← h2]
      exact propagateIter_ev _ _ _ _ hI

theorem propagate_guesses (cell fuel : Nat) (grid : Grid) (cand : Cands)
    (res : PRes) (ev : List Ev) (h : propagate fuel grid cand = (res, ev)) :
    guessesFor cell ev = [] :=
  guessesFor_nil_of_assign cell ev (propagate_ev fuel grid cand res ev h)

theorem pickMRVAux_mrv (grid : Grid) (cand : Cands) :
    ∀ (l : List Nat) (best : Option Nat) (bestSize : Nat),
    List.Sorted (· < ·) l →
    ∀ b, (pickMRVAux grid cand l (best, bestSize)).1 = some b →
      (best = some b
        ∧ (∀ i ∈ l, grid.getD i 0 = 0 → bestSize ≤ (cand.getD i []).length))
      ∨ (b ∈ l ∧ grid.getD b 0 = 0
        ∧ (cand.getD b []).length < bestSize
        ∧ (∀ i ∈ l, grid.getD i 0 = 0 →
            (cand.getD b []).length ≤ (cand.getD i []).length)
        ∧ (∀ i ∈ l, i < b → grid.getD i 0 = 0 →
            (cand.getD b []).length < (cand.getD i []).length)) := by
  intro l
  induction l with
  | nil =>
    intro best bestSize _ b h
    rw [pickMRVAux] at h
    refine Or.inl ⟨h, ?_⟩
    intro i hi
    exact absurd hi (List.not_mem_nil i)
  | cons j t ih =>
    intro best bestSize hsort b h
    have hsort_t : List.Sorted (· < ·) t := hsort.tail
    have hjt : ∀ x ∈ t, j < x := fun x hx => List.rel_of_sorted_cons hsort x hx
    rw [pickMRVAux] at h
    revert h
    split
    · rename_i hjz
      intro h
      rcases ih best bestSize hsort_t b h with ⟨hb, hmin⟩ | ⟨hmem, hbz, hlt, hmin, htie⟩
      · refine Or.inl ⟨hb, ?_⟩
        intro i hi hiz
        rcases List.mem_cons.mp hi with rfl | hi2
        · exact absurd hiz hjz
        · exact hmin i hi2 hiz
      · refine Or.inr ⟨List.mem_cons_of_mem _ hmem, hbz, hlt, ?_, ?_⟩
        · intro i hi hiz
          rcases List.mem_cons.mp hi with rfl | hi2
          · exact absurd hiz hjz
          · exact hmin i hi2 hiz
        · intro i hi hib hiz
          rcases List.mem_cons.mp hi with rfl | hi2
          · exact absurd hiz hjz
          · exact htie i hi2 hib hiz
    · rename_i hjz
      have hjz2 : grid.getD j 0 = 0 := not_not.mp hjz
      split
      · rename_i hsz
        intro h
        rcases ih (some j) (cand.getD j []).length hsort_t b h with
            ⟨hb, hmin⟩ | ⟨hmem, hbz, hlt, hmin, htie⟩
        · injection hb with he
          subst he
          refine Or.inr ⟨List.mem_cons_self _ _, hjz2, hsz, ?_, ?_⟩
          · intro i hi hiz
            rcases List.mem_cons.mp hi with rfl | hi2
            · exact Nat.le_refl _
            · exact hmin i hi2 hiz
          · intro i hi hib hiz
            rcases List.mem_cons.mp hi with rfl | hi2
            · exact absurd hib (Nat.lt_irrefl _)
            · exact absurd hib (Nat.not_lt.mpr (Nat.le_of_lt (hjt i hi2)))
        · refine Or.inr ⟨List.mem_cons_of_mem _ hmem, hbz,
            Nat.lt_trans hlt hsz, ?_, ?_⟩
          · intro i hi hiz
            rcases List.mem_cons.mp hi with rfl | hi2
            · exact Nat.le_of_lt hlt
            · exact hmin i hi2 hiz
          · intro i hi hib hiz
            rcases List.mem_cons.mp hi with rfl | hi2
            · exact hlt
            · exact htie i hi2 hib hiz
      · rename_i hsz
        have hsz2 : bestSize ≤ (cand.getD j []).length := Nat.not_lt.mp hsz
        intro h
        rcases ih best bestSize hsort_t b h with ⟨hb, hmin⟩ | ⟨hmem, hbz, hlt, hmin, htie⟩
        · refine Or.inl ⟨hb, ?_⟩
          intro i hi hiz
          rcases List.mem_cons.mp hi with rfl | hi2
          · exact hsz2
          · exact hmin i hi2 hiz
        · refine Or.inr ⟨List.mem_cons_of_mem _ hmem, hbz, hlt, ?_, ?_⟩
          · intro i hi hiz
            rcases List.mem_cons.mp hi with rfl | hi2
            · exact Nat.le_of_lt (Nat.lt_of_lt_of_le hlt hsz2)
            · exact hmin i hi2 hiz
          · intro i hi hib hiz
            rcases List.mem_cons.mp hi with rfl | hi2
            · exact Nat.lt_of_lt_of_le hlt hsz2
            · exact htie i hi2 hib hiz

theorem pickMRV_spec (grid : Grid) (cand : Cands) (cell : Nat)
    (h : pickMRV grid cand = some cell) :
    cell < 81 ∧ grid.getD cell 0 = 0
    ∧ (∀ i, i < 81 → grid.getD i 0 = 0 →
        (cand.getD cell []).length ≤ (cand.getD i []).length)
    ∧ (∀ i, i < cell → grid.getD i 0 = 0 →
        (cand.getD cell []).length < (cand.getD i []).length) := by
  have hs : List.Sorted (· < ·) (List.range 81) := List.pairwise_lt_range 81
  rcases pickMRVAux_mrv grid cand (List.range 81) none 10 hs cell h with
      ⟨hb, -⟩ | ⟨hmem, hbz, -, hmin, htie⟩
  · exact Option.noConfusion hb
  · have hcell : cell < 81 := List.mem_range.mp hmem
    refine ⟨hcell, hbz, ?_, ?_⟩
    · intro i hi hiz
      exact hmin i (List.mem_range.mpr hi) hiz
    · intro i hi hiz
      exact htie i (List.mem_range.mpr (Nat.lt_trans hi hcell)) hi hiz

theorem tryVals_noGuess (cell : Nat) (next : Grid → Cands → DRes × List Ev)
    (H : ∀ g c res ev, g.getD cell 0 ≠ 0 → next g c = (res, ev) →
      guessesFor cell ev = [])
    (grid : Grid) (cand : Cands) (cell2 : Nat)
    (hne : cell2 ≠ cell) (hg : grid.getD cell 0 ≠ 0) :
    ∀ (vals : List Nat) (res : DRes) (ev : List Ev),
    tryVals next grid cand cell2 vals = (res, ev) →
    guessesFor cell ev = [] := by
  intro vals
  induction vals with
  | nil =>
    intro res ev h
    rw [tryVals] at h
    injection h with _ h2
    rw [← h2]
    rfl
  | cons v rest ih =>
    intro res ev h
    rw [tryVals] at h
    revert h
    split
    · rename_i aEv hA
      intro h
      injection h with h1 h2
      rcases hres : tryVals next grid cand cell2 rest with ⟨res2, ev2⟩
      rw [hres] at h2
      rw [← h2]
      have haEv := assign_ev _ _ _ _ _ _ _ hA
      subst haEv
      have ihres := ih res2 ev2 hres
      simp [guessesFor, guessesFor_append, hne, ihres]
    · rename_i g1 c1 aEv hA
      have haEv := assign_ev _ _ _ _ _ _ _ hA
      subst haEv
      obtain ⟨hgeq, -, -⟩ := assign_some _ _ _ _ _ _ _ _ hA
      have hg1 : g1.getD cell 0 = grid.getD cell 0 := by
        rw [hgeq, getD_set_ne _ _ _ hne]
      split
      · rename_i pEv hP
        intro h
        injection h with _ h2
        rw [← h2]
        have hpg := propagate_guesses cell _ _ _ _ _ hP
        simp [guessesFor, guessesFor_append, hne, hpg]
      · rename_i pEv hP
        intro h
        injection h with h1 h2
        rcases hres : tryVals next grid cand cell2 rest with ⟨res2, ev2⟩
        rw [hres] at h2
        rw [← h2]
        have hpg := propagate_guesses cell _ _ _ _ _ hP
        have ihres := ih res2 ev2 hres
        simp [guessesFor, guessesFor_append, hne, hpg, ihres]
      · rename_i g2 c2 pEv hP
        have hg2 : g2.getD cell 0 = grid.getD cell 0 :=
          propagate_pres cell (grid.getD cell 0) hg _ g1 c1 g2 c2 pEv hg1 hP
        have hg2ne : g2.getD cell 0 ≠ 0 := by
          rw [hg2]
          exact hg
        split
        · rename_i out dEv hD
          intro h
          injection h with _ h2
          rw [← h2]
          have hpg := propagate_guesses cell _ _ _ _ _ hP
          have hdg := H g2 c2 _ dEv hg2ne hD
          simp [guessesFor, guessesFor_append, hne, hpg, hdg]
        · rename_i dEv hD
          intro h
          injection h with h1 h2
          rcases hres : tryVals next grid cand cell2 rest with ⟨res2, ev2⟩
          rw [hres] at h2
          rw [← h2]
          have hpg := propagate_guesses cell _ _ _ _ _ hP
          have hdg := H g2 c2 _ dEv hg2ne hD
          have ihres := ih res2 ev2 hres
          simp [guessesFor, guessesFor_append, hne, hpg, hdg, ihres]
        · rename_i dEv hD
          intro h
          injection h with _ h2
          rw [← h2]
          have hpg := propagate_guesses cell _ _ _ _ _ hP
          have hdg := H g2 c2 _ dEv hg2ne hD
          simp [guessesFor, guessesFor_append, hne, hpg, hdg]

theorem dfs_noGuess (cell : Nat) :
    ∀ (fuel : Nat) (grid : Grid) (cand : Cands) (res : DRes) (ev : List Ev),
    grid.getD cell 0 ≠ 0 →
    dfs fuel grid cand = (res, ev) →
    guessesFor cell ev = [] := by
  intro fuel
  induction fuel with
  | zero =>
    intro grid cand res ev hg h
    rw [dfs] at h
    injection h with _ h2
    rw [← h2]
    rfl
  | succ fuel ih =>
    intro grid cand res ev hg h
    rw [dfs] at h
    revert h
    split
    · intro h
      injection h with _ h2
      rw [← h2]
      rfl
    · split
      · intro h
        injection h with _ h2
        rw [← h2]
        rfl
      · rename_i cell2 hpick
        intro h
        injection h with h1 h2
        rcases hres : tryVals (dfs fuel) grid cand cell2 (cand.getD cell2 [])
          with ⟨res2, ev2⟩
        rw [hres] at h2
        rw [← h2]
        have hne : cell2 ≠ cell := by
          intro he
          rw [he] at hpick
          exact hg (pickMRV_unfilled grid cand cell hpick).1
        have := tryVals_noGuess cell (dfs fuel)
          (fun g c r e hgne hD => ih g c r e hgne hD)
          grid cand cell2 hne hg (cand.getD cell2 []) res2 ev2 hres
        simpa [guessesFor] using this

theorem tryVals_guesses (cell : Nat) (next : Grid → Cands → DRes × List Ev)
    (H : ∀ g c res ev, g.getD cell 0 ≠ 0 → next g c = (res, ev) →
      guessesFor cell ev = [])
    (grid : Grid) (cand : Cands)
    (hlen : grid.length = 81) (hcell : cell < 81) :
    ∀ (vals : List Nat), (∀ v ∈ vals, v ≠ 0) →
    ∀ (res : DRes) (ev : List Ev),
    tryVals next grid cand cell vals = (res, ev) →
    ∃ k, k ≤ vals.length ∧ guessesFor cell ev = vals.take k
      ∧ (res = .exhausted → k = vals.length) := by
  intro vals
  induction vals with
  | nil =>
    intro _ res ev h
    rw [tryVals] at h
    injection h with h1 h2
    rw [← h2]
    exact ⟨0, Nat.le_refl _, rfl, fun _ => rfl⟩
  | cons v rest ih =>
    intro hvals res ev h
    have hv0 : v ≠ 0 := hvals v (List.mem_cons_self _ _)
    have hrest : ∀ x ∈ rest, x ≠ 0 :=
      fun x hx => hvals x (List.mem_cons_of_mem _ hx)
    rw [tryVals] at h
    revert h
    split
    · rename_i aEv hA
      intro h
      injection h with h1 h2
      rcases hres : tryVals next grid cand cell rest with ⟨res2, ev2⟩
      rw [hres] at h1 h2
      rw [← h2]
      have haEv := assign_ev _ _ _ _ _ _ _ hA
      subst haEv
      obtain ⟨k, hkle, hk, hex⟩ := ih hrest res2 ev2 hres
      refine ⟨k + 1, Nat.succ_le_succ hkle, ?_, ?_⟩
      · simp [guessesFor, guessesFor_append, hk]
      · intro he
        rw [← h1] at he
        rw [List.length_cons, hex he]
    · rename_i g1 c1 aEv hA
      have haEv := assign_ev _ _ _ _ _ _ _ hA
      subst haEv
      obtain ⟨hgeq, -, -⟩ := assign_some _ _ _ _ _ _ _ _ hA
      have hg1 : g1.getD cell 0 = v := by
        rw [hgeq, getD_set_self _ _ _ _ (by rw [hlen]; exact hcell)]
      split
      · rename_i pEv hP
        intro h
        injection h with h1 h2
        rw [← h2]
        have hpg := propagate_guesses cell _ _ _ _ _ hP
        refine ⟨1, Nat.succ_le_succ (Nat.zero_le _), ?_, ?_⟩
        · simp [guessesFor, guessesFor_append, hpg]
        · intro he
          rw [← h1] at he
          exact DRes.noConfusion he
      · rename_i pEv hP
        intro h
        injection h with h1 h2
        rcases hres : tryVals next grid cand cell rest with ⟨res2, ev2⟩
        rw [hres] at h1 h2
        rw [← h2]
        have hpg := propagate_guesses cell _ _ _ _ _ hP
        obtain ⟨k, hkle, hk, hex⟩ := ih hrest res2 ev2 hres
        refine ⟨k + 1, Nat.succ_le_succ hkle, ?_, ?_⟩
        · simp [guessesFor, guessesFor_append, hpg, hk]
        · intro he
          rw [← h1] at he
          rw [List.length_cons, hex he]
      · rename_i g2 c2 pEv hP
        have hg2 : g2.getD cell 0 = v :=
          propagate_pres cell v hv0 _ g1 c1 g2 c2 pEv hg1 hP
        have hg2ne : g2.getD cell 0 ≠ 0 := by
          rw [hg2]
          exact hv0
        split
        · rename_i out dEv hD
          intro h
          injection h with h1 h2
          rw [← h2]
          have hpg := propagate_guesses cell _ _ _ _ _ hP
          have hdg := H g2 c2 _ dEv hg2ne hD
          refine ⟨1, Nat.succ_le_succ (Nat.zero_le _), ?_, ?_⟩
          · simp [guessesFor, guessesFor_append, hpg, hdg]
          · intro he
            rw [← h1] at he
            exact DRes.noConfusion he
        · rename_i dEv hD
          intro h
          injection h with h1 h2
          rcases hres : tryVals next grid cand cell rest with ⟨res2, ev2⟩
          rw [hres] at h1 h2
          rw [← h2]
          have hpg := propagate_guesses cell _ _ _ _ _ hP
          have hdg := H g2 c2 _ dEv hg2ne hD
          obtain ⟨k, hkle, hk, hex⟩ := ih hrest res2 ev2 hres
          refine ⟨k + 1, Nat.succ_le_succ hkle, ?_, ?_⟩
          · simp [guessesFor, guessesFor_append, hpg, hdg, hk]
          · intro he
            rw [← h1] at he
            rw [List.length_cons, hex he]
        · rename_i dEv hD
          intro h
          injection h with h1 h2
          rw [← h2]
          have hpg := propagate_guesses cell _ _ _ _ _ hP
          have hdg := H g2 c2 _ dEv hg2ne hD
          refine ⟨1, Nat.succ_le_succ (Nat.zero_le _), ?_, ?_⟩
          · simp [guessesFor, guessesFor_append, hpg, hdg]
          · intro he
            rw [← h1] at he
            exact DRes.noConfusion he

/-- Claim C6: at a branching step (grid unsolved, `pickMRV` returns a
cell), the selected cell is unresolved and has the smallest candidate-set
size among unresolved cells, ties broken by the lowest cell index; the
cell's candidate list is sorted ascending; and the `guess(cell, value)`
events of the search are exactly an initial segment of that list — one
event per value tried, in ascending numeric order, covering the whole list
when the branch is exhausted. -/
theorem C6_mrv_order (fuel : Nat) (grid : Grid) (cand : Cands) (cell : Nat)
    (hlen : grid.length = 81) (hinv : CandsInv cand)
    (hns : solved grid = false)
    (hpick : pickMRV grid cand = some cell) :
    (grid.getD cell 0 = 0 ∧ cell < 81
      ∧ (∀ i, i < 81 → grid.getD i 0 = 0 →
          (cand.getD cell []).length ≤ (cand.getD i []).length)
      ∧ (∀ i, i < cell → grid.getD i 0 = 0 →
          (cand.getD cell []).length < (cand.getD i []).length))
    ∧ List.Sorted (· < ·) (cand.getD cell [])
    ∧ (∃ k, k ≤ (cand.getD cell []).length
        ∧ guessesFor cell (dfs (fuel + 1) grid cand).2
            = (cand.getD cell []).take k
        ∧ ((dfs (fuel + 1) grid cand).1 = .exhausted →
            k = (cand.getD cell []).length)) := by
  obtain ⟨hc81, hcz, hmin, htie⟩ := pickMRV_spec grid cand cell hpick
  refine ⟨⟨hcz, hc81, hmin, htie⟩, (hinv cell).1, ?_⟩
  rcases hres : tryVals (dfs fuel) grid cand cell (cand.getD cell [])
    with ⟨res2, ev2⟩
  have hd : dfs (fuel + 1) grid cand = (res2, Ev.focus cell :: ev2) := by
    rw [dfs]
    rw [if_neg (by rw [hns]; simp)]
    simp only [hpick, hres]
  obtain ⟨k, hkle, hk, hex⟩ := tryVals_guesses cell (dfs fuel)
    (fun g c r e hgne hD => dfs_noGuess cell fuel g c r e hgne hD)
    grid cand hlen hc81 (cand.getD cell [])
    (fun v hv => Nat.one_le_iff_ne_zero.mp ((hinv cell).2 v hv).1)
    res2 ev2 hres
  refine ⟨k, hkle, ?_, ?_⟩
  · rw [hd]
    show guessesFor cell (Ev.focus cell :: ev2) = _
    rw [guessesFor]
    exact hk
  · intro he
    rw [hd] at he
    exact hex he

/-- Witness for C6: a concrete branching state (the complete grid `W` with
cell 0 cleared, singleton candidate sets). -/
theorem C6_mrv_order_witness :
    List.Sorted (· < ·) (Wcand.getD 0 [])
    ∧ (∃ k, k ≤ (Wcand.getD 0 []).length
        ∧ guessesFor 0 (dfs 2 (W.set 0 0) Wcand).2
            = (Wcand.getD 0 []).take k
        ∧ ((dfs 2 (W.set 0 0) Wcand).1 = DRes.exhausted →
            k = (Wcand.getD 0 []).length)) :=
  (C6_mrv_order 1 (W.set 0 0) Wcand 0 (by decide)
    (CandsInv_of_forall_mem Wcand (by decide)) (by decide) (by decide)).2

/-! ## Claim C3 infrastructure: the relative order of `backtrack` and
`unassign` events on a failed trial.  The code emits `backtrack(cell, val)`
first and `unassign(cell)` immediately after (solver.js lines 200-201,
206-207, 214-215); the spec states the opposite order. -/

/-- Scanner for the claimed pattern: an `unassign(i)` event immediately
followed by a `backtrack(i, v)` event for the same cell. -/
def hasUnassignThenBacktrack : List Ev → Bool
  | Ev.unassign i :: Ev.backtrack j v :: rest =>
    i == j || hasUnassignThenBacktrack (Ev.backtrack j v :: rest)
  | _ :: rest => hasUnassignThenBacktrack rest
  | [] => false

/-- State-carrying scanner for the code's pairing: `backtrack` and
`unassign` events occur only as adjacent pairs `backtrack(i, v)` directly
followed by `unassign(i)`.  The `Option` argument is a pending backtrack
cell awaiting its `unassign`. -/
def btPaired : Option Nat → List Ev → Bool
  | none, [] => true
  | some _, [] => false
  | none, Ev.backtrack i _ :: rest => btPaired (some i) rest
  | none, Ev.unassign _ :: _ => false
  | none, _ :: rest => btPaired none rest
  | some i, Ev.unassign j :: rest => i == j && btPaired none rest
  | some _, _ :: _ => false

theorem btPaired_append :
    ∀ (a : List Ev) (s : Option Nat) (b : List Ev),
    btPaired s a = true → btPaired none b = true →
    btPaired s (a ++ b) = true := by
  intro a
  induction a with
  | nil =>
    intro s b ha hb
    cases s with
    | none => exact hb
    | some i => exact Bool.noConfusion ha
  | cons e t ih =>
    intro s b ha hb
    cases s with
    | none =>
      cases e with
      | assignStep i v r => exact ih none b ha hb
      | focus i => exact ih none b ha hb
      | guess i v => exact ih none b ha hb
      | backtrack i v => exact ih (some i) b ha hb
      | unassign i => exact Bool.noConfusion ha
    | some i =>
      cases e with
      | assignStep i2 v r => exact Bool.noConfusion ha
      | focus i2 => exact Bool.noConfusion ha
      | guess i2 v => exact Bool.noConfusion ha
      | backtrack i2 v => exact Bool.noConfusion ha
      | unassign j =>
        have ha2 : (i == j && btPaired none t) = true := ha
        rw [Bool.and_eq_true] at ha2
        show (i == j && btPaired none (t ++ b)) = true
        rw [Bool.and_eq_true]
        exact ⟨ha2.1, ih none b ha2.2 hb⟩

theorem btPaired_all_assign :
    ∀ (evs : List Ev), (∀ e ∈ evs, isAssignEv e = true) →
    btPaired none evs = true := by
  intro evs
  induction evs with
  | nil =>
    intro _
    rfl
  | cons e t ih =>
    intro h
    have he := h e (List.mem_cons_self _ _)
    have ht := fun x hx => h x (List.mem_cons_of_mem _ hx)
    cases e with
    | assignStep i v r => exact ih ht
    | focus i => exact Bool.noConfusion he
    | guess i v => exact Bool.noConfusion he
    | backtrack i v => exact Bool.noConfusion he
    | unassign i => exact Bool.noConfusion he

theorem btPaired_pair (i v : Nat) :
    btPaired none [Ev.backtrack i v, Ev.unassign i] = true := by
  show (i == i && btPaired none ([] : List Ev)) = true
  rw [Bool.and_eq_true]
  exact ⟨beq_self_eq_true i, rfl⟩

theorem tryVals_btPaired (next : Grid → Cands → DRes × List Ev)
    (H : ∀ g c res ev, next g c = (res, ev) → btPaired none ev = true) :
    ∀ (vals : List Nat) (grid : Grid) (cand : Cands) (cell : Nat)
      (res : DRes) (ev : List Ev),
    tryVals next grid cand cell vals = (res, ev) →
    btPaired none ev = true := by
  intro vals
  induction vals with
  | nil =>
    intro grid cand cell res ev h
    rw [tryVals] at h
    injection h with _ h2
    rw [← h2]
    rfl
  | cons v rest ih =>
    intro grid cand cell res ev h
    rw [tryVals] at h
    revert h
    split
    · rename_i aEv hA
      intro h
      injection h with h1 h2
      rcases hres : tryVals next grid cand cell rest with ⟨res2, ev2⟩
      rw [hres] at h2
      rw [← h2]
      have haEv := assign_ev _ _ _ _ _ _ _ hA
      subst haEv
      exact btPaired_append _ none _
        (btPaired_append _ none _ rfl (btPaired_pair cell v))
        (ih grid cand cell res2 ev2 hres)
    · rename_i g1 c1 aEv hA
      have haEv := assign_ev _ _ _ _ _ _ _ hA
      subst haEv
      split
      · rename_i pEv hP
        intro h
        injection h with _ h2
        rw [← h2]
        exact btPaired_append _ none _ rfl
          (btPaired_all_assign pEv (propagate_ev _ _ _ _ _ hP))
      · rename_i pEv hP
        intro h
        injection h with h1 h2
        rcases hres : tryVals next grid cand cell rest with ⟨res2, ev2⟩
        rw [hres] at h2
        rw [← h2]
        exact btPaired_append _ none _
          (btPaired_append _ none _
            (btPaired_append _ none _ rfl
              (btPaired_all_assign pEv (propagate_ev _ _ _ _ _ hP)))
            (btPaired_pair cell v))
          (ih grid cand cell res2 ev2 hres)
      · rename_i g2 c2 pEv hP
        split
        · rename_i out dEv hD
          intro h
          injection h with _ h2
          rw [← h2]
          exact btPaired_append _ none _
            (btPaired_append _ none _ rfl
              (btPaired_all_assign pEv (propagate_ev _ _ _ _ _ hP)))
            (H g2 c2 _ dEv hD)
        · rename_i dEv hD
          intro h
          injection h with h1 h2
          rcases hres : tryVals next grid cand cell rest with ⟨res2, ev2⟩
          rw [hres] at h2
          rw [← h2]
          exact btPaired_append _ none _
            (btPaired_append _ none _
              (btPaired_append _ none _
                (btPaired_append _ none _ rfl
                  (btPaired_all_assign pEv (propagate_ev _ _ _ _ _ hP)))
                (H g2 c2 _ dEv hD))
              (btPaired_pair cell v))
            (ih grid cand cell res2 ev2 hres)
        · rename_i dEv hD
          intro h
          injection h with _ h2
          rw [← h2]
          exact btPaired_append _ none _
            (btPaired_append _ none _ rfl
              (btPaired_all_assign pEv (propagate_ev _ _ _ _ _ hP)))
            (H g2 c2 _ dEv hD)

theorem dfs_btPaired :
    ∀ (fuel : Nat) (grid : Grid) (cand : Cands) (res : DRes) (ev : List Ev),
    dfs fuel grid cand = (res, ev) →
    btPaired none ev = true := by
  intro fuel
  induction fuel with
  | zero =>
    intro grid cand res ev h
    rw [dfs] at h
    injection h with _ h2
    rw [← h2]
    rfl
  | succ fuel ih =>
    intro grid cand res ev h
    rw [dfs] at h
    revert h
    split
    · intro h
      injection h with _ h2
      rw [← h2]
      rfl
    · split
      · intro h
        injection h with _ h2
        rw [← h2]
        rfl
      · rename_i cell hpick
        intro h
        injection h with h1 h2
        rcases hres : tryVals (dfs fuel) grid cand cell (cand.getD cell [])
          with ⟨res2, ev2⟩
        rw [hres] at h2
        rw [← h2]
        exact tryVals_btPaired (dfs fuel)
          (fun g c r e hD => ih g c r e hD)
          (cand.getD cell []) grid cand cell res2 ev2 hres

/-- Claim C3 (corrected): on a failed trial the solver emits
`backtrack(cell, value)` first and `unassign(cell)` immediately after —
the opposite of the order the specification states.  In every trace the
solver produces, `backtrack` and `unassign` events occur only as adjacent
pairs, each `backtrack(cell, value)` directly followed by the matching
`unassign(cell)`, before the next candidate value is tried. -/
theorem C3_backtrack_order (g : Grid) :
    btPaired none (coreSolve g).2 = true := by
  simp only [coreSolve]
  split
  · rfl
  · split
    · rfl
    · split
      · rename_i ev hP
        exact btPaired_all_assign ev (propagate_ev _ _ _ _ _ hP)
      · rename_i ev hP
        exact btPaired_all_assign ev (propagate_ev _ _ _ _ _ hP)
      · rename_i g2 c2 ev hP
        split
        · exact btPaired_all_assign ev (propagate_ev _ _ _ _ _ hP)
        · split
          · rename_i out dEv hD
            exact btPaired_append _ none _
              (btPaired_all_assign ev (propagate_ev _ _ _ _ _ hP))
              (dfs_btPaired _ _ _ _ _ hD)
          · rename_i dEv hD
            exact btPaired_append _ none _
              (btPaired_all_assign ev (propagate_ev _ _ _ _ _ hP))
              (dfs_btPaired _ _ _ _ _ hD)
          · rename_i dEv hD
            exact btPaired_append _ none _
              (btPaired_all_assign ev (propagate_ev _ _ _ _ _ hP))
              (dfs_btPaired _ _ _ _ _ hD)

/-- A puzzle on which the search fails exactly one trial: its trace holds
one `backtrack` event, immediately followed by the matching `unassign`. -/
def gC3 : Grid :=
  [3,1,8,4,5,6,0,0,9,
   4,5,9,7,8,2,1,6,3,
   7,2,6,1,9,3,4,8,5,
   0,3,0,5,6,0,0,9,0,
   5,6,0,9,0,0,0,3,0,
   0,9,0,0,3,0,5,0,6,
   1,7,2,6,4,9,3,5,8,
   6,4,0,0,7,0,9,1,2,
   9,8,0,0,0,0,6,0,0]

set_option maxRecDepth 100000 in
set_option maxHeartbeats 4000000 in
/-- Counterexample to the order stated by the spec for C3: on `gC3` the
search fails a trial (the trace holds exactly one `backtrack` event), yet
nowhere in the trace is an `unassign(i)` immediately followed by a
`backtrack(i, v)` — the claimed `unassign`-then-`backtrack` emission never
occurs. -/
theorem C3_backtrack_order_cex :
    countBacktrack (coreSolve gC3).2 = 1
    ∧ hasUnassignThenBacktrack (coreSolve gC3).2 = false := by
  refine ⟨by decide, by decide⟩

/-! ## Claim C8 infrastructure: a store model of the grid arrays.

JS passes grid arrays by reference and `assign` mutates them in place
(`grid[i] = val`); the pure embedding above hides this.  To settle C8 the
mutating call chain is re-translated against an explicit store of grid
arrays: a slot number stands for an array reference, `gridInput.slice()`
(coreSolve, line 121) and `clone` (line 197, used by `dfs`) allocate fresh
slots, and `assign` writes through its slot.  Candidate sets are kept as
pure values: they are distinct heap objects from the caller's array and
cannot alias it.  The claim is the frame property: no run ever writes the
caller's slot. -/

def Store : Type := List Grid

def storeRead (σ : Store) (r : Nat) : Grid := List.getD σ r []

def storeWrite (σ : Store) (r : Nat) (g : Grid) : Store := List.set σ r g

def storeLen (σ : Store) : Nat := List.length σ

def storeAlloc (σ : Store) (g : Grid) : Store × Nat :=
  (List.append σ [g], storeLen σ)

/-- `validate(grid)` only reads its argument: its store version returns the
store unchanged. -/
def validateS (σ : Store) (r : Nat) : Store × VResult :=
  (σ, validate (storeRead σ r))

/-- Store version of `assign`: `grid[i] = val` is a write through the
slot; the candidate updates are the pure ones. -/
def assignS (σ : Store) (gref : Nat) (cand : Cands) (i val : Nat)
    (reason : String) : Store × Option Cands × List Ev :=
  match assignPeers ((storeRead σ gref).set i val) (cand.set i [val]) val
      (PEERS.getD i []) with
  | none => (storeWrite σ gref ((storeRead σ gref).set i val), none,
      [Ev.assignStep i val reason])
  | some c2 => (storeWrite σ gref ((storeRead σ gref).set i val), some c2,
      [Ev.assignStep i val reason])

/-- Pass outcome in the store model: the grid lives in the store. -/
inductive PassResS where
  | contra
  | done (cand : Cands) (changed : Bool)
deriving DecidableEq, Repr

/-- Store version of the single-candidate pass. -/
def nakedPassS (σ : Store) (gref : Nat) (cand : Cands) (changed : Bool) :
    List Nat → Store × PassResS × List Ev
  | [] => (σ, .done cand changed, [])
  | i :: rest =>
    if (storeRead σ gref).getD i 0 ≠ 0 then
      nakedPassS σ gref cand changed rest
    else
      match cand.getD i [] with
      | [val] =>
        match assignS σ gref cand i val "single-candidate" with
        | (σ2, none, ev) => (σ2, .contra, ev)
        | (σ2, some c2, ev) =>
          match nakedPassS σ2 gref c2 true rest with
          | (σ3, res, ev2) => (σ3, res, ev ++ ev2)
      | _ => nakedPassS σ gref cand changed rest

/-- Store version of the digit loop of the only-position pass. -/
def hiddenDigitsS (σ : Store) (gref : Nat) (cand : Cands) (changed : Bool)
    (pos : List (Nat × List Nat)) : List Nat → Store × PassResS × List Ev
  | [] => (σ, .done cand changed, [])
  | d :: ds =>
    match posGet pos d with
    | [s0] =>
      match assignS σ gref cand s0 d "only-position" with
      | (σ2, none, ev) => (σ2, .contra, ev)
      | (σ2, some c2, ev) =>
        match hiddenDigitsS σ2 gref c2 true pos ds with
        | (σ3, res, ev2) => (σ3, res, ev ++ ev2)
    | _ => hiddenDigitsS σ gref cand changed pos ds

/-- Store version of the only-position pass. -/
def hiddenPassS (σ : Store) (gref : Nat) (cand : Cands) (changed : Bool) :
    List (List Nat) → Store × PassResS × List Ev
  | [] => (σ, .done cand changed, [])
  | u :: us =>
    match hiddenDigitsS σ gref cand changed
        (buildPos (storeRead σ gref) cand u) DIGITS with
    | (σ2, .contra, ev) => (σ2, .contra, ev)
    | (σ2, .done c2 ch, ev) =>
      match hiddenPassS σ2 gref c2 ch us with
      | (σ3, res, ev2) => (σ3, res, ev ++ ev2)

/-- Store version of one iteration of the `propagate` loop. -/
def propagateIterS (σ : Store) (gref : Nat) (cand : Cands) :
    Store × PassResS × List Ev :=
  match nakedPassS σ gref cand false (List.range 81) with
  | (σ2, .contra, ev) => (σ2, .contra, ev)
  | (σ2, .done c2 ch, ev) =>
    match hiddenPassS σ2 gref c2 ch UNITS with
    | (σ3, .contra, ev2) => (σ3, .contra, ev ++ ev2)
    | (σ3, .done c3 ch2, ev2) => (σ3, .done c3 ch2, ev ++ ev2)

/-- Outcome of the fueled store `propagate`. -/
inductive PResS where
  | fuelOut
  | contra
  | done (cand : Cands)
deriving DecidableEq, Repr

/-- Store version of `propagate`. -/
def propagateS : Nat → Store → Nat → Cands → Store × PResS × List Ev
  | 0, σ, _, _ => (σ, .fuelOut, [])
  | fuel + 1, σ, gref, cand =>
    match propagateIterS σ gref cand with
    | (σ2, .contra, ev) => (σ2, .contra, ev)
    | (σ2, .done c2 true, ev) =>
      match propagateS fuel σ2 gref c2 with
      | (σ3, res, ev2) => (σ3, res, ev ++ ev2)
    | (σ2, .done c2 false, ev) => (σ2, .done c2, ev)

/-- Store version of the candidate loop of `dfs`: each iteration clones
the parent grid into a fresh slot (`clone`, line 197) and the branch works
only on that slot; the parent slot is left for the next iteration. -/
def tryValsS (next : Store → Nat → Cands → Store × DRes × List Ev)
    (gref : Nat) (cand : Cands) (cell : Nat) :
    Store → List Nat → Store × DRes × List Ev
  | σ, [] => (σ, .exhausted, [])
  | σ, val :: rest =>
    match storeAlloc σ (storeRead σ gref) with
    | (σ1, sref) =>
      match assignS σ1 sref cand cell val "guess" with
      | (σ2, none, aEv) =>
        match tryValsS next gref cand cell σ2 rest with
        | (σ3, res, ev2) =>
          (σ3, res, Ev.guess cell val :: aEv
            ++ [Ev.backtrack cell val, Ev.unassign cell] ++ ev2)
      | (σ2, some c1, aEv) =>
        match propagateS (zeros (storeRead σ2 sref) + 1) σ2 sref c1 with
        | (σ3, .fuelOut, pEv) =>
          (σ3, .fuelOut, Ev.guess cell val :: aEv ++ pEv)
        | (σ3, .contra, pEv) =>
          match tryValsS next gref cand cell σ3 rest with
          | (σ4, res, ev2) =>
            (σ4, res, Ev.guess cell val :: aEv ++ pEv
              ++ [Ev.backtrack cell val, Ev.unassign cell] ++ ev2)
        | (σ3, .done c2, pEv) =>
          match next σ3 sref c2 with
          | (σ4, .found out, dEv) =>
            (σ4, .found out, Ev.guess cell val :: aEv ++ pEv ++ dEv)
          | (σ4, .exhausted, dEv) =>
            match tryValsS next gref cand cell σ4 rest with
            | (σ5, res, ev2) =>
              (σ5, res, Ev.guess cell val :: aEv ++ pEv ++ dEv
                ++ [Ev.backtrack cell val, Ev.unassign cell] ++ ev2)
          | (σ4, .fuelOut, dEv) =>
            (σ4, .fuelOut, Ev.guess cell val :: aEv ++ pEv ++ dEv)

/-- Store version of `dfs`. -/
def dfsS : Nat → Store → Nat → Cands → Store × DRes × List Ev
  | 0, σ, _, _ => (σ, .fuelOut, [])
  | fuel + 1, σ, gref, cand =>
    if solved (storeRead σ gref) then (σ, .found (storeRead σ gref), [])
    else
      match pickMRV (storeRead σ gref) cand with
      | none => (σ, .exhausted, [])
      | some cell =>
        match tryValsS (dfsS fuel) gref cand cell σ (cand.getD cell []) with
        | (σ2, res, ev) => (σ2, res, Ev.focus cell :: ev)

/-- Store version of `coreSolve`: `gridInput.slice()` allocates a fresh
slot, and everything after works on that slot. -/
def coreSolveS (σ : Store) (cref : Nat) : Store × SolveResult × List Ev :=
  match storeAlloc σ (storeRead σ cref) with
  | (σ1, gref) =>
    if (validate (storeRead σ1 gref)).ok = false then
      (σ1, .err (.conflictsFound (validate (storeRead σ1 gref)).conflicts),
        [])
    else
      match buildCandidates (storeRead σ1 gref) with
      | none => (σ1, .err .invalidPuzzle, [])
      | some cand =>
        match propagateS (zeros (storeRead σ1 gref) + 1) σ1 gref cand with
        | (σ2, .fuelOut, ev) => (σ2, .err .unsolvablePuzzle, ev)
        | (σ2, .contra, ev) => (σ2, .err .unsolvablePuzzle, ev)
        | (σ2, .done c2, ev) =>
          if solved (storeRead σ2 gref) then
            (σ2, .ok (storeRead σ2 gref), ev)
          else
            match dfsS (zeros (storeRead σ2 gref) + 1) σ2 gref c2 with
            | (σ3, .found out, dEv) => (σ3, .ok out, ev ++ dEv)
            | (σ3, .exhausted, dEv) =>
              (σ3, .err .noSolutionFound, ev ++ dEv)
            | (σ3, .fuelOut, dEv) =>
              (σ3, .err .noSolutionFound, ev ++ dEv)

/-- Store version of `solve`. -/
def solveS (σ : Store) (cref : Nat) : Store × SolveResult :=
  match coreSolveS σ cref with
  | (σ2, res, _) => (σ2, res)

/-- Store version of `solveWithSteps`. -/
def solveWithStepsS (σ : Store) (cref : Nat) :
    Store × SolveResult × List Ev := coreSolveS σ cref

theorem storeWrite_len (σ : Store) (r : Nat) (g : Grid) :
    storeLen (storeWrite σ r g) = storeLen σ :=
  List.length_set σ r g

theorem storeWrite_frame (σ : Store) (r : Nat) (g : Grid) (s : Nat)
    (h : s ≠ r) : storeRead (storeWrite σ r g) s = storeRead σ s :=
  getD_set_ne σ g [] (fun he => h he.symm)

theorem storeAlloc_frame (σ : Store) (g : Grid) (s : Nat)
    (h : s < storeLen σ) :
    storeRead (storeAlloc σ g).1 s = storeRead σ s :=
  List.getD_append σ [g] [] s h

theorem storeAlloc_len (σ : Store) (g : Grid) :
    storeLen (storeAlloc σ g).1 = storeLen σ + 1 := by
  show (List.append σ [g]).length = σ.length + 1
  rw [List.append_eq, List.length_append, List.length_singleton]

theorem assignS_frame (σ : Store) (gref : Nat) (cand : Cands) (i val : Nat)
    (r : String) (σ2 : Store) (o : Option Cands) (ev : List Ev)
    (h : assignS σ gref cand i val r = (σ2, o, ev)) :
    storeLen σ2 = storeLen σ
    ∧ ∀ s, s ≠ gref → storeRead σ2 s = storeRead σ s := by
  unfold assignS at h
  revert h
  split
  · intro h
    injection h with h1 _
    rw [← h1]
    exact ⟨storeWrite_len _ _ _, fun s hs => storeWrite_frame _ _ _ s hs⟩
  · intro h
    injection h with h1 _
    rw [← h1]
    exact ⟨storeWrite_len _ _ _, fun s hs => storeWrite_frame _ _ _ s hs⟩

theorem nakedPassS_frame :
    ∀ (l : List Nat) (σ : Store) (gref : Nat) (cand : Cands) (ch : Bool)
      (σ2 : Store) (res : PassResS) (ev : List Ev),
    nakedPassS σ gref cand ch l = (σ2, res, ev) →
    storeLen σ ≤ storeLen σ2
    ∧ ∀ s, s < storeLen σ → s ≠ gref → storeRead σ2 s = storeRead σ s := by
  intro l
  induction l with
  | nil =>
    intro σ gref cand ch σ2 res ev h
    rw [nakedPassS] at h
    injection h with h1 _
    rw [← h1]
    exact ⟨Nat.le_refl _, fun s _ _ => rfl⟩
  | cons i t ih =>
    intro σ gref cand ch σ2 res ev h
    rw [nakedPassS] at h
    revert h
    split
    · intro h
      exact ih σ gref cand ch σ2 res ev h
    · split
      · rename_i val hval
        split
        · rename_i σa ev1 hA
          intro h
          injection h with h1 h2
          rw [← h1]
          obtain ⟨hl, hf⟩ := assignS_frame _ _ _ _ _ _ _ _ _ hA
          exact ⟨Nat.le_of_eq hl.symm, fun s _ hs => hf s hs⟩
        · rename_i σa c2 ev1 hA
          split
          · rename_i σ3 res3 ev3 hN
            intro h
            injection h with h1 h2
            rw [← h1]
            obtain ⟨hl, hf⟩ := assignS_frame _ _ _ _ _ _ _ _ _ hA
            obtain ⟨hl2, hf2⟩ := ih σa gref c2 true σ3 res3 ev3 hN
            refine ⟨Nat.le_trans (Nat.le_of_eq hl.symm) hl2, ?_⟩
            intro s hslt hs
            rw [hf2 s (by rw [hl]; exact hslt) hs, hf s hs]
      · intro h
        exact ih σ gref cand ch σ2 res ev h

theorem hiddenDigitsS_frame (pos : List (Nat × List Nat)) :
    ∀ (ds : List Nat) (σ : Store) (gref : Nat) (cand : Cands) (ch : Bool)
      (σ2 : Store) (res : PassResS) (ev : List Ev),
    hiddenDigitsS σ gref cand ch pos ds = (σ2, res, ev) →
    storeLen σ ≤ storeLen σ2
    ∧ ∀ s, s < storeLen σ → s ≠ gref → storeRead σ2 s = storeRead σ s := by
  intro ds
  induction ds with
  | nil =>
    intro σ gref cand ch σ2 res ev h
    rw [hiddenDigitsS] at h
    injection h with h1 _
    rw [← h1]
    exact ⟨Nat.le_refl _, fun s _ _ => rfl⟩
  | cons d t ih =>
    intro σ gref cand ch σ2 res ev h
    rw [hiddenDigitsS] at h
    revert h
    split
    · rename_i s0 hpos
      split
      · rename_i σa ev1 hA
        intro h
        injection h with h1 h2
        rw [← h1]
        obtain ⟨hl, hf⟩ := assignS_frame _ _ _ _ _ _ _ _ _ hA
        exact ⟨Nat.le_of_eq hl.symm, fun s _ hs => hf s hs⟩
      · rename_i σa c2 ev1 hA
        split
        · rename_i σ3 res3 ev3 hN
          intro h
          injection h with h1 h2
          rw [← h1]
          obtain ⟨hl, hf⟩ := assignS_frame _ _ _ _ _ _ _ _ _ hA
          obtain ⟨hl2, hf2⟩ := ih σa gref c2 true σ3 res3 ev3 hN
          refine ⟨Nat.le_trans (Nat.le_of_eq hl.symm) hl2, ?_⟩
          intro s hslt hs
          rw [hf2 s (by rw [hl]; exact hslt) hs, hf s hs]
    · intro h
      exact ih σ gref cand ch σ2 res ev h

theorem hiddenPassS_frame :
    ∀ (us : List (List Nat)) (σ : Store) (gref : Nat) (cand : Cands)
      (ch : Bool) (σ2 : Store) (res : PassResS) (ev : List Ev),
    hiddenPassS σ gref cand ch us = (σ2, res, ev) →
    storeLen σ ≤ storeLen σ2
    ∧ ∀ s, s < storeLen σ → s ≠ gref → storeRead σ2 s = storeRead σ s := by
  intro us
  induction us with
  | nil =>
    intro σ gref cand ch σ2 res ev h
    rw [hiddenPassS] at h
    injection h with h1 _
    rw [← h1]
    exact ⟨Nat.le_refl _, fun s _ _ => rfl⟩
  | cons u t ih =>
    intro σ gref cand ch σ2 res ev h
    rw [hiddenPassS] at h
    revert h
    split
    · rename_i σa ev1 hH
      intro h
      injection h with h1 h2
      rw [← h1]
      obtain ⟨hl, hf⟩ := hiddenDigitsS_frame _ _ _ _ _ _ _ _ _ hH
      exact ⟨hl, hf⟩
    · rename_i σa c2 ch2 ev1 hH
      split
      · rename_i σ3 res3 ev3 hN
        intro h
        injection h with h1 h2
        rw [← h1]
        obtain ⟨hl, hf⟩ := hiddenDigitsS_frame _ _ _ _ _ _ _ _ _ hH
        obtain ⟨hl2, hf2⟩ := ih σa gref c2 ch2 σ3 res3 ev3 hN
        refine ⟨Nat.le_trans hl hl2, ?_⟩
        intro s hslt hs
        rw [hf2 s (Nat.lt_of_lt_of_le hslt hl) hs, hf s hslt hs]

theorem propagateIterS_frame (σ : Store) (gref : Nat) (cand : Cands)
    (σ2 : Store) (res : PassResS) (ev : List Ev)
    (h : propagateIterS σ gref cand = (σ2, res, ev)) :
    storeLen σ ≤ storeLen σ2
    ∧ ∀ s, s < storeLen σ → s ≠ gref → storeRead σ2 s = storeRead σ s := by
  unfold propagateIterS at h
  revert h
  split
  · rename_i σa ev1 hN
    intro h
    injection h with h1 h2
    rw [← h1]
    exact nakedPassS_frame _ _ _ _ _ _ _ _ hN
  · rename_i σa c2 ch ev1 hN
    split
    · rename_i σb ev2 hH
      intro h
      injection h with h1 h2
      rw [← h1]
      obtain ⟨hl, hf⟩ := nakedPassS_frame _ _ _ _ _ _ _ _ hN
      obtain ⟨hl2, hf2⟩ := hiddenPassS_frame _ _ _ _ _ _ _ _ hH
      refine ⟨Nat.le_trans hl hl2, ?_⟩
      intro s hslt hs
      rw [hf2 s (Nat.lt_of_lt_of_le hslt hl) hs, hf s hslt hs]
    · rename_i σb c3 ch2 ev2 hH
      intro h
      injection h with h1 h2
      rw [← h1]
      obtain ⟨hl, hf⟩ := nakedPassS_frame _ _ _ _ _ _ _ _ hN
      obtain ⟨hl2, hf2⟩ := hiddenPassS_frame _ _ _ _ _ _ _ _ hH
      refine ⟨Nat.le_trans hl hl2, ?_⟩
      intro s hslt hs
      rw [hf2 s (Nat.lt_of_lt_of_le hslt hl) hs, hf s hslt hs]

theorem propagateS_frame :
    ∀ (fuel : Nat) (σ : Store) (gref : Nat) (cand : Cands)
      (σ2 : Store) (res : PResS) (ev : List Ev),
    propagateS fuel σ gref cand = (σ2, res, ev) →
    storeLen σ ≤ storeLen σ2
    ∧ ∀ s, s < storeLen σ → s ≠ gref → storeRead σ2 s = storeRead σ s := by
  intro fuel
  induction fuel with
  | zero =>
    intro σ gref cand σ2 res ev h
    rw [propagateS] at h
    injection h with h1 _
    rw [← h1]
    exact ⟨Nat.le_refl _, fun s _ _ => rfl⟩
  | succ fuel ih =>
    intro σ gref cand σ2 res ev h
    rw [propagateS] at h
    revert h
    split
    · rename_i σa ev1 hI
      intro h
      injection h with h1 h2
      rw [← h1]
      exact propagateIterS_frame _ _ _ _ _ _ hI
    · rename_i σa c2 ev1 hI
      split
      · rename_i σ3 res3 ev3 hP
        intro h
        injection h with h1 h2
        rw [← h1]
        obtain ⟨hl, hf⟩ := propagateIterS_frame _ _ _ _ _ _ hI
        obtain ⟨hl2, hf2⟩ := ih σa gref c2 σ3 res3 ev3 hP
        refine ⟨Nat.le_trans hl hl2, ?_⟩
        intro s hslt hs
        rw [hf2 s (Nat.lt_of_lt_of_le hslt hl) hs, hf s hslt hs]
    · rename_i σa c2 ev1 hI
      intro h
      injection h with h1 h2
      rw [← h1]
      exact propagateIterS_frame _ _ _ _ _ _ hI

theorem frame_comp (σa σb σc : Store)
    (h1 : storeLen σa ≤ storeLen σb)
    (f1 : ∀ s, s < storeLen σa → storeRead σb s = storeRead σa s)
    (h2 : storeLen σb ≤ storeLen σc)
    (f2 : ∀ s, s < storeLen σb → storeRead σc s = storeRead σb s) :
    storeLen σa ≤ storeLen σc
    ∧ ∀ s, s < storeLen σa → storeRead σc s = storeRead σa s :=
  ⟨Nat.le_trans h1 h2, fun s hs => by
    rw [f2 s (Nat.lt_of_lt_of_le hs h1), f1 s hs]⟩

theorem tryValsS_frame (next : Store → Nat → Cands → Store × DRes × List Ev)
    (H : ∀ σ r cand σ2 res ev, next σ r cand = (σ2, res, ev) →
      storeLen σ ≤ storeLen σ2
      ∧ ∀ s, s < storeLen σ → storeRead σ2 s = storeRead σ s)
    (gref : Nat) (cand : Cands) (cell : Nat) :
    ∀ (vals : List Nat) (σ σf : Store) (res : DRes) (ev : List Ev),
    tryValsS next gref cand cell σ vals = (σf, res, ev) →
    storeLen σ ≤ storeLen σf
    ∧ ∀ s, s < storeLen σ → storeRead σf s = storeRead σ s := by
  intro vals
  induction vals with
  | nil =>
    intro σ σf res ev h
    rw [tryValsS] at h
    injection h with h1 _
    rw [← h1]
    exact ⟨Nat.le_refl _, fun s _ => rfl⟩
  | cons v rest ih =>
    intro σ σf res ev h
    rw [tryValsS] at h
    simp only [storeAlloc] at h
    generalize hg1 : List.append σ [storeRead σ gref] = σ1 at h
    have hal : storeLen σ ≤ storeLen σ1 := by
      rw [← hg1]
      show storeLen σ ≤ storeLen (storeAlloc σ (storeRead σ gref)).1
      rw [storeAlloc_len]
      exact Nat.le_succ _
    have haf : ∀ s, s < storeLen σ → storeRead σ1 s = storeRead σ s := by
      rw [← hg1]
      exact fun s hs => storeAlloc_frame σ (storeRead σ gref) s hs
    revert h
    split
    · rename_i σ2 aEv hA
      obtain ⟨hl2, hf2⟩ := assignS_frame _ _ _ _ _ _ _ _ _ hA
      have c1 : storeLen σ ≤ storeLen σ2
          ∧ ∀ s, s < storeLen σ → storeRead σ2 s = storeRead σ s :=
        ⟨Nat.le_trans hal (Nat.le_of_eq hl2.symm),
          fun s hs => by rw [hf2 s (Nat.ne_of_lt hs), haf s hs]⟩
      intro h
      injection h with h1 _
      rcases hT : tryValsS next gref cand cell σ2 rest with ⟨σ3, res3, ev3⟩
      rw [hT] at h1
      have h1b : σ3 = σf := h1
      rw [← h1b]
      obtain ⟨hlT, hfT⟩ := ih σ2 σ3 res3 ev3 hT
      exact frame_comp σ σ2 σ3 c1.1 c1.2 hlT hfT
    · rename_i σ2 c1cand aEv hA
      obtain ⟨hl2, hf2⟩ := assignS_frame _ _ _ _ _ _ _ _ _ hA
      have c1 : storeLen σ ≤ storeLen σ2
          ∧ ∀ s, s < storeLen σ → storeRead σ2 s = storeRead σ s :=
        ⟨Nat.le_trans hal (Nat.le_of_eq hl2.symm),
          fun s hs => by rw [hf2 s (Nat.ne_of_lt hs), haf s hs]⟩
      have hlen1 : storeLen σ ≤ storeLen σ2 := c1.1
      split
      · rename_i σ3 pEv hP
        intro h
        injection h with h1 _
        rw [← h1]
        obtain ⟨hlP, hfP⟩ := propagateS_frame _ _ _ _ _ _ _ hP
        refine ⟨Nat.le_trans c1.1 hlP, fun s hs => ?_⟩
        rw [hfP s (Nat.lt_of_lt_of_le hs c1.1)
          (Nat.ne_of_lt hs), c1.2 s hs]
      · rename_i σ3 pEv hP
        obtain ⟨hlP, hfP⟩ := propagateS_frame _ _ _ _ _ _ _ hP
        have c2 : storeLen σ ≤ storeLen σ3
            ∧ ∀ s, s < storeLen σ → storeRead σ3 s = storeRead σ s :=
          ⟨Nat.le_trans c1.1 hlP, fun s hs => by
            rw [hfP s (Nat.lt_of_lt_of_le hs c1.1)
              (Nat.ne_of_lt hs), c1.2 s hs]⟩
        intro h
        injection h with h1 _
        rcases hT : tryValsS next gref cand cell σ3 rest with ⟨σ4, res4, ev4⟩
        rw [hT] at h1
        have h1b : σ4 = σf := h1
        rw [← h1b]
        obtain ⟨hlT, hfT⟩ := ih σ3 σ4 res4 ev4 hT
        exact frame_comp σ σ3 σ4 c2.1 c2.2 hlT hfT
      · rename_i σ3 c2cand pEv hP
        obtain ⟨hlP, hfP⟩ := propagateS_frame _ _ _ _ _ _ _ hP
        have c2 : storeLen σ ≤ storeLen σ3
            ∧ ∀ s, s < storeLen σ → storeRead σ3 s = storeRead σ s :=
          ⟨Nat.le_trans c1.1 hlP, fun s hs => by
            rw [hfP s (Nat.lt_of_lt_of_le hs c1.1)
              (Nat.ne_of_lt hs), c1.2 s hs]⟩
        split
        · rename_i σ4 out dEv hD
          intro h
          injection h with h1 _
          rw [← h1]
          obtain ⟨hlD, hfD⟩ := H _ _ _ _ _ _ hD
          exact frame_comp σ σ3 σ4 c2.1 c2.2 hlD hfD
        · rename_i σ4 dEv hD
          obtain ⟨hlD, hfD⟩ := H _ _ _ _ _ _ hD
          have c3 := frame_comp σ σ3 σ4 c2.1 c2.2 hlD hfD
          intro h
          injection h with h1 _
          rcases hT : tryValsS next gref cand cell σ4 rest
            with ⟨σ5, res5, ev5⟩
          rw [hT] at h1
          have h1b : σ5 = σf := h1
          rw [← h1b]
          obtain ⟨hlT, hfT⟩ := ih σ4 σ5 res5 ev5 hT
          exact frame_comp σ σ4 σ5 c3.1 c3.2 hlT hfT
        · rename_i σ4 dEv hD
          intro h
          injection h with h1 _
          rw [← h1]
          obtain ⟨hlD, hfD⟩ := H _ _ _ _ _ _ hD
          exact frame_comp σ σ3 σ4 c2.1 c2.2 hlD hfD

theorem dfsS_frame :
    ∀ (fuel : Nat) (σ : Store) (gref : Nat) (cand : Cands) (σf : Store)
      (res : DRes) (ev : List Ev),
    dfsS fuel σ gref cand = (σf, res, ev) →
    storeLen σ ≤ storeLen σf
    ∧ ∀ s, s < storeLen σ → storeRead σf s = storeRead σ s := by
  intro fuel
  induction fuel with
  | zero =>
    intro σ gref cand σf res ev h
    rw [dfsS] at h
    injection h with h1 _
    rw [← h1]
    exact ⟨Nat.le_refl _, fun s _ => rfl⟩
  | succ fuel ih =>
    intro σ gref cand σf res ev h
    rw [dfsS] at h
    revert h
    split
    · intro h
      injection h with h1 _
      rw [← h1]
      exact ⟨Nat.le_refl _, fun s _ => rfl⟩
    · split
      · intro h
        injection h with h1 _
        rw [← h1]
        exact ⟨Nat.le_refl _, fun s _ => rfl⟩
      · rename_i cell hpick
        split
        · rename_i σ2 res2 ev2 hT
          intro h
          injection h with h1 _
          rw [← h1]
          exact tryValsS_frame (dfsS fuel)
            (fun σa r c σb rs e hb => ih σa r c σb rs e hb)
            gref cand cell (cand.getD cell []) σ σ2 res2 ev2 hT

theorem coreSolveS_frame (σ : Store) (cref : Nat) (σf : Store)
    (res : SolveResult) (ev : List Ev)
    (h : coreSolveS σ cref = (σf, res, ev)) :
    storeLen σ ≤ storeLen σf
    ∧ ∀ s, s < storeLen σ → storeRead σf s = storeRead σ s := by
  unfold coreSolveS at h
  simp only [storeAlloc] at h
  generalize hg1 : List.append σ [storeRead σ cref] = σ1 at h
  have hal : storeLen σ ≤ storeLen σ1 := by
    rw [← hg1]
    show storeLen σ ≤ storeLen (storeAlloc σ (storeRead σ cref)).1
    rw [storeAlloc_len]
    exact Nat.le_succ _
  have haf : ∀ s, s < storeLen σ → storeRead σ1 s = storeRead σ s := by
    rw [← hg1]
    exact fun s hs => storeAlloc_frame σ (storeRead σ cref) s hs
  revert h
  split
  · intro h
    injection h with h1 _
    rw [← h1]
    exact ⟨hal, haf⟩
  · split
    · intro h
      injection h with h1 _
      rw [← h1]
      exact ⟨hal, haf⟩
    · rename_i cand hB
      split
      · rename_i σ2 ev1 hP
        intro h
        injection h with h1 _
        rw [← h1]
        obtain ⟨hlP, hfP⟩ := propagateS_frame _ _ _ _ _ _ _ hP
        refine ⟨Nat.le_trans hal hlP, fun s hs => ?_⟩
        rw [hfP s (Nat.lt_of_lt_of_le hs hal) (Nat.ne_of_lt hs), haf s hs]
      · rename_i σ2 ev1 hP
        intro h
        injection h with h1 _
        rw [← h1]
        obtain ⟨hlP, hfP⟩ := propagateS_frame _ _ _ _ _ _ _ hP
        refine ⟨Nat.le_trans hal hlP, fun s hs => ?_⟩
        rw [hfP s (Nat.lt_of_lt_of_le hs hal) (Nat.ne_of_lt hs), haf s hs]
      · rename_i σ2 c2 ev1 hP
        obtain ⟨hlP, hfP⟩ := propagateS_frame _ _ _ _ _ _ _ hP
        have c1 : storeLen σ ≤ storeLen σ2
            ∧ ∀ s, s < storeLen σ → storeRead σ2 s = storeRead σ s :=
          ⟨Nat.le_trans hal hlP, fun s hs => by
            rw [hfP s (Nat.lt_of_lt_of_le hs hal) (Nat.ne_of_lt hs),
              haf s hs]⟩
        split
        · intro h
          injection h with h1 _
          rw [← h1]
          exact c1
        · split
          · rename_i σ3 out dEv hD
            intro h
            injection h with h1 _
            rw [← h1]
            obtain ⟨hlD, hfD⟩ := dfsS_frame _ _ _ _ _ _ _ hD
            exact frame_comp σ σ2 σ3 c1.1 c1.2 hlD hfD
          · rename_i σ3 dEv hD
            intro h
            injection h with h1 _
            rw [← h1]
            obtain ⟨hlD, hfD⟩ := dfsS_frame _ _ _ _ _ _ _ hD
            exact frame_comp σ σ2 σ3 c1.1 c1.2 hlD hfD
          · rename_i σ3 dEv hD
            intro h
            injection h with h1 _
            rw [← h1]
            obtain ⟨hlD, hfD⟩ := dfsS_frame _ _ _ _ _ _ _ hD
            exact frame_comp σ σ2 σ3 c1.1 c1.2 hlD hfD

/-- Claim C8: in the store model of the grid arrays, `validate` returns
the store untouched, and `solve` / `solveWithSteps` (both `coreSolve` on a
fresh copy of the caller's array) leave the caller's slot holding exactly
the grid it held before the call, whatever the outcome: the solver writes
only to the slot allocated by `gridInput.slice()` and to the fresh slots
allocated by `clone` during search. -/
theorem C8_no_mutation (σ : Store) (cref : Nat) (hc : cref < storeLen σ) :
    (validateS σ cref).1 = σ
    ∧ storeRead (solveS σ cref).1 cref = storeRead σ cref
    ∧ storeRead (solveWithStepsS σ cref).1 cref = storeRead σ cref := by
  refine ⟨rfl, ?_, ?_⟩
  · rcases hcs : coreSolveS σ cref with ⟨σf, res, ev⟩
    have hs : (solveS σ cref).1 = σf := by
      unfold solveS
      rw [hcs]
    rw [hs]
    exact (coreSolveS_frame σ cref σf res ev hcs).2 cref hc
  · rcases hcs : coreSolveS σ cref with ⟨σf, res, ev⟩
    have hs : (solveWithStepsS σ cref).1 = σf := by
      unfold solveWithStepsS
      rw [hcs]
    rw [hs]
    exact (coreSolveS_frame σ cref σf res ev hcs).2 cref hc

/-- Witness for C8: a one-slot store holding the grid `W`. -/
theorem C8_no_mutation_witness :
    (validateS [W] 0).1 = [W]
    ∧ storeRead (solveS [W] 0).1 0 = storeRead [W] 0
    ∧ storeRead (solveWithStepsS [W] 0).1 0 = storeRead [W] 0 :=
  C8_no_mutation [W] 0 (by decide)
